import Mathlib

/-! # nicegraf-samples: the Dear ImGui rendering backend

A shallow embedding of `ngf_imgui::record_rendering_commands`
(`src/common/imgui_ngf_backend.cpp`), the routine that turns the draw lists of
the UI library into one vertex array, one index array and a sequence of
scissored indexed draws.

Conventions of the embedding

* a `float` is an IEEE 754 binary32 value: a finite number, an infinity or a
  NaN (`float`).  Every `float` operation of the routine rounds its exact
  result to the nearest binary32 value, ties to even (`round_to_float`); the
  comparisons are the IEEE comparisons, false when an operand is a NaN.  The
  operations are evaluated in binary32 itself (no excess precision).  The
  sign of a zero is not kept: the comparisons, the multiplication, the
  subtraction and the conversions of the routine do not tell `-0` from `+0`.
* the projection matrix alone is computed over exact rational arithmetic on
  the numbers the `float`s stand for (`ortho_projection`), the property stated
  about it being one of exact arithmetic.
* `uint32_t` arithmetic is arithmetic on `Nat` reduced modulo `2^32`
  (`u32`); the 16-bit index type `ImDrawIdx` is reduced modulo `2^16` (`u16`).
* a conversion `float → integer` is the truncation toward zero.  C++ defines
  it only when the truncated value fits the 32-bit target type, and on that
  domain the model and the code agree.  Outside of it the behaviour is
  undefined; the model then gives the value the x86-64 conversion gives
  (`-2^31` for `int32_t`, reduction modulo `2^32` for `uint32_t`).
* a write past the end of a host array is undefined behaviour in C++; the
  model makes it an explicit failure (`none`).
* the effects of a call (writes to the uniform channel, commands recorded on
  the encoder, user callbacks, buffer operations) are a list of `event`s in
  the order of the source; the answers of the rendering API are a parameter
  (`device`).
-/

namespace ngf_imgui

/-! ## Data model (the parts of Dear ImGui and nicegraf the routine touches) -/

/-- A value of the C type `float` (IEEE 754 binary32): a finite number, an
infinity (`negative` tells its sign) or a NaN.  The finite values that occur
in a run are the binary32 numbers; the type admits every rational so that a
literal can be written down, and every operation rounds its result. -/
inductive float where
  | finite (value : ℚ)
  | infinity (negative : Bool)
  | nan
deriving DecidableEq

/-- Two `float`s, as in `ImVec2`. -/
structure ImVec2 where
  x : float
  y : float
deriving DecidableEq

/-- Four `float`s, as in `ImVec4`; a clip rectangle is
`(x, y, z, w) = (left, top, right, bottom)`. -/
structure ImVec4 where
  x : float
  y : float
  z : float
  w : float
deriving DecidableEq

/-- A `float` literal: the number written. -/
instance (n : Nat) : OfNat float n := ⟨float.finite n⟩

/-- Unary minus of a `float`. -/
instance : Neg float :=
  ⟨fun f =>
    match f with
    | float.finite a => float.finite (-a)
    | float.infinity n => float.infinity (!n)
    | float.nan => float.nan⟩

/-- A vertex as in `ImDrawVert`: position, texture coordinate, packed colour. -/
structure ImDrawVert where
  pos : ImVec2
  uv : ImVec2
  col : Nat
deriving DecidableEq

/-- The value-initialised vertex `ImDrawVert()` the host array is filled with
(line 210). -/
def ImDrawVert.zero : ImDrawVert := ⟨⟨0, 0⟩, ⟨0, 0⟩, 0⟩

/-- A sub-command as in `ImDrawCmd`.  `ElemCount` is an `unsigned int`;
`UserCallback` is a function pointer, `none` standing for `nullptr` and
`some f` for the callback named `f`. -/
structure ImDrawCmd where
  ElemCount : Nat
  ClipRect : ImVec4
  UserCallback : Option Nat
deriving DecidableEq

/-- A draw list as in `ImDrawList`: sub-commands, index segment (values of the
16-bit type `ImDrawIdx`) and vertex segment.  `IdxBuffer.Size` and
`VtxBuffer.Size` are the lengths of the lists. -/
structure ImDrawList where
  CmdBuffer : List ImDrawCmd
  IdxBuffer : List Nat
  VtxBuffer : List ImDrawVert
deriving DecidableEq

/-- A rectangle as in `ngf_irect2d`: signed origin, unsigned extent. -/
structure ngf_irect2d where
  x : Int
  y : Int
  width : Nat
  height : Nat
deriving DecidableEq

/-- The local `struct draw_data` (lines 214-218): one batch. -/
structure draw_data where
  scissor : ngf_irect2d
  first_elem : Nat
  nelem : Nat
deriving DecidableEq

/-- One invocation `cmd.UserCallback(imgui_cmd_list, &cmd)` (line 247): the
callback and the two arguments it received. -/
structure callback_call where
  callback : Nat
  cmd_list : ImDrawList
  cmd : ImDrawCmd
deriving DecidableEq

/-! ## Machine arithmetic -/

/-- Reduction to the range of `uint32_t`. -/
def u32 (n : Nat) : Nat := n % 2 ^ 32

/-- Reduction to the range of the 16-bit `ImDrawIdx`: the cast `(ImDrawIdx)`. -/
def u16 (n : Nat) : Nat := n % 2 ^ 16

/-- The power `2^e` of two, for an integer exponent. -/
def pow2 (e : Int) : ℚ :=
  if 0 ≤ e then ((2 ^ e.toNat : Nat) : ℚ) else 1 / ((2 ^ (-e).toNat : Nat) : ℚ)

/-- The position of the leading bit of `n` (0 for `n < 2`), by halving; `fuel`
bounds the number of halvings and `n` itself is enough. -/
def log2_floor : Nat → Nat → Nat
  | 0, _ => 0
  | fuel + 1, n => if n < 2 then 0 else log2_floor fuel (n / 2) + 1

/-- The binary32 exponent of the positive number `a`: the `e` with
`2^e ≤ a < 2^(e+1)`, but not less than `-126`, the exponent of the subnormal
numbers. -/
def float_exponent (a : ℚ) : Int :=
  let e : Int := (log2_floor a.num.natAbs a.num.natAbs : Int) - (log2_floor a.den a.den : Int)
  max (if a < pow2 e then e - 1 else e) (-126)

/-- Rounding to the nearest integer, a tie going to the even one. -/
def round_half_even (q : ℚ) : Int :=
  if q - ⌊q⌋ < 1 / 2 then ⌊q⌋
  else if 1 / 2 < q - ⌊q⌋ then ⌊q⌋ + 1
  else if ⌊q⌋ % 2 = 0 then ⌊q⌋ else ⌊q⌋ + 1

/-- The number `q` rounded to 24 bits of precision: to the nearest multiple of
`2^(e-23)`, where `e` is the exponent of `q`, ties to even. -/
def rounded (q : ℚ) : ℚ :=
  round_half_even (q / pow2 (float_exponent |q| - 23)) * pow2 (float_exponent |q| - 23)

/-- The binary32 value of the exact result `q` of a `float` operation: `q`
rounded to 24 bits of precision; a result of magnitude `2^128` or more is an
infinity. -/
def round_to_float (q : ℚ) : float :=
  if pow2 128 ≤ |rounded q| then float.infinity (decide (rounded q < 0))
  else float.finite (rounded q)

/-- The `float` product `a * b`. -/
def float.mul : float → float → float
  | float.finite a, float.finite b => round_to_float (a * b)
  | float.finite a, float.infinity n =>
    if a = 0 then float.nan else float.infinity (decide (a < 0) != n)
  | float.infinity m, float.finite b =>
    if b = 0 then float.nan else float.infinity (m != decide (b < 0))
  | float.infinity m, float.infinity n => float.infinity (m != n)
  | _, _ => float.nan

/-- The `float` difference `a - b`. -/
def float.sub : float → float → float
  | float.finite a, float.finite b => round_to_float (a - b)
  | float.finite _, float.infinity n => float.infinity (!n)
  | float.infinity m, float.finite _ => float.infinity m
  | float.infinity m, float.infinity n => if m = n then float.nan else float.infinity m
  | _, _ => float.nan

instance : Mul float := ⟨float.mul⟩

instance : Sub float := ⟨float.sub⟩

/-- The comparison `a < b` of two `float`s; false when one of them is a NaN. -/
def float.lt : float → float → Bool
  | float.finite a, float.finite b => decide (a < b)
  | float.finite _, float.infinity n => !n
  | float.infinity m, float.finite _ => m
  | float.infinity m, float.infinity n => m && !n
  | _, _ => false

/-- The comparison `a <= b` of two `float`s; false when one of them is a NaN. -/
def float.le : float → float → Bool
  | float.finite a, float.finite b => decide (a ≤ b)
  | float.finite _, float.infinity n => !n
  | float.infinity m, float.finite _ => m
  | float.infinity m, float.infinity n => m || !n
  | _, _ => false

/-- The number a finite `float` stands for (0 for an infinity or a NaN, which
stand for no number). -/
def float.value : float → ℚ
  | float.finite q => q
  | _ => 0

/-- The conversion `(float)n` of an `int`: the nearest binary32 value. -/
def int_to_float (n : Int) : float := round_to_float n

/-- Truncation toward zero of a rational number, as the conversions from
`float` to an integer type perform it. -/
def truncate (q : ℚ) : Int := Int.tdiv q.num (q.den : Int)

/-- The cast `(int32_t)f` / `(int)f` of a `float`: truncation toward zero.
When the truncated value does not fit 32 bits, or `f` is an infinity or a
NaN, C++ leaves the result undefined; the model gives `-2^31` there. -/
def float_to_int : float → Int
  | float.finite q =>
    if -2 ^ 31 ≤ truncate q ∧ truncate q < 2 ^ 31 then truncate q else -2 ^ 31
  | _ => -2 ^ 31

/-- The cast `(uint32_t)f` of a `float`: truncation toward zero.  When the
truncated value is negative or does not fit 32 bits, or `f` is an infinity or
a NaN, C++ leaves the result undefined; the model reduces the truncated value
modulo `2^32` and gives 0 for an infinity or a NaN. -/
def float_to_uint : float → Nat
  | float.finite q => (truncate q % 2 ^ 32).toNat
  | _ => 0

/-! ## The sub-command loop (lines 243-268) -/

/-- What the loop over the sub-commands of one draw list updates: the vector
`draw_data`, the counter `idx_buffer_sub_offset`, and the user callbacks that
have been invoked so far. -/
structure cmd_loop_state where
  draw_data : List draw_data
  idx_buffer_sub_offset : Nat
  calls : List callback_call
deriving DecidableEq

/-- The translated clip rectangle `clip_rect` of lines 249-252: four `float`
subtractions, each rounded to binary32. -/
def translated_clip_rect (pos : ImVec2) (cmd : ImDrawCmd) : ImVec4 :=
  ⟨cmd.ClipRect.x - pos.x, cmd.ClipRect.y - pos.y,
   cmd.ClipRect.z - pos.x, cmd.ClipRect.w - pos.y⟩

/-- The test of lines 253-255 (`true`: the sub-command is drawn):
`clip_rect.x < (float)fb_width && clip_rect.y < (float)fb_height &&
clip_rect.z >= 0.0f && clip_rect.w >= 0.0f`. -/
def passes_cull_test (fb_width fb_height : Int) (clip_rect : ImVec4) : Bool :=
  float.lt clip_rect.x (int_to_float fb_width) &&
    float.lt clip_rect.y (int_to_float fb_height) &&
    float.le 0 clip_rect.z && float.le 0 clip_rect.w

/-- The rectangle `scissor_rect` of lines 256-261; the two differences are
`float` differences, rounded before they are converted.  The `int`
subtraction of line 258 is exact here: it cannot overflow for a sub-command
that passes the test above (`clip_rect.w >= 0`) on a framebuffer of
non-negative height. -/
def scissor_rect (fb_height : Int) (clip_rect : ImVec4) : ngf_irect2d :=
  { x := float_to_int clip_rect.x
    y := fb_height - float_to_int clip_rect.w
    width := float_to_uint (clip_rect.z - clip_rect.x)
    height := float_to_uint (clip_rect.w - clip_rect.y) }

/-- The body of the loop over sub-commands (lines 245-267), for the draw list
`imgui_cmd_list` whose indices start at `last_index` in the frame's index
array.  The cast `(uint32_t)cmd.ElemCount` of an `unsigned int` changes
nothing; the two additions are `uint32_t` additions. -/
def process_cmd (pos : ImVec2) (fb_width fb_height : Int) (last_index : Nat)
    (imgui_cmd_list : ImDrawList) (st : cmd_loop_state) (cmd : ImDrawCmd) : cmd_loop_state :=
  match cmd.UserCallback with
  | some f => { st with calls := st.calls ++ [⟨f, imgui_cmd_list, cmd⟩] }
  | none =>
    let clip_rect := translated_clip_rect pos cmd
    if passes_cull_test fb_width fb_height clip_rect then
      { st with
        draw_data := st.draw_data ++
          [⟨scissor_rect fb_height clip_rect, u32 (last_index + st.idx_buffer_sub_offset),
            cmd.ElemCount⟩]
        idx_buffer_sub_offset := u32 (st.idx_buffer_sub_offset + cmd.ElemCount) }
    else st

/-- The loop `for (int j = 0; j < CmdBuffer.Size; ++j)` of lines 244-268. -/
def process_cmds (pos : ImVec2) (fb_width fb_height : Int) (last_index : Nat)
    (imgui_cmd_list : ImDrawList) (st : cmd_loop_state) (cmds : List ImDrawCmd) :
    cmd_loop_state :=
  cmds.foldl (process_cmd pos fb_width fb_height last_index imgui_cmd_list) st

/-! ## The draw-list loop (lines 221-270) -/

/-- The `memcpy` of lines 229-231: the vertex segment `src` is copied over
`vertex_data` from position `last_vertex` on.  The copy must stay inside the
host array. -/
def copy_vertices (vertex_data : List ImDrawVert) (last_vertex : Nat)
    (src : List ImDrawVert) : Option (List ImDrawVert) :=
  if last_vertex + src.length ≤ vertex_data.length then
    some (vertex_data.take last_vertex ++ src ++ vertex_data.drop (last_vertex + src.length))
  else none

/-- The loop of lines 234-239, from position `a` of the index segment on:
`index_data[last_index + a] = (ImDrawIdx)(last_vertex + IdxBuffer[a])`.  The sum
is a `uint32_t`; each write must land inside the host array. -/
def copy_indices (last_index last_vertex : Nat) :
    List Nat → Nat → List Nat → Option (List Nat)
  | index_data, _, [] => some index_data
  | index_data, a, raw :: rest =>
    if last_index + a < index_data.length then
      copy_indices last_index last_vertex
        (index_data.set (last_index + a) (u16 (u32 (last_vertex + raw)))) (a + 1) rest
    else none

/-- The variables the loop over the draw lists updates: the two host arrays,
the batches, the two running counters, and the callbacks invoked so far. -/
structure loop_state where
  vertex_data : List ImDrawVert
  index_data : List Nat
  draw_data : List draw_data
  last_vertex : Nat
  last_index : Nat
  calls : List callback_call
deriving DecidableEq

/-- The body of the loop over the draw lists (lines 227-269). -/
def process_cmd_list (pos : ImVec2) (fb_width fb_height : Int) (st : loop_state)
    (imgui_cmd_list : ImDrawList) : Option loop_state :=
  match copy_vertices st.vertex_data st.last_vertex imgui_cmd_list.VtxBuffer with
  | none => none
  | some vertex_data =>
    match copy_indices st.last_index st.last_vertex st.index_data 0
        imgui_cmd_list.IdxBuffer with
    | none => none
    | some index_data =>
      let last_vertex := u32 (st.last_vertex + u32 imgui_cmd_list.VtxBuffer.length)
      let inner := process_cmds pos fb_width fb_height st.last_index imgui_cmd_list
        ⟨st.draw_data, 0, st.calls⟩ imgui_cmd_list.CmdBuffer
      some
        { vertex_data := vertex_data
          index_data := index_data
          draw_data := inner.draw_data
          last_vertex := last_vertex
          last_index := u32 (st.last_index + u32 imgui_cmd_list.IdxBuffer.length)
          calls := inner.calls }

/-- The loop `for (int i = 0; i < data->CmdListsCount; ++i)` of lines 226-270. -/
def process_cmd_lists (pos : ImVec2) (fb_width fb_height : Int) :
    loop_state → List ImDrawList → Option loop_state
  | st, [] => some st
  | st, l :: rest =>
    match process_cmd_list pos fb_width fb_height st l with
    | none => none
    | some st1 => process_cmd_lists pos fb_width fb_height st1 rest

/-- The state at line 223: host arrays of `total_vtx` value-initialised
vertices and `total_idx` zero indices (lines 210-213), no batch, both counters
zero. -/
def initial_state (total_vtx total_idx : Nat) : loop_state :=
  { vertex_data := List.replicate total_vtx ImDrawVert.zero
    index_data := List.replicate total_idx 0
    draw_data := []
    last_vertex := 0
    last_index := 0
    calls := [] }

/-- Lines 210-270: allocation of the host arrays for the reported totals
`(size_t)TotalVtxCount`, `(size_t)TotalIdxCount`, followed by the loop over
the draw lists `CmdLists`. -/
def assemble_frame (pos : ImVec2) (fb_width fb_height : Int) (total_vtx total_idx : Nat)
    (CmdLists : List ImDrawList) : Option loop_state :=
  process_cmd_lists pos fb_width fb_height (initial_state total_vtx total_idx) CmdLists

/-! ## From the draw data to the assembled frame (lines 159-171, 210-270) -/

/-- The draw data of a frame, as in `ImDrawData`; `CmdListsCount` is the
length of `CmdLists`, the two totals are C `int`s. -/
structure ImDrawData where
  TotalIdxCount : Int
  TotalVtxCount : Int
  CmdLists : List ImDrawList
  DisplayPos : ImVec2
  DisplaySize : ImVec2
deriving DecidableEq

/-- The part of `ImGuiIO` the routine reads. -/
structure ImGuiIO where
  DisplayFramebufferScale : ImVec2
deriving DecidableEq

/-- Modelled from the spec: `ImDrawData::ScaleClipRects`, a routine of the UI
library that is not part of this repository; it multiplies every clip
rectangle component-wise by the framebuffer scale (`float` products). -/
def ScaleClipRects (fb_scale : ImVec2) (CmdLists : List ImDrawList) : List ImDrawList :=
  CmdLists.map (fun l =>
    { l with
      CmdBuffer := l.CmdBuffer.map (fun c =>
        { c with
          ClipRect := ⟨c.ClipRect.x * fb_scale.x, c.ClipRect.y * fb_scale.y,
            c.ClipRect.z * fb_scale.x, c.ClipRect.w * fb_scale.y⟩ }) })

/-- How the geometry part of `record_rendering_commands` ends: by one of the
early returns of lines 162 and 171 (`skipped`), by running the draw-list loop
to its end (`assembled`), or by leaving defined behaviour (`aborted`: the
vector constructor receives a negative count converted to `size_t` and throws,
or a write falls outside a host array). -/
inductive frame_result where
  | skipped
  | aborted
  | assembled (fb_width fb_height : Int) (st : loop_state)
deriving DecidableEq

/-- Lines 159-171 and 210-270 of `record_rendering_commands`: the two guards,
the framebuffer size, the scaling of the clip rectangles, the allocation of
the host arrays and the draw-list loop.  The framebuffer size is
`(int)(DisplaySize * DisplayFramebufferScale)` per axis: the `float` product,
rounded to binary32, then truncated. -/
def frame_geometry (data : ImDrawData) (io : ImGuiIO) : frame_result :=
  if data.TotalIdxCount ≤ 0 then frame_result.skipped
  else
    let fb_width := float_to_int (data.DisplaySize.x * io.DisplayFramebufferScale.x)
    let fb_height := float_to_int (data.DisplaySize.y * io.DisplayFramebufferScale.y)
    let CmdLists := ScaleClipRects io.DisplayFramebufferScale data.CmdLists
    if fb_width ≤ 0 ∨ fb_height ≤ 0 then frame_result.skipped
    else if data.TotalVtxCount < 0 then frame_result.aborted
    else
      match assemble_frame data.DisplayPos fb_width fb_height data.TotalVtxCount.toNat
          data.TotalIdxCount.toNat CmdLists with
      | none => frame_result.aborted
      | some st => frame_result.assembled fb_width fb_height st

/-! ## The backend object and the rendering API -/

/-- The value written to the uniform channel: the 4 x 4 `float` matrix of
`uniform_data`, row by row. -/
structure uniform_data where
  matrix : List (List ℚ)
deriving DecidableEq

/-- Modelled from the spec: the streamed uniform channel
(`ngf::streamed_uniform`, part of the nicegraf wrappers and not of this
repository), a ring of `nframes` slots.  `frame` is the slot cursor (the slot
the next `write` fills), `current_offset` the slot the last `write` filled. -/
structure streamed_uniform where
  nframes : Nat
  frame : Nat
  current_offset : Nat
  slots : List (Option uniform_data)
deriving DecidableEq

/-- Modelled from the spec: `streamed_uniform::create(frames)`, a ring of the
given depth with no slot written. -/
def streamed_uniform.create (frames : Nat) : streamed_uniform :=
  ⟨frames, 0, 0, List.replicate frames none⟩

/-- Modelled from the spec: `write(data)` copies the value into the current
ring slot and advances the slot cursor modulo the configured depth. -/
def streamed_uniform.write (u : streamed_uniform) (data : uniform_data) : streamed_uniform :=
  { u with
    current_offset := u.frame
    slots := u.slots.set u.frame (some data)
    frame := (u.frame + 1) % u.nframes }

/-- Modelled from the spec: `bind_op_at_current_offset(set, binding)` describes
the slot that was written last; the result is `(set, binding, slot)`. -/
def streamed_uniform.bind_op_at_current_offset (u : streamed_uniform) (set binding : Nat) :
    Nat × Nat × Nat :=
  (set, binding, u.current_offset)

/-- Modelled from the spec: `sizeof(ImDrawVert)`, a constant of the UI library:
two `float`s of position, two of texture coordinate, four bytes of colour. -/
def sizeof_ImDrawVert : Nat := 20

/-- Modelled from the spec: `sizeof(ImDrawIdx)`, a constant of the UI library:
indices are 16 bits wide. -/
def sizeof_ImDrawIdx : Nat := 2

/-- The members of `ngf_imgui` that `record_rendering_commands` reads or
changes: the uniform channel and the handles of the vertex and index buffers
kept from the previous frame (`none`: no buffer held). -/
structure backend where
  uniform_data_ : streamed_uniform
  attrib_buffer_ : Option Nat
  index_buffer_ : Option Nat
deriving DecidableEq

/-- What the rendering API answers during one call: the handle produced by
`ngf_create_attrib_buffer` and `ngf_create_index_buffer` (`none`: creation
failed and the handle stays `nullptr`), and whether the two `map_range` calls
return a pointer (`true`) or `nullptr` (`false`). -/
structure device where
  create_attrib_buffer : Option Nat
  map_attrib_buffer : Bool
  create_index_buffer : Option Nat
  map_index_buffer : Bool
deriving DecidableEq

/-- The effects of `record_rendering_commands`, in the order of the source:
writes to the uniform channel, commands recorded on the encoder, user
callbacks, and operations on buffers.  A buffer argument is a handle, `none`
standing for `nullptr`. -/
inductive event where
  | uniform_write (slot : Nat) (data : uniform_data)
  | bind_gfx_pipeline
  | bind_resources (uniform : Nat × Nat × Nat)
  | viewport (rect : ngf_irect2d)
  | user_callback (call : callback_call)
  | create_attrib_buffer (size : Nat) (result : Option Nat)
  | release_attrib_buffer (buffer : Nat)
  | map_attrib_buffer (buffer : Option Nat) (offset size : Nat)
  | copy_to_attrib_buffer (data : List ImDrawVert) (size : Nat)
  | flush_attrib_buffer (buffer : Option Nat) (offset size : Nat)
  | unmap_attrib_buffer (buffer : Option Nat)
  | create_index_buffer (size : Nat) (result : Option Nat)
  | release_index_buffer (buffer : Nat)
  | map_index_buffer (buffer : Option Nat) (offset size : Nat)
  | copy_to_index_buffer (data : List Nat) (size : Nat)
  | flush_index_buffer (buffer : Option Nat) (offset size : Nat)
  | unmap_index_buffer (buffer : Option Nat)
  | bind_index_buffer (buffer : Option Nat) (index_bits : Nat)
  | bind_attrib_buffer (buffer : Option Nat) (binding offset : Nat)
  | scissor (rect : ngf_irect2d)
  | draw (indexed : Bool) (first_elem nelem ninstances : Nat)
deriving DecidableEq

/-- How a call ends: it returns to its caller (the function is `void`, there
is no result), or the process is aborted inside it (a failed `assert`, an
exception nobody catches, a call on a `nullptr` handle, a write outside a host
array). -/
inductive run_status where
  | returned
  | aborted
deriving DecidableEq

/-- A call of `record_rendering_commands`: how it ended, the backend object
after it, and its effects in order. -/
structure run where
  status : run_status
  self : backend
  events : List event
deriving DecidableEq

/-- The matrix `ortho_projection` of lines 174-186, over exact rational
arithmetic on the numbers the four `float`s stand for: the operations are
those of the source, their rounding is left out. -/
def ortho_projection (data : ImDrawData) : uniform_data :=
  let L := data.DisplayPos.x.value
  let R := data.DisplayPos.x.value + data.DisplaySize.x.value
  let T := data.DisplayPos.y.value
  let B := data.DisplayPos.y.value + data.DisplaySize.y.value
  ⟨[[2 / (R - L), 0, 0, 0],
    [0, 2 / (T - B), 0, 0],
    [0, 0, -1, 0],
    [(R + L) / (L - R), (T + B) / (B - T), 0, 1]]⟩

/-- Lines 187-206: the write to the uniform channel, the binds and the
viewport, for the channel `u` as it is after the write. -/
def prologue_events (u_before u : streamed_uniform) (data : ImDrawData)
    (fb_width fb_height : Int) : List event :=
  [event.uniform_write u_before.frame (ortho_projection data),
   event.bind_gfx_pipeline,
   event.bind_resources (u.bind_op_at_current_offset 0 0),
   event.viewport ⟨0, 0, (fb_width % 2 ^ 32).toNat, (fb_height % 2 ^ 32).toNat⟩]

/-- Modelled from the spec: `reset` of a nicegraf handle wrapper (not part of
this repository) releases the buffer held so far, if there is one, and keeps
the new handle.  This is the effect of `attrib_buffer_.reset(attrib_buffer)`
(line 279) on the buffer held so far. -/
def release_attrib (held : Option Nat) : List event :=
  match held with
  | some old => [event.release_attrib_buffer old]
  | none => []

/-- Modelled from the spec: the same `reset`, for
`index_buffer_.reset(index_buffer)` (line 294). -/
def release_index (held : Option Nat) : List event :=
  match held with
  | some old => [event.release_index_buffer old]
  | none => []

/-- Lines 272-286: creation of the new vertex buffer, `attrib_buffer_.reset`
(which releases the buffer held so far and keeps the new handle), mapping,
copy, flush and unmap.  The result of the creation is not looked at; the
`assert` of line 283 aborts when the mapping is `nullptr`, and so does the
mapping of a `nullptr` handle.  Returns how the step ended, the new value of
`attrib_buffer_`, and the effects. -/
def upload_attrib_buffer (dev : device) (held : Option Nat) (vertex_data : List ImDrawVert) :
    run_status × Option Nat × List event :=
  let size := sizeof_ImDrawVert * vertex_data.length
  let attrib_buffer := dev.create_attrib_buffer
  let reset := [event.create_attrib_buffer size attrib_buffer] ++ release_attrib held ++
    [event.map_attrib_buffer attrib_buffer 0 size]
  if attrib_buffer.isSome && dev.map_attrib_buffer then
    (run_status.returned, attrib_buffer,
      reset ++ [event.copy_to_attrib_buffer vertex_data size,
        event.flush_attrib_buffer attrib_buffer 0 size,
        event.unmap_attrib_buffer attrib_buffer])
  else (run_status.aborted, attrib_buffer, reset)

/-- Lines 288-301: the same steps for the index buffer. -/
def upload_index_buffer (dev : device) (held : Option Nat) (index_data : List Nat) :
    run_status × Option Nat × List event :=
  let size := sizeof_ImDrawIdx * index_data.length
  let index_buffer := dev.create_index_buffer
  let reset := [event.create_index_buffer size index_buffer] ++ release_index held ++
    [event.map_index_buffer index_buffer 0 size]
  if index_buffer.isSome && dev.map_index_buffer then
    (run_status.returned, index_buffer,
      reset ++ [event.copy_to_index_buffer index_data size,
        event.flush_index_buffer index_buffer 0 size,
        event.unmap_index_buffer index_buffer])
  else (run_status.aborted, index_buffer, reset)

/-- Lines 303-310: the two buffer binds and, for every batch in order, its
scissor followed by its indexed draw of one instance. -/
def draw_events (self : backend) (batches : List draw_data) : List event :=
  [event.bind_index_buffer self.index_buffer_ (if sizeof_ImDrawIdx < 4 then 16 else 32),
   event.bind_attrib_buffer self.attrib_buffer_ 0 0] ++
  batches.flatMap (fun draw =>
    [event.scissor draw.scissor, event.draw true draw.first_elem draw.nelem 1])

/-- Lines 272-310: the two uploads and the draws, for the host arrays and
batches `st` the draw-list loop has produced. -/
def upload_and_draw (dev : device) (self : backend) (st : loop_state) : run :=
  match upload_attrib_buffer dev self.attrib_buffer_ st.vertex_data with
  | (run_status.aborted, attrib_buffer, ev) =>
    ⟨run_status.aborted, { self with attrib_buffer_ := attrib_buffer }, ev⟩
  | (run_status.returned, attrib_buffer, ev) =>
    let self2 := { self with attrib_buffer_ := attrib_buffer }
    match upload_index_buffer dev self2.index_buffer_ st.index_data with
    | (run_status.aborted, index_buffer, ev2) =>
      ⟨run_status.aborted, { self2 with index_buffer_ := index_buffer }, ev ++ ev2⟩
    | (run_status.returned, index_buffer, ev2) =>
      let self3 := { self2 with index_buffer_ := index_buffer }
      ⟨run_status.returned, self3, ev ++ ev2 ++ draw_events self3 st.draw_data⟩

/-- The routine `ngf_imgui::record_rendering_commands` (lines 159-311), for the
draw data `data` that `ImGui::GetDrawData()` returns after `ImGui::Render()`.
The framebuffer size of lines 166-167 is the truncation of the `float`
product, which is rounded to binary32 first.  An aborted run keeps the effects
up to the step that failed; of a draw-list loop that leaves the host arrays it
keeps none. -/
def record_rendering_commands (dev : device) (self : backend) (data : ImDrawData)
    (io : ImGuiIO) : run :=
  if data.TotalIdxCount ≤ 0 then ⟨run_status.returned, self, []⟩
  else
    let fb_width := float_to_int (data.DisplaySize.x * io.DisplayFramebufferScale.x)
    let fb_height := float_to_int (data.DisplaySize.y * io.DisplayFramebufferScale.y)
    let CmdLists := ScaleClipRects io.DisplayFramebufferScale data.CmdLists
    if fb_width ≤ 0 ∨ fb_height ≤ 0 then ⟨run_status.returned, self, []⟩
    else
      let u := self.uniform_data_.write (ortho_projection data)
      let self1 := { self with uniform_data_ := u }
      let ev1 := prologue_events self.uniform_data_ u data fb_width fb_height
      if data.TotalVtxCount < 0 then ⟨run_status.aborted, self1, ev1⟩
      else
        match assemble_frame data.DisplayPos fb_width fb_height data.TotalVtxCount.toNat
            data.TotalIdxCount.toNat CmdLists with
        | none => ⟨run_status.aborted, self1, ev1⟩
        | some st =>
          let r := upload_and_draw dev self1 st
          ⟨r.status, r.self, ev1 ++ st.calls.map event.user_callback ++ r.events⟩

/-- Lines 164-176 of `main` (`src/common/common.cpp`): the steps of the frame
loop around the call, as far as they matter for what follows a call. -/
inductive main_event where
  | start_cmd_buffer
  | upload_font_texture
  | cmd_begin_pass
  | ui (e : event)
  | cmd_end_pass
  | submit_cmd_buffers
  | end_frame
deriving DecidableEq

/-- Lines 164-176 of `main`: the command buffer is started, the font texture
uploaded on the first frame, the pass begun, `record_rendering_commands`
called; when the call returns the pass is ended, the command buffer submitted
and the frame ended.  The call has no result `main` could look at. -/
def main_draw_ui (dev : device) (ui : backend) (imgui_font_uploaded : Bool)
    (data : ImDrawData) (io : ImGuiIO) : run_status × List main_event :=
  let r := record_rendering_commands dev ui data io
  let before := [main_event.start_cmd_buffer] ++
    (if imgui_font_uploaded then [] else [main_event.upload_font_texture]) ++
    [main_event.cmd_begin_pass] ++ r.events.map main_event.ui
  match r.status with
  | run_status.returned =>
    (run_status.returned,
      before ++ [main_event.cmd_end_pass, main_event.submit_cmd_buffers, main_event.end_frame])
  | run_status.aborted => (run_status.aborted, before)

/-! ## The font atlas: constructor and `upload_font_texture` (lines 8-157) -/

/-- What `io.Fonts->GetTexDataAsRGBA32` reports (line 91): the pixels, four
bytes each, and the width and height of the atlas. -/
structure font_atlas where
  font_pixels : List Nat
  width : Nat
  height : Nat
deriving DecidableEq

/-- A size as in `ngf_extent3d`. -/
structure ngf_extent3d where
  width : Nat
  height : Nat
  depth : Nat
deriving DecidableEq

/-- An offset as in `ngf_offset3d`. -/
structure ngf_offset3d where
  x : Int
  y : Int
  z : Int
deriving DecidableEq

/-- What the rendering API and the loaders answer during construction, step by
step: `true` stands for `NGF_ERROR_OK` (for the mapping: a pointer that is not
`nullptr`). -/
structure init_device where
  vertex_stage : Bool
  fragment_stage : Bool
  default_render_target : Bool
  streamed_uniform : Bool
  pipeline_metadata : Bool
  pipeline_layout : Bool
  pipeline : Bool
  font_texture : Bool
  texture_data : Bool
  map_texture_data : Bool
  tex_sampler : Bool
deriving DecidableEq

/-- The steps of the constructor, in the order of the source. -/
inductive init_event where
  | load_vertex_stage
  | load_fragment_stage
  | default_render_target
  | create_streamed_uniform (frames : Nat)
  | load_pipeline_metadata
  | create_pipeline_layout
  | initialize_pipeline
  | initialize_font_texture (extent : ngf_extent3d)
  | initialize_texture_data (size : Nat)
  | map_texture_data (offset size : Nat)
  | copy_font_pixels (mapped : Bool) (size : Nat)
  | flush_texture_data (offset size : Nat)
  | unmap_texture_data
  | initialize_tex_sampler
  | destroy_pipeline_metadata
deriving DecidableEq

/-- The outcome of the constructor: whether it returned, the steps it took,
the backend members it set up, and whether the sampler it leaves in
`tex_sampler_` is a valid one. -/
structure construction where
  status : run_status
  events : List init_event
  ui : backend
  tex_sampler_ok : Bool
deriving DecidableEq

/-- The steps of lines 87-138 that follow the creation of the staging buffer:
the mapping, whose result is not looked at, the copy of `4 * width * height`
bytes to the mapped pointer, flush and unmap, and the creation of the
sampler, whose result is not looked at either.  A copy to `nullptr` ends the
run. -/
def fill_texture_data (dev : init_device) (atlas : font_atlas) (before : List init_event) :
    construction :=
  let size := (4 * atlas.width * atlas.height) % 2 ^ 64
  let ev := before ++ [init_event.map_texture_data 0 size,
    init_event.copy_font_pixels dev.map_texture_data size]
  if dev.map_texture_data then
    ⟨run_status.returned,
      ev ++ [init_event.flush_texture_data 0 size, init_event.unmap_texture_data,
        init_event.initialize_tex_sampler, init_event.destroy_pipeline_metadata],
      ⟨streamed_uniform.create 3, none, none⟩, dev.tex_sampler⟩
  else ⟨run_status.aborted, ev, ⟨streamed_uniform.create 3, none, none⟩, false⟩

/-- The constructor `ngf_imgui::ngf_imgui` (lines 8-140), for the font atlas the
UI library reports.  Every step whose result is checked by an `assert` (in
the constructor or, for the shader stages and the pipeline metadata, in the
loaders of `common.cpp`) aborts the process when it fails. -/
def ngf_imgui (dev : init_device) (atlas : font_atlas) : construction :=
  let failed (ev : List init_event) : construction :=
    ⟨run_status.aborted, ev, ⟨streamed_uniform.create 3, none, none⟩, false⟩
  let ev1 := [init_event.load_vertex_stage]
  if !dev.vertex_stage then failed ev1 else
  let ev2 := ev1 ++ [init_event.load_fragment_stage]
  if !dev.fragment_stage then failed ev2 else
  let ev3 := ev2 ++ [init_event.default_render_target]
  if !dev.default_render_target then failed ev3 else
  let ev4 := ev3 ++ [init_event.create_streamed_uniform 3]
  if !dev.streamed_uniform then failed ev4 else
  let ev5 := ev4 ++ [init_event.load_pipeline_metadata]
  if !dev.pipeline_metadata then failed ev5 else
  let ev6 := ev5 ++ [init_event.create_pipeline_layout]
  if !dev.pipeline_layout then failed ev6 else
  let ev7 := ev6 ++ [init_event.initialize_pipeline]
  if !dev.pipeline then failed ev7 else
  let ev8 := ev7 ++ [init_event.initialize_font_texture
    ⟨atlas.width % 2 ^ 32, atlas.height % 2 ^ 32, 1⟩]
  if !dev.font_texture then failed ev8 else
  let ev9 := ev8 ++ [init_event.initialize_texture_data
    ((4 * atlas.width * atlas.height) % 2 ^ 64)]
  if !dev.texture_data then failed ev9 else
  fill_texture_data dev atlas ev9

/-- The command `ngf_cmd_write_image` records on a transfer encoder: source
offset in the staging buffer, mip level and layer of the image, and the
offset and extent of the region written. -/
structure write_image where
  src_offset : Nat
  mip_level : Nat
  layer : Nat
  offset : ngf_offset3d
  extent : ngf_extent3d
deriving DecidableEq

/-- The routine `ngf_imgui::upload_font_texture` (lines 144-157) on the command
buffer `cmdbuf` (the image writes recorded on it so far): it records one
write of a 512 x 64 region and changes no member of the backend object. -/
def upload_font_texture (self : backend) (cmdbuf : List write_image) :
    backend × List write_image :=
  (self, cmdbuf ++ [⟨0, 0, 0, ⟨0, 0, 0⟩, ⟨512, 64, 1⟩⟩])

/-- What one pass of the frame loop of `main` is given: whether
`ngf_begin_frame` succeeds, the answers of the rendering API, and the draw
data of the frame. -/
structure frame_input where
  begin_frame : Bool
  dev : device
  data : ImDrawData
  io : ImGuiIO
deriving DecidableEq

/-- The frame loop of `main` (lines 135-179), for the frames in order, started
with the flag `imgui_font_uploaded`: a frame that does not begin is left out;
in a frame that begins the UI is drawn as in `main_draw_ui`, and the flag is
set from then on.  The loop ends when the process is aborted. -/
def main_loop : backend → Bool → List frame_input → List main_event
  | _, _, [] => []
  | ui, imgui_font_uploaded, f :: frames =>
    if f.begin_frame then
      match main_draw_ui f.dev ui imgui_font_uploaded f.data f.io with
      | (run_status.returned, ev) =>
        ev ++ main_loop (record_rendering_commands f.dev ui f.data f.io).self true frames
      | (run_status.aborted, ev) => ev
    else main_loop ui imgui_font_uploaded frames

/-! ## Notions used to state the properties -/

/-- The half-open rectangle `[left, right) x [top, bottom)` described by
`r = (left, top, right, bottom)` has a point in common with the framebuffer
`[0, W) x [0, H)`. -/
def meets_framebuffer (W H : Int) (r : ImVec4) : Prop :=
  ∃ x y : ℚ, float.le r.x (float.finite x) = true ∧ float.lt (float.finite x) r.z = true ∧
    float.le r.y (float.finite y) = true ∧ float.lt (float.finite y) r.w = true ∧
    0 ≤ x ∧ x < (W : ℚ) ∧ 0 ≤ y ∧ y < (H : ℚ)

/-- Truncation toward zero of a rational number: the floor of a non-negative
number, the ceiling of a negative one. -/
def trunc (q : ℚ) : Int := if 0 ≤ q then ⌊q⌋ else ⌈q⌉

/-- The number `v` is a binary32 number: a multiple of `2^(-149)` and of
`2^(e-23)` for every exponent `e ≥ -126` with `2^e ≤ |v|` (24 bits of
precision), smaller than `2^128` in magnitude. -/
def is_float_value (v : ℚ) : Prop :=
  (∃ z : Int, v = z * pow2 (-149)) ∧
  (∀ e : Int, -126 ≤ e → pow2 e ≤ |v| → ∃ z : Int, v = z * pow2 (e - 23)) ∧
  |v| < pow2 128

/-- The cull condition as the specification words it: left >= width, or
top >= height, or right < 0, or bottom < 0, the width and height being the
numbers `W` and `H` themselves. -/
def spec_culled (W H : Int) (r : ImVec4) : Prop :=
  float.le (float.finite W) r.x = true ∨ float.le (float.finite H) r.y = true ∨
    float.lt r.z 0 = true ∨ float.lt r.w 0 = true

/-- The `float` is a NaN. -/
def float.is_nan : float → Bool
  | float.nan => true
  | _ => false

/-- One of the four coordinates of the rectangle is a NaN. -/
def ImVec4.has_nan (r : ImVec4) : Bool :=
  r.x.is_nan || r.y.is_nan || r.z.is_nan || r.w.is_nan

/-- The sub-command is drawn: it has no callback and passes the cull test. -/
def is_drawn (pos : ImVec2) (W H : Int) (cmd : ImDrawCmd) : Bool :=
  cmd.UserCallback.isNone && passes_cull_test W H (translated_clip_rect pos cmd)

/-- The sub-command is culled: it has no callback and fails the cull test. -/
def is_culled (pos : ImVec2) (W H : Int) (cmd : ImDrawCmd) : Bool :=
  cmd.UserCallback.isNone && !passes_cull_test W H (translated_clip_rect pos cmd)

/-- What a batch carries apart from its index offset: scissor and count. -/
def draw_data.shape (b : draw_data) : ngf_irect2d × Nat := (b.scissor, b.nelem)

/-- The scissor and element count the sub-command `cmd` asks for. -/
def cmd_shape (pos : ImVec2) (H : Int) (cmd : ImDrawCmd) : ngf_irect2d × Nat :=
  (scissor_rect H (translated_clip_rect pos cmd), cmd.ElemCount)

/-- The sub-commands of a frame in input order: draw lists in order,
sub-commands in order within each list. -/
def flattened_cmds (CmdLists : List ImDrawList) : List ImDrawCmd :=
  CmdLists.flatMap (fun l => l.CmdBuffer)

/-- Sum of the lengths of the vertex segments. -/
def vtx_count (CmdLists : List ImDrawList) : Nat :=
  (CmdLists.map (fun l => l.VtxBuffer.length)).sum

/-- Sum of the lengths of the index segments. -/
def idx_count (CmdLists : List ImDrawList) : Nat :=
  (CmdLists.map (fun l => l.IdxBuffer.length)).sum

/-- Sum of the vertex-segment lengths of the draw lists before list `k`. -/
def vtx_base (CmdLists : List ImDrawList) (k : Nat) : Nat := vtx_count (CmdLists.take k)

/-- Sum of the index-segment lengths of the draw lists before list `k`. -/
def idx_base (CmdLists : List ImDrawList) (k : Nat) : Nat := idx_count (CmdLists.take k)

/-- The index segments in draw-list order, every raw index offset by the
number of vertices before its list (counted from `base`) and narrowed to 16
bits. -/
def rebased_indices : Nat → List ImDrawList → List Nat
  | _, [] => []
  | base, l :: rest =>
    l.IdxBuffer.map (fun raw => u16 (base + raw)) ++
      rebased_indices (base + l.VtxBuffer.length) rest

/-- The batches the sub-command loop appends for the sub-commands `cmds` of a
draw list whose indices start at `last_index`, when it is entered with the
sub-offset `off`. -/
def appended_batches (pos : ImVec2) (W H : Int) (last_index : Nat) :
    Nat → List ImDrawCmd → List draw_data
  | _, [] => []
  | off, c :: cs =>
    if is_drawn pos W H c then
      ⟨scissor_rect H (translated_clip_rect pos c), u32 (last_index + off), c.ElemCount⟩ ::
        appended_batches pos W H last_index (u32 (off + c.ElemCount)) cs
    else appended_batches pos W H last_index off cs

/-- The batches of a frame grouped by draw list, the first list's indices
starting at `last_index`. -/
def frame_batches (pos : ImVec2) (W H : Int) : Nat → List ImDrawList → List (List draw_data)
  | _, [] => []
  | last_index, l :: rest =>
    appended_batches pos W H last_index 0 l.CmdBuffer ::
      frame_batches pos W H (last_index + l.IdxBuffer.length) rest

/-- The batches tile the index range from `start` to `stop`: the first starts
at `start`, each later one where the one before it ends, the last one ends at
`stop`. -/
def tiles : Nat → Nat → List draw_data → Prop
  | start, stop, [] => start = stop
  | start, stop, b :: bs => b.first_elem = start ∧ tiles (start + b.nelem) stop bs

/-- The invocation the sub-command `c` of the draw list `l` asks for, if it
carries a callback. -/
def callback_of (l : ImDrawList) (c : ImDrawCmd) : Option callback_call :=
  c.UserCallback.map (fun f => ⟨f, l, c⟩)

/-- The callbacks of a frame in input order, each with its own draw list and
sub-command. -/
def expected_calls (CmdLists : List ImDrawList) : List callback_call :=
  CmdLists.flatMap (fun l => l.CmdBuffer.filterMap (callback_of l))

/-- The callback invocation an effect is, if it is one. -/
def event.as_callback : event → Option callback_call
  | event.user_callback call => some call
  | _ => none

/-- The effect is a scissor or a draw command recorded on the encoder. -/
def event.is_scissor_or_draw : event → Bool
  | event.scissor _ => true
  | event.draw _ _ _ _ => true
  | _ => false

/-- The effect is an operation on a vertex buffer: creation, release, mapping,
copy, flush or unmap. -/
def event.is_attrib_op : event → Bool
  | event.create_attrib_buffer _ _ => true
  | event.release_attrib_buffer _ => true
  | event.map_attrib_buffer _ _ _ => true
  | event.copy_to_attrib_buffer _ _ => true
  | event.flush_attrib_buffer _ _ _ => true
  | event.unmap_attrib_buffer _ => true
  | _ => false

/-- The effect is an operation on an index buffer. -/
def event.is_index_op : event → Bool
  | event.create_index_buffer _ _ => true
  | event.release_index_buffer _ => true
  | event.map_index_buffer _ _ _ => true
  | event.copy_to_index_buffer _ _ => true
  | event.flush_index_buffer _ _ _ => true
  | event.unmap_index_buffer _ => true
  | _ => false

/-- The effect is a write to the uniform channel. -/
def event.is_uniform_write : event → Bool
  | event.uniform_write _ _ => true
  | _ => false

/-- The effect binds a vertex or index buffer on the encoder. -/
def event.is_buffer_bind : event → Bool
  | event.bind_index_buffer _ _ => true
  | event.bind_attrib_buffer _ _ _ => true
  | _ => false

/-- The backend object after the write to the uniform channel (line 187). -/
def after_uniform_write (self : backend) (data : ImDrawData) : backend :=
  { self with uniform_data_ := self.uniform_data_.write (ortho_projection data) }

/-- The effects of a vertex upload that goes through, for the new handle `a`. -/
def attrib_upload_events (held : Option Nat) (a : Nat) (vertex_data : List ImDrawVert) :
    List event :=
  [event.create_attrib_buffer (sizeof_ImDrawVert * vertex_data.length) (some a)] ++
  release_attrib held ++
  [event.map_attrib_buffer (some a) 0 (sizeof_ImDrawVert * vertex_data.length),
   event.copy_to_attrib_buffer vertex_data (sizeof_ImDrawVert * vertex_data.length),
   event.flush_attrib_buffer (some a) 0 (sizeof_ImDrawVert * vertex_data.length),
   event.unmap_attrib_buffer (some a)]

/-- The effects of an index upload that goes through, for the new handle `b`. -/
def index_upload_events (held : Option Nat) (b : Nat) (index_data : List Nat) : List event :=
  [event.create_index_buffer (sizeof_ImDrawIdx * index_data.length) (some b)] ++
  release_index held ++
  [event.map_index_buffer (some b) 0 (sizeof_ImDrawIdx * index_data.length),
   event.copy_to_index_buffer index_data (sizeof_ImDrawIdx * index_data.length),
   event.flush_index_buffer (some b) 0 (sizeof_ImDrawIdx * index_data.length),
   event.unmap_index_buffer (some b)]

/-- The effect is a draw command recorded on the encoder. -/
def event.is_draw : event → Bool
  | event.draw _ _ _ _ => true
  | _ => false

/-- The effect is the bind of the resources (uniform slot, font texture and
sampler) of lines 193-199. -/
def event.is_resource_bind : event → Bool
  | event.bind_resources _ => true
  | _ => false

/-- The two commands a batch stands for: its scissor, then its indexed draw of
one instance. -/
def batch_commands (d : draw_data) : List event :=
  [event.scissor d.scissor, event.draw true d.first_elem d.nelem 1]

/-- Successive calls of `write` on a uniform channel, one per value. -/
def streamed_uniform.write_all (u : streamed_uniform) (datas : List uniform_data) :
    streamed_uniform :=
  datas.foldl streamed_uniform.write u

/-- The clip coordinates `(x', y', z', w')` of the UI point `(x, y)` under the
matrix `m`: the vector `(x, y, 0, 1)` combined with the four rows of the C
array, which are the columns the vertex shader multiplies with. -/
def clip_coords (m : uniform_data) (x y : ℚ) : List ℚ :=
  match m.matrix with
  | [[a0, a1, a2, a3], [b0, b1, b2, b3], [c0, c1, c2, c3], [d0, d1, d2, d3]] =>
    [x * a0 + y * b0 + 0 * c0 + 1 * d0, x * a1 + y * b1 + 0 * c1 + 1 * d1,
     x * a2 + y * b2 + 0 * c2 + 1 * d2, x * a3 + y * b3 + 0 * c3 + 1 * d3]
  | _ => []

/-- The clip rectangle in framebuffer pixel space as the specification words
it: the display origin is subtracted first, the result is scaled (in `float`
arithmetic). -/
def pixel_space_clip_rect (pos fb_scale : ImVec2) (c : ImVec4) : ImVec4 :=
  ⟨(c.x - pos.x) * fb_scale.x, (c.y - pos.y) * fb_scale.y,
   (c.z - pos.x) * fb_scale.x, (c.w - pos.y) * fb_scale.y⟩

/-! ## Sample inputs -/

/-- A sub-command without callback and with clip rectangle `r`. -/
def geometry_cmd (n : Nat) (r : ImVec4) : ImDrawCmd := ⟨n, r, none⟩

/-- The empty state of the sub-command loop. -/
def no_batches : cmd_loop_state := ⟨[], 0, []⟩

/-- A draw list of one quad (4 vertices, 6 indices) drawn by two sub-commands
of 3 indices each; the clip rectangle of the first lies to the right of a
100 x 100 framebuffer, the second covers it. -/
def quad_first_half_culled : ImDrawList :=
  { CmdBuffer := [⟨3, ⟨200, 0, 300, 100⟩, none⟩, ⟨3, ⟨0, 0, 100, 100⟩, none⟩]
    IdxBuffer := [0, 1, 2, 0, 2, 3]
    VtxBuffer := [⟨⟨0, 0⟩, ⟨0, 0⟩, 0⟩, ⟨⟨1, 0⟩, ⟨0, 0⟩, 0⟩, ⟨⟨1, 1⟩, ⟨0, 0⟩, 0⟩,
      ⟨⟨0, 1⟩, ⟨0, 0⟩, 0⟩] }

/-- One quad: 4 vertices, 6 indices, one sub-command over a 100 x 100
framebuffer. -/
def quad_list : ImDrawList :=
  { CmdBuffer := [⟨6, ⟨0, 0, 100, 100⟩, none⟩]
    IdxBuffer := [0, 1, 2, 0, 2, 3]
    VtxBuffer := [⟨⟨0, 0⟩, ⟨0, 0⟩, 0⟩, ⟨⟨1, 0⟩, ⟨0, 0⟩, 0⟩, ⟨⟨1, 1⟩, ⟨0, 0⟩, 0⟩,
      ⟨⟨0, 1⟩, ⟨0, 0⟩, 0⟩] }

/-- One triangle: 3 vertices, 3 indices, one sub-command. -/
def triangle_list : ImDrawList :=
  { CmdBuffer := [⟨3, ⟨10, 10, 60, 60⟩, none⟩]
    IdxBuffer := [0, 1, 2]
    VtxBuffer := [⟨⟨5, 5⟩, ⟨0, 0⟩, 1⟩, ⟨⟨6, 5⟩, ⟨0, 0⟩, 1⟩, ⟨⟨6, 6⟩, ⟨0, 0⟩, 1⟩] }

/-- A frame of a quad followed by a triangle on a 100 x 100 display. -/
def quad_triangle_data : ImDrawData :=
  { TotalIdxCount := 9
    TotalVtxCount := 7
    CmdLists := [quad_list, triangle_list]
    DisplayPos := ⟨0, 0⟩
    DisplaySize := ⟨100, 100⟩ }

/-- A draw list of 40000 vertices whose one triangle uses the last of them. -/
def wide_list : ImDrawList :=
  { CmdBuffer := [⟨3, ⟨0, 0, 100, 100⟩, none⟩]
    IdxBuffer := [0, 1, 39999]
    VtxBuffer := List.replicate 40000 ImDrawVert.zero }

/-- A draw list whose four sub-commands are, in order: drawn, a callback,
culled, drawn with the clip rectangle of the first. -/
def mixed_list : ImDrawList :=
  { CmdBuffer := [⟨3, ⟨1, 2, 30, 40⟩, none⟩, ⟨0, ⟨0, 0, 0, 0⟩, some 7⟩,
      ⟨3, ⟨200, 0, 300, 100⟩, none⟩, ⟨3, ⟨1, 2, 30, 40⟩, none⟩]
    IdxBuffer := [0, 1, 2, 0, 1, 2, 0, 1, 2]
    VtxBuffer := [⟨⟨5, 5⟩, ⟨0, 0⟩, 1⟩, ⟨⟨6, 5⟩, ⟨0, 0⟩, 1⟩, ⟨⟨6, 6⟩, ⟨0, 0⟩, 1⟩] }

/-- The state the loop reaches on the quad followed by the triangle. -/
def quad_triangle_state : loop_state :=
  { vertex_data := quad_list.VtxBuffer ++ triangle_list.VtxBuffer
    index_data := [0, 1, 2, 0, 2, 3, 4, 5, 6]
    draw_data := [⟨⟨0, 0, 100, 100⟩, 0, 6⟩, ⟨⟨10, 40, 50, 50⟩, 6, 3⟩]
    last_vertex := 7
    last_index := 9
    calls := [] }

/-- The state the loop reaches on the quad alone. -/
def quad_state : loop_state :=
  { vertex_data := quad_list.VtxBuffer
    index_data := [0, 1, 2, 0, 2, 3]
    draw_data := [⟨⟨0, 0, 100, 100⟩, 0, 6⟩]
    last_vertex := 4
    last_index := 6
    calls := [] }

/-- The state the loop reaches on the triangle followed by the mixed list. -/
def triangle_mixed_state : loop_state :=
  { vertex_data := triangle_list.VtxBuffer ++ mixed_list.VtxBuffer
    index_data := [0, 1, 2, 3, 4, 5, 3, 4, 5, 3, 4, 5]
    draw_data := [⟨⟨10, 40, 50, 50⟩, 0, 3⟩, ⟨⟨1, 60, 29, 38⟩, 3, 3⟩, ⟨⟨1, 60, 29, 38⟩, 6, 3⟩]
    last_vertex := 6
    last_index := 12
    calls := [⟨7, mixed_list, ⟨0, ⟨0, 0, 0, 0⟩, some 7⟩⟩] }

/-- A backend object right after construction: a ring of depth 3, no buffer
held. -/
def fresh_ui : backend := ⟨streamed_uniform.create 3, none, none⟩

/-- A backend object that holds the buffers 1 and 2 of the previous frame. -/
def ui_with_buffers : backend := ⟨streamed_uniform.create 3, some 1, some 2⟩

/-- A rendering API on which every call succeeds; the new buffers are 3 and 4. -/
def good_device : device := ⟨some 3, true, some 4, true⟩

/-- A rendering API on which the mapping of the new vertex buffer returns
`nullptr`. -/
def null_mapping_device : device := ⟨some 3, false, some 4, true⟩

/-- Framebuffer scale 1. -/
def unit_scale : ImGuiIO := ⟨⟨1, 1⟩⟩

/-- A frame of the triangle followed by the mixed list on a 100 x 100
display. -/
def triangle_mixed_data : ImDrawData :=
  { TotalIdxCount := 12
    TotalVtxCount := 6
    CmdLists := [triangle_list, mixed_list]
    DisplayPos := ⟨0, 0⟩
    DisplaySize := ⟨100, 100⟩ }

/-- A frame that reports no vertex but three indices, without draw lists. -/
def no_vertex_data : ImDrawData :=
  { TotalIdxCount := 3
    TotalVtxCount := 0
    CmdLists := []
    DisplayPos := ⟨0, 0⟩
    DisplaySize := ⟨100, 100⟩ }

/-- The frame of the quad and the triangle while the window is minimized: the
display is 0 x 0. -/
def minimized_data : ImDrawData :=
  { TotalIdxCount := 9
    TotalVtxCount := 7
    CmdLists := [quad_list, triangle_list]
    DisplayPos := ⟨0, 0⟩
    DisplaySize := ⟨0, 0⟩ }

/-- A frame in which the UI is hidden: no index reported. -/
def hidden_data : ImDrawData :=
  { TotalIdxCount := 0
    TotalVtxCount := 0
    CmdLists := []
    DisplayPos := ⟨0, 0⟩
    DisplaySize := ⟨100, 100⟩ }

/-- Framebuffer scale 2, as on a high-dpi display. -/
def retina_scale : ImGuiIO := ⟨⟨2, 2⟩⟩

/-- A frame whose display starts at the UI coordinate (10, 0) and is 100 x 100
UI units large; its one sub-command is clipped to the UI rectangle
(10, 0, 60, 50), the top left quarter of the display. -/
def offset_display_data : ImDrawData :=
  { TotalIdxCount := 3
    TotalVtxCount := 3
    CmdLists := [⟨[⟨3, ⟨10, 0, 60, 50⟩, none⟩], [0, 1, 2],
      [⟨⟨10, 0⟩, ⟨0, 0⟩, 1⟩, ⟨⟨60, 0⟩, ⟨0, 0⟩, 1⟩, ⟨⟨60, 50⟩, ⟨0, 0⟩, 1⟩]⟩]
    DisplayPos := ⟨10, 0⟩
    DisplaySize := ⟨100, 100⟩ }

/-- The state the loop reaches on the frame with the offset display, at
framebuffer scale 2. -/
def offset_display_state : loop_state :=
  { vertex_data := [⟨⟨10, 0⟩, ⟨0, 0⟩, 1⟩, ⟨⟨60, 0⟩, ⟨0, 0⟩, 1⟩, ⟨⟨60, 50⟩, ⟨0, 0⟩, 1⟩]
    index_data := [0, 1, 2]
    draw_data := [⟨⟨10, 100, 100, 100⟩, 0, 3⟩]
    last_vertex := 3
    last_index := 3
    calls := [] }

/-- A font atlas of 1024 x 128 pixels. -/
def large_atlas : font_atlas := ⟨List.replicate (4 * 1024 * 128) 255, 1024, 128⟩

/-- A rendering API on which every step of the construction succeeds. -/
def good_init_device : init_device :=
  ⟨true, true, true, true, true, true, true, true, true, true, true⟩

/-- A rendering API on which only the creation of the sampler fails. -/
def failing_sampler_device : init_device :=
  ⟨true, true, true, true, true, true, true, true, true, true, false⟩

/-- A rendering API on which only the mapping of the staging buffer of the
font pixels fails: `ngf_pixel_buffer_map_range` returns `nullptr`. -/
def null_texture_mapping_device : init_device :=
  ⟨true, true, true, true, true, true, true, true, true, false, true⟩

/-- Three iterations of the frame loop of `main` on the frame of the triangle
and the mixed list: `ngf_begin_frame` fails on the first and succeeds on the
other two. -/
def three_frames : List frame_input :=
  [⟨false, good_device, triangle_mixed_data, unit_scale⟩,
   ⟨true, good_device, triangle_mixed_data, unit_scale⟩,
   ⟨true, good_device, triangle_mixed_data, unit_scale⟩]

/-! ## Rounding to binary32 -/

theorem pow2_eq_zpow (e : Int) : pow2 e = (2 : ℚ) ^ e := by
  unfold pow2
  split
  · rename_i h
    obtain ⟨k, rfl⟩ := Int.eq_ofNat_of_zero_le h
    simp
  · rename_i h
    have h2 : 0 ≤ -e := by omega
    obtain ⟨k, hk⟩ := Int.eq_ofNat_of_zero_le h2
    have he : e = -(k : Int) := by omega
    rw [hk, he]
    simp

theorem pow2_pos (e : Int) : 0 < pow2 e := by
  rw [pow2_eq_zpow]; positivity

theorem pow2_add (a b : Int) : pow2 (a + b) = pow2 a * pow2 b := by
  simp only [pow2_eq_zpow]
  exact zpow_add₀ (by norm_num) a b

theorem pow2_le_pow2 {a b : Int} (h : a ≤ b) : pow2 a ≤ pow2 b := by
  simp only [pow2_eq_zpow]
  exact zpow_le_zpow_right₀ (by norm_num) h

theorem pow2_lt_pow2 {a b : Int} (h : a < b) : pow2 a < pow2 b := by
  simp only [pow2_eq_zpow]
  exact zpow_lt_zpow_right₀ (by norm_num) h

theorem pow2_le_pow2_iff {a b : Int} : pow2 a ≤ pow2 b ↔ a ≤ b := by
  constructor
  · intro h
    by_contra hn
    exact absurd (pow2_lt_pow2 (not_le.mp hn)) (not_lt.mpr h)
  · exact pow2_le_pow2

/-- For a natural exponent the power of two is the whole number `2^k`. -/
theorem pow2_natCast (k : Nat) : pow2 (k : Int) = ((2 ^ k : Nat) : ℚ) := by
  rw [pow2_eq_zpow]; simp

/-- A later power of two is a whole multiple of an earlier one. -/
theorem pow2_eq_mul {a b : Int} (h : a ≤ b) : pow2 b = ((2 ^ (b - a).toNat : Nat) : ℚ) * pow2 a := by
  have hb : b = ((b - a).toNat : Int) + a := by omega
  conv_lhs => rw [hb, pow2_add, pow2_natCast]

theorem log2_floor_eq (fuel : Nat) : ∀ n : Nat, n ≤ fuel → log2_floor fuel n = Nat.log2 n := by
  induction fuel with
  | zero =>
    intro n h
    have : n = 0 := by omega
    subst this
    rw [log2_floor, Nat.log2]
    simp
  | succ fuel ih =>
    intro n h
    rw [log2_floor, Nat.log2]
    split
    · rename_i h2
      rw [if_neg (by omega)]
    · rename_i h2
      rw [if_pos (by omega), ih (n / 2) (by omega)]

theorem log2_floor_le (n : Nat) (h : n ≠ 0) : 2 ^ log2_floor n n ≤ n := by
  rw [log2_floor_eq n n (le_refl _)]
  exact Nat.log2_self_le h

theorem lt_log2_floor (n : Nat) : n < 2 ^ (log2_floor n n + 1) := by
  rw [log2_floor_eq n n (le_refl _)]
  exact Nat.lt_log2_self

/-- The exponent before it is clamped brackets the number. -/
theorem raw_exponent_bounds (a : ℚ) (ha : 0 < a) (e : Int)
    (he : e = (log2_floor a.num.natAbs a.num.natAbs : Int) - (log2_floor a.den a.den : Int)) :
    pow2 (if a < pow2 e then e - 1 else e) ≤ a ∧
    a < pow2 ((if a < pow2 e then e - 1 else e) + 1) := by
  have hnum : 0 < a.num := Rat.num_pos.mpr ha
  have hn0 : a.num.natAbs ≠ 0 := by omega
  have hd0 : a.den ≠ 0 := a.den_nz
  have h1 := log2_floor_le a.num.natAbs hn0
  have h2 := lt_log2_floor a.num.natAbs
  have h3 := log2_floor_le a.den hd0
  have h4 := lt_log2_floor a.den
  have hcast : ((a.num.natAbs : Nat) : ℚ) = (a.num : ℚ) := by
    rw [Nat.cast_natAbs, Int.cast_abs, abs_of_pos (by exact_mod_cast hnum)]
  have hq : a * (a.den : ℚ) = (a.num.natAbs : ℚ) := by
    rw [hcast]
    exact Rat.mul_den_eq_num a
  have hdpos : (0 : ℚ) < (a.den : ℚ) := by exact_mod_cast Nat.pos_of_ne_zero hd0
  have c1 : ((2 : ℚ) ^ log2_floor a.num.natAbs a.num.natAbs) ≤ (a.num.natAbs : ℚ) := by
    exact_mod_cast h1
  have c2 : (a.num.natAbs : ℚ) < (2 : ℚ) ^ (log2_floor a.num.natAbs a.num.natAbs + 1) := by
    exact_mod_cast h2
  have c3 : ((2 : ℚ) ^ log2_floor a.den a.den) ≤ (a.den : ℚ) := by exact_mod_cast h3
  have c4 : (a.den : ℚ) < (2 : ℚ) ^ (log2_floor a.den a.den + 1) := by exact_mod_cast h4
  have p0 : pow2 e = (2 : ℚ) ^ log2_floor a.num.natAbs a.num.natAbs /
      (2 : ℚ) ^ log2_floor a.den a.den := by
    rw [he, pow2_eq_zpow, zpow_sub₀ (by norm_num), zpow_natCast, zpow_natCast]
  have pm : pow2 (e - 1) = (2 : ℚ) ^ log2_floor a.num.natAbs a.num.natAbs /
      (2 : ℚ) ^ (log2_floor a.den a.den + 1) := by
    have : e - 1 = (log2_floor a.num.natAbs a.num.natAbs : Int) -
        ((log2_floor a.den a.den + 1 : Nat) : Int) := by rw [he]; push_cast; ring
    rw [this, pow2_eq_zpow, zpow_sub₀ (by norm_num), zpow_natCast, zpow_natCast]
  have pp : pow2 (e + 1) = (2 : ℚ) ^ (log2_floor a.num.natAbs a.num.natAbs + 1) /
      (2 : ℚ) ^ log2_floor a.den a.den := by
    have : e + 1 = ((log2_floor a.num.natAbs a.num.natAbs + 1 : Nat) : Int) -
        (log2_floor a.den a.den : Int) := by rw [he]; push_cast; ring
    rw [this, pow2_eq_zpow, zpow_sub₀ (by norm_num), zpow_natCast, zpow_natCast]
  have hlow : pow2 (e - 1) ≤ a := by
    rw [pm, div_le_iff₀ (by positivity)]
    calc (2 : ℚ) ^ log2_floor a.num.natAbs a.num.natAbs ≤ (a.num.natAbs : ℚ) := c1
      _ = a * (a.den : ℚ) := hq.symm
      _ ≤ a * (2 : ℚ) ^ (log2_floor a.den a.den + 1) :=
          mul_le_mul_of_nonneg_left c4.le ha.le
  have hup : a < pow2 (e + 1) := by
    rw [pp, lt_div_iff₀ (by positivity)]
    calc a * (2 : ℚ) ^ log2_floor a.den a.den ≤ a * (a.den : ℚ) :=
          mul_le_mul_of_nonneg_left c3 ha.le
      _ = (a.num.natAbs : ℚ) := hq
      _ < (2 : ℚ) ^ (log2_floor a.num.natAbs a.num.natAbs + 1) := c2
  split
  · rename_i hlt
    exact ⟨hlow, by rwa [sub_add_cancel]⟩
  · rename_i hlt
    exact ⟨not_lt.mp hlt, hup⟩

theorem float_exponent_ge (a : ℚ) : -126 ≤ float_exponent a := by
  unfold float_exponent
  exact le_max_right _ _

theorem float_exponent_lower (a : ℚ) (ha : 0 < a) (h : -126 < float_exponent a) :
    pow2 (float_exponent a) ≤ a := by
  have hb := (raw_exponent_bounds a ha _ rfl).1
  unfold float_exponent at h ⊢
  simp only at h ⊢
  rw [max_eq_left (by
    by_contra hn
    rw [max_eq_right (not_le.mp hn).le] at h
    exact absurd h (lt_irrefl _))]
  exact hb

theorem float_exponent_upper (a : ℚ) (ha : 0 < a) : a < pow2 (float_exponent a + 1) := by
  have hb := (raw_exponent_bounds a ha _ rfl).2
  unfold float_exponent
  simp only
  exact lt_of_lt_of_le hb (pow2_le_pow2 (by
    have := le_max_left
      (if a < pow2 ((log2_floor a.num.natAbs a.num.natAbs : Int) - (log2_floor a.den a.den : Int))
        then (log2_floor a.num.natAbs a.num.natAbs : Int) - (log2_floor a.den a.den : Int) - 1
        else (log2_floor a.num.natAbs a.num.natAbs : Int) - (log2_floor a.den a.den : Int))
      (-126 : Int)
    omega))

theorem round_half_even_intCast (z : Int) : round_half_even (z : ℚ) = z := by
  unfold round_half_even
  rw [Int.floor_intCast, sub_self, if_pos (by norm_num)]

theorem floor_le_round_half_even (x : ℚ) : ⌊x⌋ ≤ round_half_even x := by
  unfold round_half_even
  split_ifs <;> omega

/-- Rounding to the nearest integer does not go beyond a whole upper bound. -/
theorem round_half_even_le {x : ℚ} {z : Int} (h : x ≤ z) : round_half_even x ≤ z := by
  have hf : ⌊x⌋ ≤ z := Int.floor_le_iff.mpr (lt_of_le_of_lt h (by linarith))
  have hstep : ¬ (x - ⌊x⌋ < 1 / 2) → ⌊x⌋ + 1 ≤ z := by
    intro hfr
    by_contra hn
    have hz : z = ⌊x⌋ := by omega
    have h1 : (⌊x⌋ : ℚ) ≤ x := Int.floor_le x
    rw [hz] at h
    have : x - ⌊x⌋ = 0 := by linarith
    rw [this] at hfr
    norm_num at hfr
  unfold round_half_even
  split_ifs with h1 h2 h3
  · exact hf
  · exact hstep h1
  · exact hf
  · exact hstep h1

/-- Rounding to the nearest integer does not go below a whole lower bound. -/
theorem le_round_half_even {x : ℚ} {z : Int} (h : (z : ℚ) ≤ x) : z ≤ round_half_even x :=
  le_trans (Int.le_floor.mpr h) (floor_le_round_half_even x)

theorem rounded_zero : rounded 0 = 0 := by
  unfold rounded
  rw [zero_div]
  have := round_half_even_intCast 0
  rw [Int.cast_zero] at this
  rw [this, Int.cast_zero, zero_mul]

/-- The rounded number does not go beyond a multiple of the quantum that is an
upper bound. -/
theorem rounded_le_of_multiple {q x : ℚ} (z : Int)
    (hx : x = z * pow2 (float_exponent |q| - 23)) (h : q ≤ x) : rounded q ≤ x := by
  have hQ := pow2_pos (float_exponent |q| - 23)
  have h1 : q / pow2 (float_exponent |q| - 23) ≤ z := by
    rw [div_le_iff₀ hQ, ← hx]
    exact h
  have h2 : ((round_half_even (q / pow2 (float_exponent |q| - 23)) : Int) : ℚ) ≤ z := by
    exact_mod_cast round_half_even_le h1
  unfold rounded
  rw [hx]
  exact mul_le_mul_of_nonneg_right h2 hQ.le

/-- The rounded number does not go below a multiple of the quantum that is a
lower bound. -/
theorem le_rounded_of_multiple {q x : ℚ} (z : Int)
    (hx : x = z * pow2 (float_exponent |q| - 23)) (h : x ≤ q) : x ≤ rounded q := by
  have hQ := pow2_pos (float_exponent |q| - 23)
  have h1 : (z : ℚ) ≤ q / pow2 (float_exponent |q| - 23) := by
    rw [le_div_iff₀ hQ, ← hx]
    exact h
  have h2 : (z : ℚ) ≤ ((round_half_even (q / pow2 (float_exponent |q| - 23)) : Int) : ℚ) := by
    exact_mod_cast le_round_half_even h1
  unfold rounded
  rw [hx]
  exact mul_le_mul_of_nonneg_right h2 hQ.le

theorem rounded_nonneg {q : ℚ} (h : 0 ≤ q) : 0 ≤ rounded q :=
  le_rounded_of_multiple 0 (by simp) h

theorem rounded_nonpos {q : ℚ} (h : q ≤ 0) : rounded q ≤ 0 :=
  rounded_le_of_multiple 0 (by simp) h

/-- The power of two at the start of a binade is `2^23` quanta. -/
theorem pow2_eq_quanta (e : Int) : pow2 e = ((2 ^ 23 : Int) : ℚ) * pow2 (e - 23) := by
  have h := pow2_eq_mul (a := e - 23) (b := e) (by omega)
  have h23 : (e - (e - 23)).toNat = 23 := by omega
  rw [h23] at h
  rw [h]
  norm_num

/-- The power of two at the end of a binade is `2^24` quanta. -/
theorem pow2_succ_eq_quanta (e : Int) :
    pow2 (e + 1) = ((2 ^ 24 : Int) : ℚ) * pow2 (e - 23) := by
  have h := pow2_eq_mul (a := e - 23) (b := e + 1) (by omega)
  have h24 : (e + 1 - (e - 23)).toNat = 24 := by omega
  rw [h24] at h
  rw [h]
  norm_num

/-- A binary32 number other than 0 is a multiple of the quantum of its own
binade. -/
theorem value_multiple_of_quantum {v : ℚ} (hv : is_float_value v) (hv0 : v ≠ 0) :
    ∃ z : Int, v = z * pow2 (float_exponent |v| - 23) := by
  obtain ⟨⟨z0, hz0⟩, hgrid, -⟩ := hv
  have habs : 0 < |v| := abs_pos.mpr hv0
  have hge := float_exponent_ge |v|
  by_cases he : float_exponent |v| = -126
  · refine ⟨z0, ?_⟩
    rw [he]
    exact hz0
  · exact hgrid _ hge (float_exponent_lower |v| habs (by omega))

/-- Rounding leaves a binary32 number as it is. -/
theorem rounded_of_value {v : ℚ} (hv : is_float_value v) : rounded v = v := by
  by_cases hv0 : v = 0
  · rw [hv0, rounded_zero]
  obtain ⟨z, hz⟩ := value_multiple_of_quantum hv hv0
  have hQ := pow2_pos (float_exponent |v| - 23)
  have hdiv : v / pow2 (float_exponent |v| - 23) = z := by
    rw [div_eq_iff hQ.ne.symm]
    exact hz
  unfold rounded
  rw [hdiv, round_half_even_intCast]
  exact hz.symm

/-- Rounding is monotone against binary32 numbers from above: a binary32 number
that is not below `q` is not below the rounded `q`. -/
theorem rounded_le {q v : ℚ} (hqv : q ≤ v) (hv : is_float_value v) : rounded q ≤ v := by
  obtain ⟨⟨z0, hz0⟩, hgrid, -⟩ := hv
  by_cases hq0 : q = 0
  · rw [hq0, rounded_zero]
    rw [hq0] at hqv
    exact hqv
  have habs : 0 < |q| := abs_pos.mpr hq0
  have hge := float_exponent_ge |q|
  by_cases he : float_exponent |q| = -126
  · exact rounded_le_of_multiple z0 (by rw [he]; exact hz0) hqv
  · have hlow := float_exponent_lower |q| habs (by omega)
    by_cases hvbig : pow2 (float_exponent |q|) ≤ |v|
    · obtain ⟨z, hz⟩ := hgrid _ hge hvbig
      exact rounded_le_of_multiple z hz hqv
    · have hvs : |v| < pow2 (float_exponent |q|) := not_le.mp hvbig
      have hv1 : -pow2 (float_exponent |q|) < v := (abs_lt.mp hvs).1
      have hqneg : q ≤ -pow2 (float_exponent |q|) := by
        rcases le_or_lt 0 q with h0 | h0
        · have h3 : |q| = q := abs_of_nonneg h0
          have := le_abs_self v
          linarith
        · have h3 : |q| = -q := abs_of_neg h0
          linarith
      have hm : -pow2 (float_exponent |q|) =
          ((-(2 ^ 23) : Int) : ℚ) * pow2 (float_exponent |q| - 23) := by
        rw [pow2_eq_quanta (float_exponent |q|)]
        push_cast
        ring
      have := rounded_le_of_multiple (-(2 ^ 23)) hm hqneg
      linarith

/-- The rounded number stays within the binade of the number. -/
theorem abs_rounded_le {q : ℚ} (hq0 : q ≠ 0) :
    |rounded q| ≤ pow2 (float_exponent |q| + 1) := by
  have habs : 0 < |q| := abs_pos.mpr hq0
  have hup := float_exponent_upper |q| habs
  have h1 : q ≤ pow2 (float_exponent |q| + 1) := le_trans (le_abs_self q) hup.le
  have h2 : -pow2 (float_exponent |q| + 1) ≤ q := by
    have := neg_abs_le q
    linarith
  have hm : -pow2 (float_exponent |q| + 1) =
      ((-(2 ^ 24) : Int) : ℚ) * pow2 (float_exponent |q| - 23) := by
    rw [pow2_succ_eq_quanta (float_exponent |q|)]
    push_cast
    ring
  rw [abs_le]
  exact ⟨le_rounded_of_multiple (-(2 ^ 24)) hm h2,
    rounded_le_of_multiple (2 ^ 24) (pow2_succ_eq_quanta _) h1⟩

theorem pow2_zero : pow2 0 = 1 := by
  rw [pow2_eq_zpow]; simp

theorem pow2_24 : pow2 24 = 2 ^ 24 := by
  rw [pow2_eq_zpow]; norm_cast

theorem pow2_128 : pow2 128 = 2 ^ 128 := by
  rw [pow2_eq_zpow]; norm_cast

/-- A whole number of at most 24 bits, scaled by a power of two within the
exponent range, is a binary32 number. -/
theorem is_float_value_mul_pow2 (m k : Int) (hm : |m| ≤ 2 ^ 24) (hk : -149 ≤ k)
    (hlt : |(m : ℚ) * pow2 k| < pow2 128) : is_float_value ((m : ℚ) * pow2 k) := by
  have hmq : |(m : ℚ)| ≤ 2 ^ 24 := by exact_mod_cast hm
  refine ⟨?_, ?_, hlt⟩
  · refine ⟨m * ((2 ^ (k - -149).toNat : Nat) : Int), ?_⟩
    rw [pow2_eq_mul hk]
    push_cast
    ring
  · intro e he hle
    have habs : |(m : ℚ) * pow2 k| = |(m : ℚ)| * pow2 k := by
      rw [abs_mul, abs_of_pos (pow2_pos k)]
    have hk24 : pow2 (k + 24) = pow2 k * 2 ^ 24 := by rw [pow2_add, pow2_24]
    have hle2 : pow2 e ≤ pow2 (k + 24) := by
      rw [hk24]
      calc pow2 e ≤ |(m : ℚ)| * pow2 k := by rw [← habs]; exact hle
        _ ≤ 2 ^ 24 * pow2 k := mul_le_mul_of_nonneg_right hmq (pow2_pos k).le
        _ = pow2 k * 2 ^ 24 := mul_comm _ _
    have he24 : e ≤ k + 24 := pow2_le_pow2_iff.mp hle2
    by_cases hek : e - 23 ≤ k
    · refine ⟨m * ((2 ^ (k - (e - 23)).toNat : Nat) : Int), ?_⟩
      rw [pow2_eq_mul hek]
      push_cast
      ring
    · have hee : e = k + 24 := by omega
      have hbig : (2 : ℚ) ^ 24 ≤ |(m : ℚ)| := by
        rw [hee, hk24, habs] at hle
        have hp := pow2_pos k
        by_contra hn
        have : |(m : ℚ)| * pow2 k < 2 ^ 24 * pow2 k :=
          mul_lt_mul_of_pos_right (not_le.mp hn) hp
        linarith
      have heq : |m| = 2 ^ 24 := by
        have : (2 : Int) ^ 24 ≤ |m| := by exact_mod_cast hbig
        omega
      have hq1 : pow2 (e - 23) = pow2 k * 2 := by
        have : e - 23 = k + 1 := by omega
        rw [this, pow2_add]
        congr 1
      rcases abs_eq (by norm_num : (0 : Int) ≤ 2 ^ 24) |>.mp heq with h | h
      · refine ⟨2 ^ 23, ?_⟩
        rw [h, hq1]
        push_cast
        ring
      · refine ⟨-(2 ^ 23), ?_⟩
        rw [h, hq1]
        push_cast
        ring

/-- A whole number of magnitude at most `2^24` is a binary32 number. -/
theorem is_float_value_intCast (n : Int) (h : |n| ≤ 2 ^ 24) : is_float_value (n : ℚ) := by
  have := is_float_value_mul_pow2 n 0 h (by norm_num) (by
    rw [pow2_zero, mul_one, pow2_128]
    have : |(n : ℚ)| ≤ 2 ^ 24 := by exact_mod_cast h
    calc |(n : ℚ)| ≤ 2 ^ 24 := this
      _ < 2 ^ 128 := by norm_num)
  rwa [pow2_zero, mul_one] at this

/-- A power of two within the exponent range is a binary32 number. -/
theorem is_float_value_pow2 (k : Int) (hk : -149 ≤ k) (hk2 : k < 128) :
    is_float_value (pow2 k) := by
  have := is_float_value_mul_pow2 1 k (by norm_num) hk (by
    rw [Int.cast_one, one_mul, abs_of_pos (pow2_pos k)]
    exact pow2_lt_pow2 hk2)
  rwa [Int.cast_one, one_mul] at this

theorem is_float_value_zero : is_float_value 0 := by
  have := is_float_value_intCast 0 (by norm_num)
  rwa [Int.cast_zero] at this

/-- The negative of a binary32 number is a binary32 number. -/
theorem is_float_value_neg {v : ℚ} (hv : is_float_value v) : is_float_value (-v) := by
  obtain ⟨⟨z0, hz0⟩, hgrid, hlt⟩ := hv
  refine ⟨⟨-z0, by rw [hz0]; push_cast; ring⟩, ?_, by rwa [abs_neg]⟩
  intro e he hle
  rw [abs_neg] at hle
  obtain ⟨z, hz⟩ := hgrid e he hle
  exact ⟨-z, by rw [hz]; push_cast; ring⟩

/-- A rounded number below the overflow threshold is a binary32 number. -/
theorem rounded_value {q : ℚ} (h : |rounded q| < pow2 128) : is_float_value (rounded q) := by
  by_cases hq0 : q = 0
  · rw [hq0, rounded_zero]
    exact is_float_value_zero
  have hge := float_exponent_ge |q|
  have hup := abs_rounded_le hq0
  refine ⟨?_, ?_, h⟩
  · refine ⟨round_half_even (q / pow2 (float_exponent |q| - 23)) *
      ((2 ^ (float_exponent |q| - 23 - -149).toNat : Nat) : Int), ?_⟩
    unfold rounded
    rw [pow2_eq_mul (a := -149) (b := float_exponent |q| - 23) (by omega)]
    push_cast
    ring
  · intro e he hle
    by_cases hee : e ≤ float_exponent |q|
    · refine ⟨round_half_even (q / pow2 (float_exponent |q| - 23)) *
        ((2 ^ (float_exponent |q| - 23 - (e - 23)).toNat : Nat) : Int), ?_⟩
      unfold rounded
      rw [pow2_eq_mul (a := e - 23) (b := float_exponent |q| - 23) (by omega)]
      push_cast
      ring
    · have he1 : e ≤ float_exponent |q| + 1 := pow2_le_pow2_iff.mp (le_trans hle hup)
      have hee2 : e = float_exponent |q| + 1 := by omega
      have habs : |rounded q| = pow2 e := by
        apply le_antisymm
        · rw [hee2]; exact hup
        · exact hle
      rcases abs_eq (pow2_pos e).le |>.mp habs with h1 | h1
      · exact ⟨2 ^ 23, by rw [h1]; exact pow2_eq_quanta e⟩
      · refine ⟨-(2 ^ 23), ?_⟩
        rw [h1, pow2_eq_quanta e]
        push_cast
        ring

/-- The two outcomes of rounding to a `float`. -/
theorem round_to_float_cases (q : ℚ) :
    (round_to_float q = float.finite (rounded q) ∧ |rounded q| < pow2 128) ∨
    (round_to_float q = float.infinity (decide (rounded q < 0)) ∧ pow2 128 ≤ |rounded q|) := by
  unfold round_to_float
  split
  · rename_i h
    exact Or.inr ⟨rfl, h⟩
  · rename_i h
    exact Or.inl ⟨rfl, not_le.mp h⟩

/-- A finite result of rounding is a binary32 number. -/
theorem round_to_float_value {q r : ℚ} (h : round_to_float q = float.finite r) :
    is_float_value r := by
  rcases round_to_float_cases q with ⟨h1, h2⟩ | ⟨h1, -⟩
  · rw [h1] at h
    injection h with h
    rw [← h]
    exact rounded_value h2
  · rw [h1] at h
    exact float.noConfusion h

/-- A binary32 number is its own rounding. -/
theorem round_to_float_of_value {v : ℚ} (hv : is_float_value v) :
    round_to_float v = float.finite v := by
  unfold round_to_float
  rw [rounded_of_value hv, if_neg (not_le.mpr hv.2.2)]

/-- An `int` of magnitude at most `2^24` converts to `float` exactly. -/
theorem int_to_float_exact (n : Int) (h : |n| ≤ 2 ^ 24) :
    int_to_float n = float.finite n :=
  round_to_float_of_value (is_float_value_intCast n h)

/-- A binary32 number that is not below `q` is not below the `float` that `q`
rounds to. -/
theorem lt_round_to_float_false {q v : ℚ} (hqv : q ≤ v) (hv : is_float_value v) :
    float.lt (float.finite v) (round_to_float q) = false := by
  have hle := rounded_le hqv hv
  rcases round_to_float_cases q with ⟨h1, -⟩ | ⟨h1, h2⟩
  · rw [h1]
    simp only [float.lt, decide_eq_false_iff_not, not_lt]
    exact hle
  · rw [h1]
    have hneg : rounded q < 0 := by
      by_contra hn
      rw [abs_of_nonneg (not_lt.mp hn)] at h2
      have := lt_of_le_of_lt (le_abs_self v) hv.2.2
      linarith
    simp [float.lt, hneg]

/-! ## The cast and the cull test -/

theorem float_ofNat (n : Nat) : (OfNat.ofNat n : float) = float.finite (n : ℚ) := rfl

theorem float_zero : (0 : float) = float.finite 0 := by
  rw [float_ofNat, Nat.cast_zero]

theorem float_sub_def (a b : float) : a - b = float.sub a b := rfl

theorem float_mul_def (a b : float) : a * b = float.mul a b := rfl

/-- A finite `float` difference is a binary32 number. -/
theorem float_sub_value (a b : float) (v : ℚ) (h : a - b = float.finite v) :
    is_float_value v := by
  rw [float_sub_def] at h
  cases a <;> cases b <;> simp only [float.sub] at h
  · exact round_to_float_value h
  all_goals first
    | exact float.noConfusion h
    | (split at h <;> exact float.noConfusion h)

/-- A finite `float` product is a binary32 number. -/
theorem float_mul_value (a b : float) (v : ℚ) (h : a * b = float.finite v) :
    is_float_value v := by
  rw [float_mul_def] at h
  cases a <;> cases b <;> simp only [float.mul] at h
  · exact round_to_float_value h
  all_goals first
    | exact float.noConfusion h
    | (split at h <;> exact float.noConfusion h)

theorem truncate_neg (q : ℚ) : truncate (-q) = - truncate q := by
  unfold truncate
  rw [Rat.num_neg_eq_neg_num, Rat.den_neg_eq_den, Int.neg_tdiv]

theorem truncate_of_nonneg {q : ℚ} (h : 0 ≤ q) : truncate q = ⌊q⌋ := by
  unfold truncate
  rw [Rat.floor_def, Int.tdiv_eq_ediv (Rat.num_nonneg.mpr h) (Int.ofNat_nonneg _)]

theorem truncate_of_nonpos {q : ℚ} (h : q ≤ 0) : truncate q = ⌈q⌉ := by
  have h1 := truncate_of_nonneg (q := -q) (by linarith)
  rw [truncate_neg, Int.floor_neg] at h1
  exact neg_injective h1

/-- The conversion of a `float` to an integer type truncates toward zero. -/
theorem truncate_eq_trunc (q : ℚ) : truncate q = trunc q := by
  unfold trunc
  split
  · rename_i h
    exact truncate_of_nonneg h
  · rename_i h
    exact truncate_of_nonpos (by linarith)

theorem truncate_nonneg {q : ℚ} (h : 0 ≤ q) : 0 ≤ truncate q := by
  unfold truncate
  exact Int.tdiv_nonneg (Rat.num_nonneg.mpr h) (Int.ofNat_nonneg _)

/-- The truncation of a whole number is that number. -/
theorem truncate_intCast (n : Int) : truncate (n : ℚ) = n := by
  unfold truncate
  rw [Rat.num_intCast, Rat.den_intCast]
  simp

/-- Truncation stays within a whole bound on the magnitude. -/
theorem abs_truncate_le {q : ℚ} {N : Int} (h : |q| ≤ N) : |truncate q| ≤ N := by
  have h1 := (abs_le.mp h).1
  have h2 := (abs_le.mp h).2
  rw [abs_le]
  rcases le_or_lt 0 q with h0 | h0
  · rw [truncate_of_nonneg h0]
    refine ⟨?_, ?_⟩
    · have : (0 : Int) ≤ ⌊q⌋ := Int.floor_nonneg.mpr h0
      have hN : (0 : ℚ) ≤ N := le_trans h0 h2
      have : (0 : Int) ≤ N := by exact_mod_cast hN
      omega
    · exact Int.floor_le_iff.mpr (by linarith)
  · rw [truncate_of_nonpos h0.le]
    refine ⟨?_, ?_⟩
    · have : ((-N : Int) : ℚ) ≤ q := by push_cast; exact h1
      exact Int.le_ceil_iff.mpr (by push_cast; linarith)
    · have hc : ⌈q⌉ ≤ 0 := Int.ceil_le.mpr (by exact_mod_cast h0.le)
      have hN : (0 : ℚ) ≤ N := le_trans (abs_nonneg q) h
      have : (0 : Int) ≤ N := by exact_mod_cast hN
      omega

/-- Within the range of `int32_t` the cast is the truncation. -/
theorem float_to_int_finite {q : ℚ} (h1 : -2 ^ 31 ≤ truncate q) (h2 : truncate q < 2 ^ 31) :
    float_to_int (float.finite q) = truncate q := by
  simp only [float_to_int]
  rw [if_pos ⟨h1, h2⟩]

/-- The result of the cast is a 32-bit signed number. -/
theorem float_to_int_range (f : float) : -2 ^ 31 ≤ float_to_int f ∧ float_to_int f < 2 ^ 31 := by
  cases f with
  | finite q =>
    simp only [float_to_int]
    split
    · rename_i h
      exact h
    · norm_num
  | infinity n => simp [float_to_int]
  | nan => simp [float_to_int]

/-- Within the range of `uint32_t` the cast is the truncation. -/
theorem float_to_uint_finite {q : ℚ} (h1 : 0 ≤ truncate q) (h2 : truncate q < 2 ^ 32) :
    ((float_to_uint (float.finite q) : Nat) : Int) = truncate q := by
  simp only [float_to_uint]
  rw [Int.emod_eq_of_lt h1 h2]
  exact Int.toNat_of_nonneg h1

/-- A `float` whose cast to `int` is positive is a positive number. -/
theorem float_to_int_pos {f : float} (h : 0 < float_to_int f) :
    ∃ q, f = float.finite q ∧ 0 < q := by
  cases f with
  | finite q =>
    refine ⟨q, rfl, ?_⟩
    simp only [float_to_int] at h
    split at h
    · by_contra hn
      have hq : q ≤ 0 := not_lt.mp hn
      rw [truncate_of_nonpos hq] at h
      have : ⌈q⌉ ≤ 0 := Int.ceil_le.mpr (by exact_mod_cast hq)
      omega
    · norm_num at h
  | infinity n => simp [float_to_int] at h
  | nan => simp [float_to_int] at h

/-- The truncation of a binary32 number is a binary32 number. -/
theorem is_float_value_truncate {v : ℚ} (hv : is_float_value v) :
    is_float_value (truncate v : ℚ) := by
  by_cases hsmall : |v| < 2 ^ 24
  · apply is_float_value_intCast
    have : |v| ≤ ((2 ^ 24 : Int) : ℚ) := by push_cast; exact hsmall.le
    exact abs_truncate_le this
  · have hbig : pow2 24 ≤ |v| := by rw [pow2_24]; exact not_lt.mp hsmall
    obtain ⟨z, hz⟩ := hv.2.1 24 (by norm_num) hbig
    have h1 : pow2 (24 - 23) = 2 := by
      rw [pow2_eq_zpow]; norm_num
    rw [h1] at hz
    have hint : v = ((z * 2 : Int) : ℚ) := by rw [hz]; push_cast; ring
    rw [hint, truncate_intCast]
    rw [← hint]
    exact hv

/-- The sizes the routine computes, truncations of `float` products, convert
back to `float` exactly. -/
theorem float_to_int_converts (a b : float) :
    int_to_float (float_to_int (a * b)) = float.finite (float_to_int (a * b)) := by
  have hmin : is_float_value (((-2 ^ 31 : Int) : ℚ)) := by
    have := is_float_value_mul_pow2 (-1) 31 (by norm_num) (by norm_num) (by
      rw [abs_mul, abs_of_pos (pow2_pos 31), pow2_128]
      rw [pow2_eq_zpow]
      norm_num)
    have h31 : pow2 31 = 2 ^ 31 := by rw [pow2_eq_zpow]; norm_cast
    rw [h31] at this
    have e : (((-2 ^ 31 : Int) : ℚ)) = ((-1 : Int) : ℚ) * 2 ^ 31 := by push_cast; ring
    rw [e]
    exact this
  unfold int_to_float
  apply round_to_float_of_value
  cases hab : a * b with
  | finite q =>
    have hq := float_mul_value a b q hab
    simp only [float_to_int]
    split
    · exact is_float_value_truncate hq
    · exact hmin
  | infinity n => exact hmin
  | nan => exact hmin

theorem passes_cull_test_iff (W H : Int) (r : ImVec4) :
    passes_cull_test W H r = true ↔
      float.lt r.x (int_to_float W) = true ∧ float.lt r.y (int_to_float H) = true ∧
      float.le 0 r.z = true ∧ float.le 0 r.w = true := by
  simp only [passes_cull_test, Bool.and_eq_true, and_assoc]

/-- Against a number, a `float` that is no NaN is either smaller or not. -/
theorem float_lt_finite_iff (f : float) (a : ℚ) (hf : f.is_nan = false) :
    float.lt f (float.finite a) = true ↔ ¬ float.le (float.finite a) f = true := by
  cases f with
  | finite v => simp [float.lt, float.le]
  | infinity n => cases n <;> simp [float.lt, float.le]
  | nan => simp [float.is_nan] at hf

theorem float_zero_le_iff (f : float) (hf : f.is_nan = false) :
    float.le 0 f = true ↔ ¬ float.lt f 0 = true := by
  rw [float_zero]
  cases f with
  | finite v => simp [float.lt, float.le]
  | infinity n => cases n <;> simp [float.lt, float.le]
  | nan => simp [float.is_nan] at hf

/-- A `float` difference that is a number not below `W` is not smaller than
`(float)W`, whatever `W` rounds to. -/
theorem float_sub_lt_int_false (a b : float) (W : Int)
    (h : float.le (float.finite W) (a - b) = true) :
    float.lt (a - b) (int_to_float W) = false := by
  cases hab : a - b with
  | finite v =>
    rw [hab] at h
    have hv := float_sub_value a b v hab
    have hle : (W : ℚ) ≤ v := by simpa [float.le] using h
    exact lt_round_to_float_false hle hv
  | infinity n =>
    rw [hab] at h
    cases n
    · cases hW : int_to_float W <;> simp [float.lt]
    · simp [float.le] at h
  | nan =>
    rw [hab] at h
    simp [float.le] at h

/-- A `float` that is negative fails the test `>= 0.0f`. -/
theorem float_zero_le_false (f : float) (h : float.lt f 0 = true) : float.le 0 f = false := by
  rw [float_zero] at h ⊢
  cases f with
  | finite v =>
    simp only [float.lt, decide_eq_true_eq] at h
    simp only [float.le, decide_eq_false_iff_not, not_le]
    exact h
  | infinity n => cases n <;> simp [float.lt, float.le] at h ⊢
  | nan => simp [float.lt] at h

/-- A sub-command whose translated clip rectangle meets the cull condition of
the specification fails the test of the code. -/
theorem culled_of_spec_culled (pos : ImVec2) (W H : Int) (cmd : ImDrawCmd)
    (h : spec_culled W H (translated_clip_rect pos cmd)) :
    passes_cull_test W H (translated_clip_rect pos cmd) = false := by
  unfold passes_cull_test
  rcases h with h | h | h | h
  · have := float_sub_lt_int_false cmd.ClipRect.x pos.x W h
    simp only [translated_clip_rect] at this ⊢
    rw [this]
    simp
  · have := float_sub_lt_int_false cmd.ClipRect.y pos.y H h
    simp only [translated_clip_rect] at this ⊢
    rw [this]
    simp
  · rw [float_zero_le_false _ h]
    simp
  · rw [float_zero_le_false _ h]
    simp

/-- A rectangle with a NaN coordinate fails the test of the code. -/
theorem culled_of_nan (W H : Int) (r : ImVec4) (h : r.has_nan = true) :
    passes_cull_test W H r = false := by
  unfold passes_cull_test
  simp only [ImVec4.has_nan, Bool.or_eq_true] at h
  rcases h with ((h | h) | h) | h
  · cases hx : r.x <;> simp [hx, float.is_nan] at h
    simp [float.lt]
  · cases hy : r.y <;> simp [hy, float.is_nan] at h
    simp [float.lt]
  · cases hz : r.z <;> simp [hz, float.is_nan] at h
    rw [float_zero]
    simp [float.le]
  · cases hw : r.w <;> simp [hw, float.is_nan] at h
    rw [float_zero]
    simp [float.le]

/-- For a rectangle of numbers and a framebuffer size that converts to `float`
exactly, the test of the code is the negation of the cull condition of the
specification. -/
theorem passes_cull_test_iff_not_spec_culled (W H : Int) (r : ImVec4)
    (hW : int_to_float W = float.finite W) (hH : int_to_float H = float.finite H)
    (hn : r.has_nan = false) :
    passes_cull_test W H r = true ↔ ¬ spec_culled W H r := by
  simp only [ImVec4.has_nan, Bool.or_eq_false_iff] at hn
  obtain ⟨⟨⟨hx, hy⟩, hz⟩, hw⟩ := hn
  rw [passes_cull_test_iff, hW, hH, float_lt_finite_iff _ _ hx, float_lt_finite_iff _ _ hy,
    float_zero_le_iff _ hz, float_zero_le_iff _ hw]
  unfold spec_culled
  tauto

theorem process_cmd_geometry_pass (pos : ImVec2) (W H : Int) (li : Nat) (l : ImDrawList)
    (st : cmd_loop_state) (cmd : ImDrawCmd) (hcb : cmd.UserCallback = none)
    (hp : passes_cull_test W H (translated_clip_rect pos cmd) = true) :
    process_cmd pos W H li l st cmd =
      { st with
        draw_data := st.draw_data ++
          [⟨scissor_rect H (translated_clip_rect pos cmd), u32 (li + st.idx_buffer_sub_offset),
            cmd.ElemCount⟩]
        idx_buffer_sub_offset := u32 (st.idx_buffer_sub_offset + cmd.ElemCount) } := by
  simp [process_cmd, hcb, hp]

theorem process_cmd_geometry_cull (pos : ImVec2) (W H : Int) (li : Nat) (l : ImDrawList)
    (st : cmd_loop_state) (cmd : ImDrawCmd) (hcb : cmd.UserCallback = none)
    (hp : passes_cull_test W H (translated_clip_rect pos cmd) = false) :
    process_cmd pos W H li l st cmd = st := by
  simp [process_cmd, hcb, hp]

theorem process_cmd_callback (pos : ImVec2) (W H : Int) (li : Nat) (l : ImDrawList)
    (st : cmd_loop_state) (cmd : ImDrawCmd) (f : Nat) (hcb : cmd.UserCallback = some f) :
    process_cmd pos W H li l st cmd = { st with calls := st.calls ++ [⟨f, l, cmd⟩] } := by
  simp [process_cmd, hcb]

/-- Through a `float`, `a <= f <= b` gives `a ≤ b`. -/
theorem float_le_le (f : float) (a b : ℚ) (h1 : float.le (float.finite a) f = true)
    (h2 : float.le f (float.finite b) = true) : a ≤ b := by
  cases f with
  | finite v =>
    simp only [float.le, decide_eq_true_eq] at h1 h2
    linarith
  | infinity n => cases n <;> simp [float.le] at h1 h2
  | nan => simp [float.le] at h1

/-- Through a `float`, `a < f < b` gives `a < b`. -/
theorem float_lt_lt (f : float) (a b : ℚ) (h1 : float.lt (float.finite a) f = true)
    (h2 : float.lt f (float.finite b) = true) : a < b := by
  cases f with
  | finite v =>
    simp only [float.lt, decide_eq_true_eq] at h1 h2
    linarith
  | infinity n => cases n <;> simp [float.lt] at h1 h2
  | nan => simp [float.lt] at h1

/-- C7, as stated, fails: a sub-command whose clip rectangle has a NaN as its
left coordinate is culled although none of the four conditions holds for it
(a comparison with a NaN is false); and on a framebuffer 16777217 wide, a width
that `(float)fb_width` rounds to 16777216, the rectangle that starts at
16777216 is culled although its left coordinate is smaller than the width. -/
theorem nan_rect_is_culled :
    (process_cmd ⟨0, 0⟩ 100 100 0 ⟨[], [], []⟩ no_batches
        (geometry_cmd 6 ⟨float.nan, 0, 50, 50⟩)).draw_data = no_batches.draw_data ∧
    ¬ spec_culled 100 100
        (translated_clip_rect ⟨0, 0⟩ (geometry_cmd 6 ⟨float.nan, 0, 50, 50⟩)) ∧
    (process_cmd ⟨0, 0⟩ 16777217 100 0 ⟨[], [], []⟩ no_batches
        (geometry_cmd 6 ⟨16777216, 0, 16777316, 50⟩)).draw_data = no_batches.draw_data ∧
    ¬ spec_culled 16777217 100
        (translated_clip_rect ⟨0, 0⟩ (geometry_cmd 6 ⟨16777216, 0, 16777316, 50⟩)) := by
  refine ⟨by decide!, ?_, by decide!, ?_⟩
  · unfold spec_culled
    decide!
  · unfold spec_culled
    decide!

/-- C7, amended: on a framebuffer whose width and height convert to `float`
without rounding, a sub-command without callback whose translated clip
rectangle has no NaN coordinate produces no batch exactly when left >= width,
or top >= height, or right < 0, or bottom < 0, and otherwise the loop body
appends exactly one batch; a sub-command whose translated clip rectangle has
a NaN coordinate produces no batch.  Every size the routine computes, the
truncation of a `float` product, converts to `float` without rounding. -/
theorem cull_rule (pos : ImVec2) (W H : Int) (li : Nat) (l : ImDrawList)
    (st : cmd_loop_state) (cmd : ImDrawCmd) (hcb : cmd.UserCallback = none)
    (hW : int_to_float W = float.finite W) (hH : int_to_float H = float.finite H) :
    ((translated_clip_rect pos cmd).has_nan = false →
      ((process_cmd pos W H li l st cmd).draw_data = st.draw_data ↔
          spec_culled W H (translated_clip_rect pos cmd)) ∧
      (¬ spec_culled W H (translated_clip_rect pos cmd) →
          ∃ b, (process_cmd pos W H li l st cmd).draw_data = st.draw_data ++ [b])) ∧
    ((translated_clip_rect pos cmd).has_nan = true →
      process_cmd pos W H li l st cmd = st) ∧
    (∀ a b : float,
      int_to_float (float_to_int (a * b)) = float.finite (float_to_int (a * b))) := by
  refine ⟨fun hn => ?_, fun hn => ?_, float_to_int_converts⟩
  · have hiff := passes_cull_test_iff_not_spec_culled W H _ hW hH hn
    cases hp : passes_cull_test W H (translated_clip_rect pos cmd)
    · have hc : spec_culled W H (translated_clip_rect pos cmd) := by
        by_contra hc
        rw [hiff.mpr hc] at hp
        exact Bool.noConfusion hp
      rw [process_cmd_geometry_cull pos W H li l st cmd hcb hp]
      exact ⟨⟨fun _ => hc, fun _ => rfl⟩, fun hc2 => absurd hc hc2⟩
    · have hc : ¬ spec_culled W H (translated_clip_rect pos cmd) := hiff.mp hp
      rw [process_cmd_geometry_pass pos W H li l st cmd hcb hp]
      refine ⟨⟨fun h => ?_, fun h => absurd h hc⟩, fun _ => ⟨_, rfl⟩⟩
      simp at h
  · exact process_cmd_geometry_cull pos W H li l st cmd hcb (culled_of_nan W H _ hn)

/-- Witness of the amended C7: a rectangle inside a 100 x 100 framebuffer, and
a rectangle with a NaN coordinate. -/
theorem cull_rule_witness :
    ((geometry_cmd 6 ⟨0, 0, 50, 50⟩).UserCallback = none ∧
      int_to_float 100 = float.finite (100 : Int) ∧
      (translated_clip_rect ⟨0, 0⟩ (geometry_cmd 6 ⟨0, 0, 50, 50⟩)).has_nan = false) ∧
    (((process_cmd ⟨0, 0⟩ 100 100 0 ⟨[], [], []⟩ no_batches
        (geometry_cmd 6 ⟨0, 0, 50, 50⟩)).draw_data = no_batches.draw_data ↔
        spec_culled 100 100 (translated_clip_rect ⟨0, 0⟩ (geometry_cmd 6 ⟨0, 0, 50, 50⟩))) ∧
    (¬ spec_culled 100 100 (translated_clip_rect ⟨0, 0⟩ (geometry_cmd 6 ⟨0, 0, 50, 50⟩)) →
        ∃ b, (process_cmd ⟨0, 0⟩ 100 100 0 ⟨[], [], []⟩ no_batches
          (geometry_cmd 6 ⟨0, 0, 50, 50⟩)).draw_data = no_batches.draw_data ++ [b])) ∧
    ((translated_clip_rect ⟨0, 0⟩ (geometry_cmd 6 ⟨float.nan, 0, 50, 50⟩)).has_nan = true ∧
      process_cmd ⟨0, 0⟩ 100 100 0 ⟨[], [], []⟩ no_batches
        (geometry_cmd 6 ⟨float.nan, 0, 50, 50⟩) = no_batches) :=
  ⟨⟨rfl, by decide!, by decide!⟩,
    (cull_rule ⟨0, 0⟩ 100 100 0 ⟨[], [], []⟩ no_batches (geometry_cmd 6 ⟨0, 0, 50, 50⟩) rfl
      (by decide!) (by decide!)).1 (by decide!),
    by decide!,
    (cull_rule ⟨0, 0⟩ 100 100 0 ⟨[], [], []⟩ no_batches
      (geometry_cmd 6 ⟨float.nan, 0, 50, 50⟩) rfl (by decide!) (by decide!)).2.1
      (by decide!)⟩

/-- C8, as stated, fails: the rectangle `[-5, 0) x [0, 10)` touches the left
edge of a 100 x 100 framebuffer without sharing a point with it, and the loop
body still emits a batch for it. -/
theorem touching_rect_is_emitted :
    ¬ meets_framebuffer 100 100
        (translated_clip_rect ⟨0, 0⟩ (geometry_cmd 6 ⟨-5, 0, 0, 10⟩)) ∧
    (process_cmd ⟨0, 0⟩ 100 100 0 ⟨[], [], []⟩ no_batches
        (geometry_cmd 6 ⟨-5, 0, 0, 10⟩)).draw_data =
      [⟨⟨-5, 90, 5, 10⟩, 0, 6⟩] := by
  constructor
  · rintro ⟨x, y, -, h2, -, -, h5, -⟩
    have hr : (translated_clip_rect ⟨0, 0⟩ (geometry_cmd 6 ⟨-5, 0, 0, 10⟩)).z =
        float.finite 0 := by decide!
    rw [hr] at h2
    simp only [float.lt, decide_eq_true_eq] at h2
    linarith
  · decide!

/-- C8, amended: a sub-command without callback whose translated clip
rectangle lies beyond the right or bottom edge (left >= W or top >= H) or
wholly at negative coordinates (right < 0 or bottom < 0) produces no batch;
such a rectangle indeed shares no point with the framebuffer. -/
theorem outside_rect_not_emitted (pos : ImVec2) (W H : Int) (li : Nat) (l : ImDrawList)
    (st : cmd_loop_state) (cmd : ImDrawCmd) (hcb : cmd.UserCallback = none)
    (hout : spec_culled W H (translated_clip_rect pos cmd)) :
    ¬ meets_framebuffer W H (translated_clip_rect pos cmd) ∧
    process_cmd pos W H li l st cmd = st := by
  constructor
  · rintro ⟨x, y, h1, h2, h3, h4, h5, h6, h7, h8⟩
    rcases hout with h | h | h | h
    · have := float_le_le _ _ _ h h1
      linarith
    · have := float_le_le _ _ _ h h3
      linarith
    · rw [float_zero] at h
      have := float_lt_lt _ _ _ h2 h
      linarith
    · rw [float_zero] at h
      have := float_lt_lt _ _ _ h4 h
      linarith
  · exact process_cmd_geometry_cull pos W H li l st cmd hcb
      (culled_of_spec_culled pos W H cmd hout)

/-- Witness of the amended C8: a rectangle to the right of the framebuffer. -/
theorem outside_rect_not_emitted_witness :
    (geometry_cmd 6 ⟨200, 0, 300, 50⟩).UserCallback = none ∧
    spec_culled 100 100 (translated_clip_rect ⟨0, 0⟩ (geometry_cmd 6 ⟨200, 0, 300, 50⟩)) ∧
    ¬ meets_framebuffer 100 100
        (translated_clip_rect ⟨0, 0⟩ (geometry_cmd 6 ⟨200, 0, 300, 50⟩)) ∧
    process_cmd ⟨0, 0⟩ 100 100 0 ⟨[], [], []⟩ no_batches (geometry_cmd 6 ⟨200, 0, 300, 50⟩) =
      no_batches :=
  have h : spec_culled 100 100
      (translated_clip_rect ⟨0, 0⟩ (geometry_cmd 6 ⟨200, 0, 300, 50⟩)) :=
    Or.inl (by decide!)
  ⟨rfl, h, outside_rect_not_emitted ⟨0, 0⟩ 100 100 0 ⟨[], [], []⟩ no_batches
    (geometry_cmd 6 ⟨200, 0, 300, 50⟩) rfl h⟩

/-- The `float` difference of two numbers that differ by at most `2^31`,
converted to `uint32_t`, is the truncation of the rounded difference. -/
theorem float_to_uint_sub (a b : ℚ) (h0 : 0 ≤ a - b) (h1 : a - b ≤ 2 ^ 31) :
    ((float_to_uint (float.finite a - float.finite b) : Nat) : Int) =
      trunc (rounded (a - b)) := by
  have hp31 : pow2 31 = 2 ^ 31 := by rw [pow2_eq_zpow]; norm_cast
  have hr0 : 0 ≤ rounded (a - b) := rounded_nonneg h0
  have hr1 : rounded (a - b) ≤ 2 ^ 31 := by
    have := rounded_le (q := a - b) (v := pow2 31) (by rw [hp31]; exact h1)
      (is_float_value_pow2 31 (by norm_num) (by norm_num))
    rwa [hp31] at this
  have hfin : float.finite a - float.finite b = float.finite (rounded (a - b)) := by
    rw [float_sub_def]
    simp only [float.sub, round_to_float]
    rw [if_neg]
    rw [not_le, abs_of_nonneg hr0, pow2_128]
    calc rounded (a - b) ≤ 2 ^ 31 := hr1
      _ < 2 ^ 128 := by norm_num
  rw [hfin, ← truncate_eq_trunc]
  apply float_to_uint_finite (truncate_nonneg hr0)
  rw [truncate_of_nonneg hr0]
  have : ⌊rounded (a - b)⌋ ≤ 2 ^ 31 := Int.floor_le_iff.mpr (by push_cast; linarith)
  omega

/-- C9, as stated, fails: the clip rectangle that starts at `-2^40` overlaps a
100 x 100 framebuffer, but the origin of its scissor, a 32-bit integer, is not
the truncated left coordinate; and for the clip rectangle from `0.1f` to
`100.1f` the width of the scissor is 100, the truncation of the `float`
difference, while the difference of the two numbers truncates to 99. -/
theorem unclamped_scissor_not_truncation :
    meets_framebuffer 100 100
        (translated_clip_rect ⟨0, 0⟩ (geometry_cmd 6 ⟨-1099511627776, 0, 50, 50⟩)) ∧
    (process_cmd ⟨0, 0⟩ 100 100 0 ⟨[], [], []⟩ no_batches
        (geometry_cmd 6 ⟨-1099511627776, 0, 50, 50⟩)).draw_data.map
          (fun b => b.scissor.x) = [-2147483648] ∧
    trunc (-1099511627776) = -1099511627776 ∧
    meets_framebuffer 100 100
        (translated_clip_rect ⟨0, 0⟩
          (geometry_cmd 6 ⟨round_to_float (1 / 10), 0, round_to_float (1001 / 10), 50⟩)) ∧
    (process_cmd ⟨0, 0⟩ 100 100 0 ⟨[], [], []⟩ no_batches
        (geometry_cmd 6 ⟨round_to_float (1 / 10), 0, round_to_float (1001 / 10), 50⟩)).draw_data =
      [⟨⟨0, 50, 100, 50⟩, 0, 6⟩] ∧
    trunc ((round_to_float (1001 / 10)).value - (round_to_float (1 / 10)).value) = 99 := by
  refine ⟨⟨0, 0, ?_⟩, by decide!, by decide!, ⟨1, 0, ?_⟩, by decide!, by decide!⟩
  · decide!
  · decide!

/-- C9, amended: a sub-command without callback whose translated clip
rectangle `(left, top, right, bottom)` consists of numbers of magnitude at most
`2^30` and shares a point with the framebuffer (so also one that sticks out of
it, left < 0 < right or right > W), on a framebuffer whose size converts to
`float` without rounding, gets a batch, and the scissor of that batch is
computed from the rectangle as it is, without clamping: x = trunc(left),
y = H - trunc(bottom), and width and height are the truncations of the `float`
differences, that is, of right - left and bottom - top rounded to binary32;
they are trunc(right - left) and trunc(bottom - top) when these differences
are binary32 numbers. -/
theorem overlapping_rect_unclamped (pos : ImVec2) (W H : Int) (li : Nat) (l : ImDrawList)
    (st : cmd_loop_state) (cmd : ImDrawCmd) (left top right bottom : ℚ)
    (hcb : cmd.UserCallback = none)
    (hW : int_to_float W = float.finite W) (hH : int_to_float H = float.finite H)
    (hrect : translated_clip_rect pos cmd =
      ⟨float.finite left, float.finite top, float.finite right, float.finite bottom⟩)
    (hov : meets_framebuffer W H (translated_clip_rect pos cmd))
    (hl : |left| ≤ 2 ^ 30) (ht : |top| ≤ 2 ^ 30) (hr : |right| ≤ 2 ^ 30)
    (hb : |bottom| ≤ 2 ^ 30) :
    ∃ b, (process_cmd pos W H li l st cmd).draw_data = st.draw_data ++ [b] ∧
      b.scissor.x = trunc left ∧
      b.scissor.y = H - trunc bottom ∧
      (b.scissor.width : Int) = trunc (rounded (right - left)) ∧
      (b.scissor.height : Int) = trunc (rounded (bottom - top)) ∧
      (is_float_value (right - left) → (b.scissor.width : Int) = trunc (right - left)) ∧
      (is_float_value (bottom - top) → (b.scissor.height : Int) = trunc (bottom - top)) := by
  obtain ⟨x, y, h1, h2, h3, h4, h5, h6, h7, h8⟩ := hov
  simp only [hrect, float.le, float.lt, decide_eq_true_eq] at h1 h2 h3 h4
  have hp : passes_cull_test W H (translated_clip_rect pos cmd) = true := by
    rw [passes_cull_test_iff, hrect, hW, hH, float_zero]
    simp only [float.lt, float.le, decide_eq_true_eq]
    exact ⟨by linarith, by linarith, by linarith, by linarith⟩
  have hl1 := abs_le.mp hl
  have ht1 := abs_le.mp ht
  have hr1 := abs_le.mp hr
  have hb1 := abs_le.mp hb
  have hx : float_to_int (float.finite left) = trunc left := by
    have hN : |left| ≤ ((2 ^ 30 : Int) : ℚ) := by push_cast; exact hl
    have := abs_le.mp (abs_truncate_le hN)
    rw [float_to_int_finite (by omega) (by omega), truncate_eq_trunc]
  have hy : float_to_int (float.finite bottom) = trunc bottom := by
    have hN : |bottom| ≤ ((2 ^ 30 : Int) : ℚ) := by push_cast; exact hb
    have := abs_le.mp (abs_truncate_le hN)
    rw [float_to_int_finite (by omega) (by omega), truncate_eq_trunc]
  have hw := float_to_uint_sub right left (by linarith) (by linarith)
  have hh := float_to_uint_sub bottom top (by linarith) (by linarith)
  rw [process_cmd_geometry_pass pos W H li l st cmd hcb hp, hrect]
  refine ⟨_, rfl, hx, ?_, hw, hh, ?_, ?_⟩
  · simp only [scissor_rect, hy]
  · intro hv
    simp only [scissor_rect]
    rw [hw, rounded_of_value hv]
  · intro hv
    simp only [scissor_rect]
    rw [hh, rounded_of_value hv]

/-- Witness of the amended C9: the rectangle `[-10, 50) x [-20, 30)` sticks
out of a 100 x 100 framebuffer at the top left corner; its scissor starts at
x = -10. -/
theorem overlapping_rect_unclamped_witness :
    ((geometry_cmd 6 ⟨-10, -20, 50, 30⟩).UserCallback = none ∧
      int_to_float 100 = float.finite (100 : Int) ∧
      translated_clip_rect ⟨0, 0⟩ (geometry_cmd 6 ⟨-10, -20, 50, 30⟩) =
        ⟨float.finite (-10), float.finite (-20), float.finite 50, float.finite 30⟩ ∧
      meets_framebuffer 100 100
        (translated_clip_rect ⟨0, 0⟩ (geometry_cmd 6 ⟨-10, -20, 50, 30⟩)) ∧
      |(-10 : ℚ)| ≤ 2 ^ 30 ∧ |(-20 : ℚ)| ≤ 2 ^ 30 ∧ |(50 : ℚ)| ≤ 2 ^ 30 ∧
      |(30 : ℚ)| ≤ 2 ^ 30) ∧
    (∃ b, (process_cmd ⟨0, 0⟩ 100 100 0 ⟨[], [], []⟩ no_batches
        (geometry_cmd 6 ⟨-10, -20, 50, 30⟩)).draw_data = no_batches.draw_data ++ [b] ∧
      b.scissor.x = trunc (-10) ∧
      b.scissor.y = 100 - trunc 30 ∧
      (b.scissor.width : Int) = trunc (rounded (50 - -10)) ∧
      (b.scissor.height : Int) = trunc (rounded (30 - -20)) ∧
      (is_float_value (50 - -10) → (b.scissor.width : Int) = trunc (50 - -10)) ∧
      (is_float_value (30 - -20) → (b.scissor.height : Int) = trunc (30 - -20))) ∧
    (process_cmd ⟨0, 0⟩ 100 100 0 ⟨[], [], []⟩ no_batches
        (geometry_cmd 6 ⟨-10, -20, 50, 30⟩)).draw_data = [⟨⟨-10, 70, 60, 50⟩, 0, 6⟩] :=
  have hrect : translated_clip_rect ⟨0, 0⟩ (geometry_cmd 6 ⟨-10, -20, 50, 30⟩) =
      ⟨float.finite (-10), float.finite (-20), float.finite 50, float.finite 30⟩ := by
    decide!
  have h : meets_framebuffer 100 100
      (translated_clip_rect ⟨0, 0⟩ (geometry_cmd 6 ⟨-10, -20, 50, 30⟩)) :=
    ⟨0, 0, by decide!⟩
  ⟨⟨rfl, by decide!, hrect, h, by norm_num [abs_le], by norm_num [abs_le],
      by norm_num [abs_le], by norm_num [abs_le]⟩,
    overlapping_rect_unclamped ⟨0, 0⟩ 100 100 0 ⟨[], [], []⟩ no_batches
      (geometry_cmd 6 ⟨-10, -20, 50, 30⟩) (-10) (-20) 50 30 rfl (by decide!) (by decide!)
      hrect h (by norm_num [abs_le]) (by norm_num [abs_le]) (by norm_num [abs_le])
      (by norm_num [abs_le]),
    by decide!⟩

/-! ## The sub-command loop -/

theorem process_cmds_nil (pos : ImVec2) (W H : Int) (li : Nat) (l : ImDrawList)
    (st : cmd_loop_state) : process_cmds pos W H li l st [] = st := rfl

theorem process_cmds_cons (pos : ImVec2) (W H : Int) (li : Nat) (l : ImDrawList)
    (st : cmd_loop_state) (cmd : ImDrawCmd) (cmds : List ImDrawCmd) :
    process_cmds pos W H li l st (cmd :: cmds) =
      process_cmds pos W H li l (process_cmd pos W H li l st cmd) cmds := rfl

/-- One step of the sub-command loop appends the shape of the sub-command when
it is drawn and nothing otherwise. -/
theorem process_cmd_shapes (pos : ImVec2) (W H : Int) (li : Nat) (l : ImDrawList)
    (st : cmd_loop_state) (cmd : ImDrawCmd) :
    (process_cmd pos W H li l st cmd).draw_data.map draw_data.shape =
      st.draw_data.map draw_data.shape ++
        ([cmd].filter (is_drawn pos W H)).map (cmd_shape pos H) := by
  cases hcb : cmd.UserCallback with
  | some f => simp [process_cmd_callback pos W H li l st cmd f hcb, is_drawn, hcb]
  | none =>
    cases hp : passes_cull_test W H (translated_clip_rect pos cmd)
    · simp [process_cmd_geometry_cull pos W H li l st cmd hcb hp, is_drawn, hcb, hp]
    · simp [process_cmd_geometry_pass pos W H li l st cmd hcb hp, is_drawn, hcb, hp,
        draw_data.shape, cmd_shape]

/-- The sub-command loop appends, in order, the shapes of the drawn
sub-commands. -/
theorem process_cmds_shapes (pos : ImVec2) (W H : Int) (li : Nat) (l : ImDrawList)
    (cmds : List ImDrawCmd) (st : cmd_loop_state) :
    (process_cmds pos W H li l st cmds).draw_data.map draw_data.shape =
      st.draw_data.map draw_data.shape ++
        (cmds.filter (is_drawn pos W H)).map (cmd_shape pos H) := by
  induction cmds generalizing st with
  | nil => simp [process_cmds_nil]
  | cons cmd cmds ih =>
    rw [process_cmds_cons, ih, process_cmd_shapes, List.append_assoc, ← List.map_append,
      ← List.filter_append]
    rfl

/-- The sub-command loop only appends to the batches it was started with. -/
theorem process_cmds_appends (pos : ImVec2) (W H : Int) (li : Nat) (l : ImDrawList)
    (cmds : List ImDrawCmd) (st : cmd_loop_state) :
    ∃ added, (process_cmds pos W H li l st cmds).draw_data = st.draw_data ++ added := by
  induction cmds generalizing st with
  | nil => exact ⟨[], by simp [process_cmds_nil]⟩
  | cons cmd cmds ih =>
    obtain ⟨added, h⟩ := ih (process_cmd pos W H li l st cmd)
    rw [process_cmds_cons, h]
    cases hcb : cmd.UserCallback with
    | some f => exact ⟨added, by rw [process_cmd_callback pos W H li l st cmd f hcb]⟩
    | none =>
      cases hp : passes_cull_test W H (translated_clip_rect pos cmd)
      · exact ⟨added, by rw [process_cmd_geometry_cull pos W H li l st cmd hcb hp]⟩
      · exact ⟨_, by
          rw [process_cmd_geometry_pass pos W H li l st cmd hcb hp, List.append_assoc]⟩

/-- Element counts split between drawn, culled and callback sub-commands. -/
theorem elem_count_split (pos : ImVec2) (W H : Int) (cmds : List ImDrawCmd)
    (hcb : ∀ c ∈ cmds, c.UserCallback ≠ none → c.ElemCount = 0) :
    ((cmds.filter (is_drawn pos W H)).map (fun c => c.ElemCount)).sum +
      ((cmds.filter (is_culled pos W H)).map (fun c => c.ElemCount)).sum =
    (cmds.map (fun c => c.ElemCount)).sum := by
  induction cmds with
  | nil => simp
  | cons cmd cmds ih =>
    have ih1 := ih (fun c hc => hcb c (List.mem_cons_of_mem _ hc))
    have h0 := hcb cmd (List.mem_cons_self _ _)
    cases hu : cmd.UserCallback with
    | some f =>
      have hz : cmd.ElemCount = 0 := h0 (by simp [hu])
      simp [List.filter_cons, is_drawn, is_culled, hu, hz]
      simpa [is_drawn, is_culled] using ih1
    | none =>
      cases hp : passes_cull_test W H (translated_clip_rect pos cmd)
      · simp [List.filter_cons, is_drawn, is_culled, hu, hp]
        have := ih1
        simp only [is_drawn, is_culled] at this
        omega
      · simp [List.filter_cons, is_drawn, is_culled, hu, hp]
        have := ih1
        simp only [is_drawn, is_culled] at this
        omega

/-- C10: in a draw list whose element counts sum to the length of its index
segment (callback sub-commands counting 0), the batches the sub-command loop
appends carry, in order, the element counts of the drawn sub-commands, and
their sum plus the element counts of the culled sub-commands is the length of
the index segment. -/
theorem index_accounting (pos : ImVec2) (W H : Int) (li : Nat) (l : ImDrawList)
    (st : cmd_loop_state)
    (hsum : (l.CmdBuffer.map (fun c => c.ElemCount)).sum = l.IdxBuffer.length)
    (hcb : ∀ c ∈ l.CmdBuffer, c.UserCallback ≠ none → c.ElemCount = 0) :
    ∃ added, (process_cmds pos W H li l st l.CmdBuffer).draw_data = st.draw_data ++ added ∧
      added.map (fun b => b.nelem) =
        (l.CmdBuffer.filter (is_drawn pos W H)).map (fun c => c.ElemCount) ∧
      (added.map (fun b => b.nelem)).sum +
        ((l.CmdBuffer.filter (is_culled pos W H)).map (fun c => c.ElemCount)).sum =
        l.IdxBuffer.length := by
  obtain ⟨added, h⟩ := process_cmds_appends pos W H li l l.CmdBuffer st
  have hs := process_cmds_shapes pos W H li l l.CmdBuffer st
  rw [h, List.map_append, List.append_cancel_left_eq] at hs
  have hn : added.map (fun b => b.nelem) =
      (l.CmdBuffer.filter (is_drawn pos W H)).map (fun c => c.ElemCount) := by
    have := congrArg (List.map Prod.snd) hs
    simpa [List.map_map, Function.comp_def, draw_data.shape, cmd_shape] using this
  refine ⟨added, h, hn, ?_⟩
  rw [hn, elem_count_split pos W H l.CmdBuffer hcb, hsum]

/-- Witness of C10: a quad whose first half is culled; one batch of 3 indices
is emitted, 3 indices are culled, the index segment has 6. -/
theorem index_accounting_witness :
    ((quad_first_half_culled.CmdBuffer.map (fun c => c.ElemCount)).sum =
        quad_first_half_culled.IdxBuffer.length ∧
      (∀ c ∈ quad_first_half_culled.CmdBuffer, c.UserCallback ≠ none → c.ElemCount = 0)) ∧
    (∃ added, (process_cmds ⟨0, 0⟩ 100 100 0 quad_first_half_culled no_batches
        quad_first_half_culled.CmdBuffer).draw_data = no_batches.draw_data ++ added ∧
      added.map (fun b => b.nelem) =
        (quad_first_half_culled.CmdBuffer.filter (is_drawn ⟨0, 0⟩ 100 100)).map
          (fun c => c.ElemCount) ∧
      (added.map (fun b => b.nelem)).sum +
        ((quad_first_half_culled.CmdBuffer.filter (is_culled ⟨0, 0⟩ 100 100)).map
          (fun c => c.ElemCount)).sum = quad_first_half_culled.IdxBuffer.length) ∧
    (process_cmds ⟨0, 0⟩ 100 100 0 quad_first_half_culled no_batches
      quad_first_half_culled.CmdBuffer).draw_data.map (fun b => b.nelem) = [3] :=
  ⟨⟨by decide, by decide⟩,
    index_accounting ⟨0, 0⟩ 100 100 0 quad_first_half_culled no_batches
      (by decide) (by decide),
    by decide!⟩

/-- C1, evaluated on the code: in the quad whose first sub-command (3 indices)
is culled, the batch of the second sub-command starts at index 0, not at
index 3 where the indices of that sub-command are stored. -/
theorem culled_cmd_does_not_advance_offset :
    (assemble_frame ⟨0, 0⟩ 100 100 4 6 [quad_first_half_culled]).map
      (fun s => (s.index_data, s.draw_data.map (fun b => (b.first_elem, b.nelem)))) =
    some ([0, 1, 2, 0, 2, 3], [(0, 3)]) := by
  decide!

/-! ## The host arrays -/

theorem splice_length {α : Type} (D S : List α) (p : Nat) (hp : p + S.length ≤ D.length) :
    (D.take p ++ S ++ D.drop (p + S.length)).length = D.length := by
  simp only [List.length_append, List.length_take, List.length_drop]
  omega

theorem splice_take {α : Type} (D S : List α) (p : Nat) (hp : p + S.length ≤ D.length) :
    (D.take p ++ S ++ D.drop (p + S.length)).take (p + S.length) = D.take p ++ S := by
  apply List.take_left'
  simp only [List.length_append, List.length_take]
  omega

theorem splice_drop {α : Type} (D S : List α) (p n : Nat) (hp : p + S.length ≤ D.length) :
    (D.take p ++ S ++ D.drop (p + S.length)).drop (p + S.length + n) =
      D.drop (p + S.length + n) := by
  have hl : (D.take p ++ S).length = p + S.length := by
    simp only [List.length_append, List.length_take]
    omega
  rw [← hl, List.drop_append, List.drop_drop, hl]

theorem copy_indices_some (li lv : Nat) (rest : List Nat) :
    ∀ (D : List Nat) (a : Nat) (D' : List Nat), li + a ≤ D.length →
      copy_indices li lv D a rest = some D' →
      li + a + rest.length ≤ D.length ∧
      D' = D.take (li + a) ++ rest.map (fun raw => u16 (u32 (lv + raw))) ++
        D.drop (li + a + rest.length) := by
  induction rest with
  | nil =>
    intro D a D' hle h
    simp only [copy_indices, Option.some.injEq] at h
    subst h
    simp [hle]
  | cons raw rest ih =>
    intro D a D' hle h
    rw [copy_indices] at h
    split at h
    · rename_i hlt
      have hset : D.set (li + a) (u16 (u32 (lv + raw))) =
          D.take (li + a) ++ [u16 (u32 (lv + raw))] ++
            D.drop (li + a + [u16 (u32 (lv + raw))].length) := by
        rw [List.set_eq_take_append_cons_drop, if_pos hlt]
        simp
      obtain ⟨h1, h2⟩ := ih _ (a + 1) D' (by simp only [List.length_set]; omega) h
      simp only [List.length_set] at h1
      refine ⟨by simp only [List.length_cons]; omega, ?_⟩
      rw [h2, hset]
      have e1 : li + (a + 1) = li + a + [u16 (u32 (lv + raw))].length := by simp; omega
      have hp : li + a + [u16 (u32 (lv + raw))].length ≤ D.length := by simp; omega
      rw [e1, splice_drop D _ (li + a) rest.length hp, splice_take D _ (li + a) hp]
      simp [Nat.add_assoc, Nat.add_comm 1]
    · exact absurd h (by simp)

theorem u16_u32 (n : Nat) : u16 (u32 n) = u16 n := by
  unfold u16 u32
  exact Nat.mod_mod_of_dvd n (by norm_num)

theorem u32_of_lt {n : Nat} (h : n < 2 ^ 32) : u32 n = n := Nat.mod_eq_of_lt h

/-- What a successful pass through the body of the draw-list loop did. -/
theorem process_cmd_list_some (pos : ImVec2) (W H : Int) (st st1 : loop_state)
    (l : ImDrawList) (h : process_cmd_list pos W H st l = some st1) :
    st.last_vertex + l.VtxBuffer.length ≤ st.vertex_data.length ∧
    st1.vertex_data = st.vertex_data.take st.last_vertex ++ l.VtxBuffer ++
      st.vertex_data.drop (st.last_vertex + l.VtxBuffer.length) ∧
    copy_indices st.last_index st.last_vertex st.index_data 0 l.IdxBuffer =
      some st1.index_data ∧
    st1.last_vertex = u32 (st.last_vertex + u32 l.VtxBuffer.length) ∧
    st1.last_index = u32 (st.last_index + u32 l.IdxBuffer.length) ∧
    st1.draw_data = (process_cmds pos W H st.last_index l ⟨st.draw_data, 0, st.calls⟩
      l.CmdBuffer).draw_data ∧
    st1.calls = (process_cmds pos W H st.last_index l ⟨st.draw_data, 0, st.calls⟩
      l.CmdBuffer).calls := by
  unfold process_cmd_list copy_vertices at h
  split at h
  · exact absurd h (by simp)
  · rename_i vd hvd
    split at hvd
    · rename_i hle
      simp only [Option.some.injEq] at hvd
      split at h
      · exact absurd h (by simp)
      · rename_i id hid
        simp only [Option.some.injEq] at h
        subst h
        subst hvd
        exact ⟨hle, rfl, hid, rfl, rfl, rfl, rfl⟩
    · exact absurd hvd (by simp)

theorem vtx_count_cons (l : ImDrawList) (rest : List ImDrawList) :
    vtx_count (l :: rest) = l.VtxBuffer.length + vtx_count rest := by
  simp [vtx_count]

theorem idx_count_cons (l : ImDrawList) (rest : List ImDrawList) :
    idx_count (l :: rest) = l.IdxBuffer.length + idx_count rest := by
  simp [idx_count]

theorem process_cmd_lists_cons (pos : ImVec2) (W H : Int) (st st2 : loop_state)
    (l : ImDrawList) (rest : List ImDrawList)
    (h : process_cmd_lists pos W H st (l :: rest) = some st2) :
    ∃ st1, process_cmd_list pos W H st l = some st1 ∧
      process_cmd_lists pos W H st1 rest = some st2 := by
  rw [process_cmd_lists] at h
  split at h
  · exact absurd h (by simp)
  · rename_i st1 h1
    exact ⟨st1, h1, h⟩

/-- The host arrays and counters after a completed run of the draw-list loop,
for host arrays shorter than `2^32`: the vertex segments have been laid out one
after the other from `last_vertex` on, the re-based index segments from
`last_index` on, and both counters have advanced by the totals. -/
theorem process_cmd_lists_arrays (pos : ImVec2) (W H : Int) (lists : List ImDrawList) :
    ∀ (st st2 : loop_state), process_cmd_lists pos W H st lists = some st2 →
      st.vertex_data.length < 2 ^ 32 → st.index_data.length < 2 ^ 32 →
      st.last_vertex ≤ st.vertex_data.length → st.last_index ≤ st.index_data.length →
      st.last_vertex + vtx_count lists ≤ st.vertex_data.length ∧
      st.last_index + idx_count lists ≤ st.index_data.length ∧
      st2.last_vertex = st.last_vertex + vtx_count lists ∧
      st2.last_index = st.last_index + idx_count lists ∧
      st2.vertex_data = st.vertex_data.take st.last_vertex ++
        lists.flatMap (fun l => l.VtxBuffer) ++
        st.vertex_data.drop (st.last_vertex + vtx_count lists) ∧
      st2.index_data = st.index_data.take st.last_index ++
        rebased_indices st.last_vertex lists ++
        st.index_data.drop (st.last_index + idx_count lists) := by
  induction lists with
  | nil =>
    intro st st2 h _ _ hlv hli
    simp only [process_cmd_lists, Option.some.injEq] at h
    subst h
    simp [vtx_count, idx_count, rebased_indices, hlv, hli]
  | cons l rest ih =>
    intro st st2 h hV hI hlv hli
    obtain ⟨st1, h1, h2⟩ := process_cmd_lists_cons pos W H st st2 l rest h
    obtain ⟨hvle, hvd, hci, hlv1, hli1, -, -⟩ := process_cmd_list_some pos W H st st1 l h1
    obtain ⟨hile, hid⟩ := copy_indices_some st.last_index st.last_vertex l.IdxBuffer
      st.index_data 0 st1.index_data (by omega) hci
    simp only [Nat.add_zero] at hile hid
    have hidm : l.IdxBuffer.map (fun raw => u16 (u32 (st.last_vertex + raw))) =
        l.IdxBuffer.map (fun raw => u16 (st.last_vertex + raw)) := by
      simp only [u16_u32]
    rw [hidm] at hid
    have hmi : (l.IdxBuffer.map (fun raw => u16 (st.last_vertex + raw))).length =
        l.IdxBuffer.length := List.length_map _ _
    have hlv1 : st1.last_vertex = st.last_vertex + l.VtxBuffer.length := by
      rw [hlv1, u32_of_lt (n := l.VtxBuffer.length) (by omega), u32_of_lt (by omega)]
    have hli1 : st1.last_index = st.last_index + l.IdxBuffer.length := by
      rw [hli1, u32_of_lt (n := l.IdxBuffer.length) (by omega), u32_of_lt (by omega)]
    have hvl : st1.vertex_data.length = st.vertex_data.length := by
      rw [hvd]; exact splice_length _ _ _ hvle
    have hid2 : st1.index_data = st.index_data.take st.last_index ++
        l.IdxBuffer.map (fun raw => u16 (st.last_vertex + raw)) ++
        st.index_data.drop (st.last_index +
          (l.IdxBuffer.map (fun raw => u16 (st.last_vertex + raw))).length) := by
      rw [hmi]; exact hid
    have hile2 : st.last_index +
        (l.IdxBuffer.map (fun raw => u16 (st.last_vertex + raw))).length ≤
          st.index_data.length := by
      rw [hmi]; exact hile
    have hil : st1.index_data.length = st.index_data.length := by
      rw [hid2]; exact splice_length _ _ _ hile2
    obtain ⟨g1, g2, g3, g4, g5, g6⟩ := ih st1 st2 h2 (by omega) (by omega) (by omega) (by omega)
    rw [vtx_count_cons, idx_count_cons]
    refine ⟨by omega, by omega, by omega, by omega, ?_, ?_⟩
    · rw [g5, hlv1, hvd, splice_take _ _ _ hvle, splice_drop _ _ _ _ hvle,
        List.flatMap_cons]
      simp [Nat.add_assoc]
    · have e : st.last_index + l.IdxBuffer.length = st.last_index +
          (l.IdxBuffer.map (fun raw => u16 (st.last_vertex + raw))).length := by rw [hmi]
      rw [g6, hli1, hlv1, hid2, e, splice_take _ _ _ hile2, splice_drop _ _ _ _ hile2, hmi,
        rebased_indices]
      simp [Nat.add_assoc]

theorem copy_indices_length (li lv : Nat) (rest : List Nat) :
    ∀ (D : List Nat) (a : Nat) (D1 : List Nat),
      copy_indices li lv D a rest = some D1 → D1.length = D.length := by
  induction rest with
  | nil =>
    intro D a D1 h
    simp only [copy_indices, Option.some.injEq] at h
    rw [← h]
  | cons raw rest ih =>
    intro D a D1 h
    rw [copy_indices] at h
    split at h
    · rw [ih _ _ _ h, List.length_set]
    · exact absurd h (by simp)

theorem copy_indices_total (li lv : Nat) (rest : List Nat) :
    ∀ (D : List Nat) (a : Nat), li + a + rest.length ≤ D.length →
      ∃ D1, copy_indices li lv D a rest = some D1 := by
  induction rest with
  | nil => exact fun D _ _ => ⟨D, rfl⟩
  | cons raw rest ih =>
    intro D a h
    simp only [List.length_cons] at h
    rw [copy_indices, if_pos (by omega)]
    exact ih _ (a + 1) (by simp only [List.length_set]; omega)

/-- The draw-list loop never changes the length of a host array. -/
theorem process_cmd_lists_lengths (pos : ImVec2) (W H : Int) (lists : List ImDrawList) :
    ∀ (st st2 : loop_state), process_cmd_lists pos W H st lists = some st2 →
      st2.vertex_data.length = st.vertex_data.length ∧
      st2.index_data.length = st.index_data.length := by
  induction lists with
  | nil =>
    intro st st2 h
    simp only [process_cmd_lists, Option.some.injEq] at h
    subst h
    exact ⟨rfl, rfl⟩
  | cons l rest ih =>
    intro st st2 h
    obtain ⟨st1, h1, h2⟩ := process_cmd_lists_cons pos W H st st2 l rest h
    obtain ⟨hvle, hvd, hci, -, -, -, -⟩ := process_cmd_list_some pos W H st st1 l h1
    obtain ⟨g1, g2⟩ := ih st1 st2 h2
    rw [g1, g2, hvd, splice_length _ _ _ hvle, copy_indices_length _ _ _ _ _ _ hci]
    exact ⟨rfl, rfl⟩

/-- The draw-list loop completes when the segments fit the host arrays. -/
theorem process_cmd_lists_total (pos : ImVec2) (W H : Int) (lists : List ImDrawList) :
    ∀ (st : loop_state), st.vertex_data.length < 2 ^ 32 → st.index_data.length < 2 ^ 32 →
      st.last_vertex + vtx_count lists ≤ st.vertex_data.length →
      st.last_index + idx_count lists ≤ st.index_data.length →
      ∃ st2, process_cmd_lists pos W H st lists = some st2 := by
  induction lists with
  | nil => exact fun st _ _ _ _ => ⟨st, rfl⟩
  | cons l rest ih =>
    intro st hV hI hv hi
    rw [vtx_count_cons] at hv
    rw [idx_count_cons] at hi
    obtain ⟨D1, hD1⟩ := copy_indices_total st.last_index st.last_vertex l.IdxBuffer
      st.index_data 0 (by omega)
    have h1 : ∃ st1, process_cmd_list pos W H st l = some st1 := by
      unfold process_cmd_list copy_vertices
      rw [if_pos (by omega)]
      simp only [hD1]
      exact ⟨_, rfl⟩
    obtain ⟨st1, h1⟩ := h1
    obtain ⟨hvle, hvd, hci, hlv1, hli1, -, -⟩ := process_cmd_list_some pos W H st st1 l h1
    rw [u32_of_lt (n := l.VtxBuffer.length) (by omega), u32_of_lt (by omega)] at hlv1
    rw [u32_of_lt (n := l.IdxBuffer.length) (by omega), u32_of_lt (by omega)] at hli1
    have hvl : st1.vertex_data.length = st.vertex_data.length := by
      rw [hvd]; exact splice_length _ _ _ hvle
    have hil : st1.index_data.length = st.index_data.length :=
      copy_indices_length _ _ _ _ _ _ hci
    obtain ⟨st2, h2⟩ := ih st1 (by omega) (by omega) (by omega) (by omega)
    exact ⟨st2, by rw [process_cmd_lists, h1]; exact h2⟩

/-- The draw-list loop appends, in input order, the shapes of the drawn
sub-commands of all draw lists. -/
theorem process_cmd_lists_shapes (pos : ImVec2) (W H : Int) (lists : List ImDrawList) :
    ∀ (st st2 : loop_state), process_cmd_lists pos W H st lists = some st2 →
      st2.draw_data.map draw_data.shape = st.draw_data.map draw_data.shape ++
        ((flattened_cmds lists).filter (is_drawn pos W H)).map (cmd_shape pos H) := by
  induction lists with
  | nil =>
    intro st st2 h
    simp only [process_cmd_lists, Option.some.injEq] at h
    subst h
    simp [flattened_cmds]
  | cons l rest ih =>
    intro st st2 h
    obtain ⟨st1, h1, h2⟩ := process_cmd_lists_cons pos W H st st2 l rest h
    obtain ⟨-, -, -, -, -, hdd, -⟩ := process_cmd_list_some pos W H st st1 l h1
    rw [ih st1 st2 h2, hdd, process_cmds_shapes]
    simp [flattened_cmds, List.append_assoc]

/-! ## The assembled frame -/

/-- The result of `assemble_frame` for totals below `2^32`: the vertex array is
the concatenation of the vertex segments, the index array the concatenation of
the re-based index segments, each followed by what is left of the initial
fill. -/
theorem assemble_frame_arrays (pos : ImVec2) (W H : Int) (V I : Nat)
    (lists : List ImDrawList) (st : loop_state) (hV : V < 2 ^ 32) (hI : I < 2 ^ 32)
    (h : assemble_frame pos W H V I lists = some st) :
    vtx_count lists ≤ V ∧ idx_count lists ≤ I ∧
    st.last_vertex = vtx_count lists ∧ st.last_index = idx_count lists ∧
    st.vertex_data = lists.flatMap (fun l => l.VtxBuffer) ++
      List.replicate (V - vtx_count lists) ImDrawVert.zero ∧
    st.index_data = rebased_indices 0 lists ++ List.replicate (I - idx_count lists) 0 := by
  obtain ⟨g1, g2, g3, g4, g5, g6⟩ := process_cmd_lists_arrays pos W H lists
    (initial_state V I) st h (by simpa [initial_state] using hV)
    (by simpa [initial_state] using hI) (by simp [initial_state]) (by simp [initial_state])
  simp only [initial_state, List.length_replicate, Nat.zero_add, List.take_zero,
    List.nil_append, List.drop_replicate] at g1 g2 g3 g4 g5 g6
  exact ⟨g1, g2, g3, g4, g5, g6⟩

/-- The loop completes when the segments fit the reported totals. -/
theorem assemble_frame_total (pos : ImVec2) (W H : Int) (V I : Nat)
    (lists : List ImDrawList) (hV : V < 2 ^ 32) (hI : I < 2 ^ 32)
    (hv : vtx_count lists ≤ V) (hi : idx_count lists ≤ I) :
    ∃ st, assemble_frame pos W H V I lists = some st :=
  process_cmd_lists_total pos W H lists (initial_state V I)
    (by simpa [initial_state] using hV) (by simpa [initial_state] using hI)
    (by simpa [initial_state] using hv) (by simpa [initial_state] using hi)

theorem vtx_base_zero (lists : List ImDrawList) : vtx_base lists 0 = 0 := by
  simp [vtx_base, vtx_count]

theorem idx_base_zero (lists : List ImDrawList) : idx_base lists 0 = 0 := by
  simp [idx_base, idx_count]

theorem vtx_base_succ (l : ImDrawList) (rest : List ImDrawList) (k : Nat) :
    vtx_base (l :: rest) (k + 1) = l.VtxBuffer.length + vtx_base rest k := by
  simp [vtx_base, vtx_count]

theorem idx_base_succ (l : ImDrawList) (rest : List ImDrawList) (k : Nat) :
    idx_base (l :: rest) (k + 1) = l.IdxBuffer.length + idx_base rest k := by
  simp [idx_base, idx_count]

/-- Index `a` of draw list `k` sits at position `idx_base k + a` of the
re-based indices, offset by the vertices before list `k` and narrowed. -/
theorem rebased_indices_getElem (lists : List ImDrawList) :
    ∀ (base k a : Nat) (l : ImDrawList) (raw : Nat), lists[k]? = some l →
      l.IdxBuffer[a]? = some raw →
      (rebased_indices base lists)[idx_base lists k + a]? =
        some (u16 (base + vtx_base lists k + raw)) := by
  induction lists with
  | nil => intro base k a l raw hk; simp at hk
  | cons l0 rest ih =>
    intro base k a l raw hk ha
    cases k with
    | zero =>
      simp only [List.getElem?_cons_zero, Option.some.injEq] at hk
      subst hk
      have hlt : a < l0.IdxBuffer.length := by
        by_contra hn
        rw [List.getElem?_eq_none (by omega)] at ha
        exact absurd ha (by simp)
      rw [rebased_indices, idx_base_zero, vtx_base_zero, Nat.zero_add,
        List.getElem?_append_left (by simpa using hlt), List.getElem?_map, ha]
      simp
    | succ k =>
      simp only [List.getElem?_cons_succ] at hk
      rw [rebased_indices, idx_base_succ, vtx_base_succ,
        List.getElem?_append_right (by simp only [List.length_map]; omega)]
      have e : l0.IdxBuffer.length + idx_base rest k + a -
          (l0.IdxBuffer.map (fun raw => u16 (base + raw))).length = idx_base rest k + a := by
        simp only [List.length_map]; omega
      rw [e, ih (base + l0.VtxBuffer.length) k a l raw hk ha]
      congr 2
      omega

/-- A draw list's vertices end within the total. -/
theorem vtx_base_add_le (lists : List ImDrawList) :
    ∀ (k : Nat) (l : ImDrawList), lists[k]? = some l →
      vtx_base lists k + l.VtxBuffer.length ≤ vtx_count lists := by
  induction lists with
  | nil => intro k l hk; simp at hk
  | cons l0 rest ih =>
    intro k l hk
    cases k with
    | zero =>
      simp only [List.getElem?_cons_zero, Option.some.injEq] at hk
      subst hk
      rw [vtx_base_zero, vtx_count_cons]
      omega
    | succ k =>
      simp only [List.getElem?_cons_succ] at hk
      have := ih k l hk
      rw [vtx_base_succ, vtx_count_cons]
      omega

theorem rebased_indices_length (lists : List ImDrawList) :
    ∀ base, (rebased_indices base lists).length = idx_count lists := by
  induction lists with
  | nil => intro base; simp [rebased_indices, idx_count]
  | cons l rest ih =>
    intro base
    rw [rebased_indices, List.length_append, ih, idx_count_cons, List.length_map]

/-- A draw list's indices end within the total. -/
theorem idx_base_add_lt (lists : List ImDrawList) :
    ∀ (k a : Nat) (l : ImDrawList), lists[k]? = some l → a < l.IdxBuffer.length →
      idx_base lists k + a < idx_count lists := by
  induction lists with
  | nil => intro k a l hk; simp at hk
  | cons l0 rest ih =>
    intro k a l hk ha
    cases k with
    | zero =>
      simp only [List.getElem?_cons_zero, Option.some.injEq] at hk
      subst hk
      rw [idx_base_zero, idx_count_cons]
      omega
    | succ k =>
      simp only [List.getElem?_cons_succ] at hk
      have := ih k a l hk ha
      rw [idx_base_succ, idx_count_cons]
      omega

/-! ## Re-basing of the indices -/

/-- C2, evaluated on the code: with two draw lists of 40000 vertices each, the
raw index 39999 of the second list (position 5 of the index array) is stored
as 14463 = 79999 - 65536, not as 39999 + 40000 = 79999; the stored value is
below 40000, so it addresses a vertex of the first list. -/
theorem rebased_index_wraps :
    ∃ st, assemble_frame ⟨0, 0⟩ 100 100 80000 6 [wide_list, wide_list] = some st ∧
      wide_list.IdxBuffer[2]? = some 39999 ∧
      idx_base [wide_list, wide_list] 1 + 2 = 5 ∧
      39999 + vtx_base [wide_list, wide_list] 1 = 79999 ∧
      st.index_data[5]? = some 14463 ∧
      14463 < vtx_base [wide_list, wide_list] 1 := by
  have hwv : wide_list.VtxBuffer.length = 40000 := List.length_replicate _ _
  have hwi : wide_list.IdxBuffer.length = 3 := rfl
  have hv : vtx_count [wide_list, wide_list] = 80000 := by
    simp only [vtx_count, List.map_cons, List.map_nil, List.sum_cons, List.sum_nil, hwv, Nat.add_zero]
  have hi : idx_count [wide_list, wide_list] = 6 := by
    simp only [idx_count, List.map_cons, List.map_nil, List.sum_cons, List.sum_nil, hwi, Nat.add_zero]
  obtain ⟨st, h⟩ := assemble_frame_total ⟨0, 0⟩ 100 100 80000 6 [wide_list, wide_list]
    (by norm_num) (by norm_num) (by omega) (by omega)
  obtain ⟨-, -, -, -, -, g⟩ := assemble_frame_arrays ⟨0, 0⟩ 100 100 80000 6
    [wide_list, wide_list] st (by norm_num) (by norm_num) h
  have hb1 : idx_base [wide_list, wide_list] 1 = 3 := by
    simp only [idx_base, idx_count, List.take_succ_cons, List.take_zero, List.map_cons,
      List.map_nil, List.sum_cons, List.sum_nil, hwi, Nat.add_zero]
  have hb2 : vtx_base [wide_list, wide_list] 1 = 40000 := by
    simp only [vtx_base, vtx_count, List.take_succ_cons, List.take_zero, List.map_cons,
      List.map_nil, List.sum_cons, List.sum_nil, hwv, Nat.add_zero]
  refine ⟨st, h, rfl, by omega, by omega, ?_, by omega⟩
  have hr := rebased_indices_getElem [wide_list, wide_list] 0 1 2 wide_list 39999 rfl rfl
  rw [hb1, hb2] at hr
  have h5 : 5 < (rebased_indices 0 [wide_list, wide_list]).length := by
    rw [rebased_indices_length, hi]; omega
  rw [g, List.getElem?_append_left h5, hr]
  simp [u16]

/-- What the index array holds after a completed run of the loop on host arrays
for totals below `2^32`: at position `idx_base k + a` the raw index `a` of
draw list `k` plus the number of vertices of the earlier lists, reduced modulo
65536 by the cast to `ImDrawIdx`; that is the sum itself whenever the sum is
below 65536. -/
theorem index_rebasing (pos : ImVec2) (W H : Int) (V I : Nat) (lists : List ImDrawList)
    (st : loop_state) (hV : V < 2 ^ 32) (hI : I < 2 ^ 32)
    (h : assemble_frame pos W H V I lists = some st)
    (k a : Nat) (l : ImDrawList) (raw : Nat)
    (hk : lists[k]? = some l) (ha : l.IdxBuffer[a]? = some raw) :
    st.index_data[idx_base lists k + a]? = some ((raw + vtx_base lists k) % 65536) ∧
    (raw + vtx_base lists k < 65536 →
      st.index_data[idx_base lists k + a]? = some (raw + vtx_base lists k)) := by
  obtain ⟨-, -, -, -, -, g⟩ := assemble_frame_arrays pos W H V I lists st hV hI h
  have halt : a < l.IdxBuffer.length := by
    by_contra hn
    rw [List.getElem?_eq_none (by omega)] at ha
    exact absurd ha (by simp)
  have hlt : idx_base lists k + a < (rebased_indices 0 lists).length := by
    rw [rebased_indices_length]
    exact idx_base_add_lt lists k a l hk halt
  have hr := rebased_indices_getElem lists 0 k a l raw hk ha
  have hval : st.index_data[idx_base lists k + a]? =
      some ((raw + vtx_base lists k) % 65536) := by
    rw [g, List.getElem?_append_left hlt, hr, Nat.zero_add, Nat.add_comm]
    rfl
  exact ⟨hval, fun hsmall => by rw [hval, Nat.mod_eq_of_lt hsmall]⟩

/-- The scenario of the specification: a quad (4 vertices) followed by a
triangle; the raw index 0 of the triangle is stored as 4. -/
theorem index_rebasing_witness :
    (7 < 2 ^ 32 ∧ 9 < 2 ^ 32 ∧
      assemble_frame ⟨0, 0⟩ 100 100 7 9 [quad_list, triangle_list] =
        some quad_triangle_state ∧
      [quad_list, triangle_list][1]? = some triangle_list ∧
      triangle_list.IdxBuffer[0]? = some 0) ∧
    (quad_triangle_state.index_data[idx_base [quad_list, triangle_list] 1 + 0]? =
        some ((0 + vtx_base [quad_list, triangle_list] 1) % 65536) ∧
      (0 + vtx_base [quad_list, triangle_list] 1 < 65536 →
        quad_triangle_state.index_data[idx_base [quad_list, triangle_list] 1 + 0]? =
          some (0 + vtx_base [quad_list, triangle_list] 1))) ∧
    0 + vtx_base [quad_list, triangle_list] 1 = 4 :=
  have h : assemble_frame ⟨0, 0⟩ 100 100 7 9 [quad_list, triangle_list] =
      some quad_triangle_state := by decide!
  ⟨⟨by norm_num, by norm_num, h, rfl, rfl⟩,
    index_rebasing ⟨0, 0⟩ 100 100 7 9 [quad_list, triangle_list] quad_triangle_state
      (by norm_num) (by norm_num) h 1 0 triangle_list 0 rfl rfl,
    by decide⟩

theorem u16_le (n : Nat) : u16 n ≤ n := Nat.mod_le n _

/-- With raw indices inside their own vertex segments, every re-based index
is below the vertex total counted from `base`. -/
theorem rebased_indices_lt (lists : List ImDrawList)
    (hraw : ∀ l ∈ lists, ∀ raw ∈ l.IdxBuffer, raw < l.VtxBuffer.length) :
    ∀ base, ∀ v ∈ rebased_indices base lists, v < base + vtx_count lists := by
  induction lists with
  | nil => intro base v hv; simp [rebased_indices] at hv
  | cons l rest ih =>
    intro base v hv
    rw [rebased_indices, List.mem_append] at hv
    rw [vtx_count_cons]
    rcases hv with hv | hv
    · obtain ⟨raw, hmem, rfl⟩ := List.mem_map.mp hv
      have h1 := hraw l (List.mem_cons_self _ _) raw hmem
      have h2 := u16_le (base + raw)
      omega
    · have := ih (fun l1 hl1 => hraw l1 (List.mem_cons_of_mem _ hl1))
        (base + l.VtxBuffer.length) v hv
      omega

/-- C3: when every raw index is smaller than the length of its own vertex
segment and the vertex segments sum to the reported total `V`, every value the
re-basing stores in the index array (after the narrowing to 16 bits) is below
`V`; when the index segments fill the index array, so is every element of the
array. -/
theorem rebased_index_in_range (pos : ImVec2) (W H : Int) (V I : Nat)
    (lists : List ImDrawList) (st : loop_state) (hV : V < 2 ^ 32) (hI : I < 2 ^ 32)
    (h : assemble_frame pos W H V I lists = some st)
    (hraw : ∀ l ∈ lists, ∀ raw ∈ l.IdxBuffer, raw < l.VtxBuffer.length)
    (hsum : vtx_count lists = V) :
    (∀ (k a : Nat) (l : ImDrawList), lists[k]? = some l → a < l.IdxBuffer.length →
      ∃ v, st.index_data[idx_base lists k + a]? = some v ∧ v < V) ∧
    (idx_count lists = I → ∀ v ∈ st.index_data, v < V) := by
  obtain ⟨-, -, -, -, -, g⟩ := assemble_frame_arrays pos W H V I lists st hV hI h
  have hlt := rebased_indices_lt lists hraw 0
  rw [Nat.zero_add, hsum] at hlt
  constructor
  · intro k a l hk ha
    have hpos : idx_base lists k + a < (rebased_indices 0 lists).length := by
      rw [rebased_indices_length]
      exact idx_base_add_lt lists k a l hk ha
    refine ⟨(rebased_indices 0 lists)[idx_base lists k + a], ?_, ?_⟩
    · rw [g, List.getElem?_append_left hpos, List.getElem?_eq_getElem hpos]
    · exact hlt _ (List.getElem_mem _)
  · intro hfull v hv
    rw [g, hfull, Nat.sub_self, List.replicate_zero, List.append_nil] at hv
    exact hlt v hv

/-- Witness of C3: the quad and the triangle; all stored indices are below 7. -/
theorem rebased_index_in_range_witness :
    (7 < 2 ^ 32 ∧ 9 < 2 ^ 32 ∧
      assemble_frame ⟨0, 0⟩ 100 100 7 9 [quad_list, triangle_list] =
        some quad_triangle_state ∧
      (∀ l ∈ [quad_list, triangle_list], ∀ raw ∈ l.IdxBuffer, raw < l.VtxBuffer.length) ∧
      vtx_count [quad_list, triangle_list] = 7) ∧
    ((∀ (k a : Nat) (l : ImDrawList), [quad_list, triangle_list][k]? = some l →
        a < l.IdxBuffer.length →
        ∃ v, quad_triangle_state.index_data[idx_base [quad_list, triangle_list] k + a]? =
          some v ∧ v < 7) ∧
      (idx_count [quad_list, triangle_list] = 9 →
        ∀ v ∈ quad_triangle_state.index_data, v < 7)) :=
  have h : assemble_frame ⟨0, 0⟩ 100 100 7 9 [quad_list, triangle_list] =
      some quad_triangle_state := by decide!
  ⟨⟨by norm_num, by norm_num, h, by decide, by decide⟩,
    rebased_index_in_range ⟨0, 0⟩ 100 100 7 9 [quad_list, triangle_list]
      quad_triangle_state (by norm_num) (by norm_num) h (by decide) (by decide)⟩

/-! ## Sizes and contents of the host arrays -/

/-- What `frame_geometry` did when it reports an assembled frame. -/
theorem frame_geometry_assembled (data : ImDrawData) (io : ImGuiIO) (fbw fbh : Int)
    (st : loop_state) (h : frame_geometry data io = frame_result.assembled fbw fbh st) :
    0 < data.TotalIdxCount ∧ 0 ≤ data.TotalVtxCount ∧ 0 < fbw ∧ 0 < fbh ∧
    fbw = float_to_int (data.DisplaySize.x * io.DisplayFramebufferScale.x) ∧
    fbh = float_to_int (data.DisplaySize.y * io.DisplayFramebufferScale.y) ∧
    assemble_frame data.DisplayPos fbw fbh data.TotalVtxCount.toNat data.TotalIdxCount.toNat
      (ScaleClipRects io.DisplayFramebufferScale data.CmdLists) = some st := by
  unfold frame_geometry at h
  split at h
  · exact absurd h (by simp)
  · rename_i hidx
    simp only at h
    split at h
    · exact absurd h (by simp)
    · rename_i hfb
      split at h
      · exact absurd h (by simp)
      · rename_i hvtx
        split at h
        · exact absurd h (by simp)
        · rename_i st1 hst
          simp only [frame_result.assembled.injEq] at h
          obtain ⟨h1, h2, h3⟩ := h
          subst h1 h2 h3
          exact ⟨by omega, by omega, by omega, by omega, rfl, rfl, hst⟩

/-- C4: on every frame that is not skipped and runs the loop to its end, the
host vertex array has exactly `TotalVtxCount` elements and the host index
array exactly `TotalIdxCount`, whatever the draw lists contain. -/
theorem host_array_sizes (data : ImDrawData) (io : ImGuiIO) (fbw fbh : Int)
    (st : loop_state) (h : frame_geometry data io = frame_result.assembled fbw fbh st) :
    (st.vertex_data.length : Int) = data.TotalVtxCount ∧
    (st.index_data.length : Int) = data.TotalIdxCount := by
  obtain ⟨hi, hv, -, -, -, -, ha⟩ := frame_geometry_assembled data io fbw fbh st h
  obtain ⟨g1, g2⟩ := process_cmd_lists_lengths data.DisplayPos fbw fbh _ _ st ha
  rw [g1, g2]
  simp only [initial_state, List.length_replicate]
  exact ⟨Int.toNat_of_nonneg hv, Int.toNat_of_nonneg (by omega)⟩

/-- Witness of C4: the frame of a quad and a triangle, 7 vertices and 9
indices reported. -/
theorem host_array_sizes_witness :
    frame_geometry quad_triangle_data ⟨⟨1, 1⟩⟩ =
      frame_result.assembled 100 100 quad_triangle_state ∧
    (quad_triangle_state.vertex_data.length : Int) = quad_triangle_data.TotalVtxCount ∧
    (quad_triangle_state.index_data.length : Int) = quad_triangle_data.TotalIdxCount :=
  have h : frame_geometry quad_triangle_data ⟨⟨1, 1⟩⟩ =
      frame_result.assembled 100 100 quad_triangle_state := by decide!
  ⟨h, host_array_sizes quad_triangle_data ⟨⟨1, 1⟩⟩ 100 100 quad_triangle_state h⟩

/-- C5: when the vertex segments sum to the reported total `V`, the vertex
array after a completed run of the loop is the concatenation, in draw-list
order, of the vertex segments. -/
theorem vertices_verbatim (pos : ImVec2) (W H : Int) (V I : Nat) (lists : List ImDrawList)
    (st : loop_state) (hV : V < 2 ^ 32) (hI : I < 2 ^ 32)
    (h : assemble_frame pos W H V I lists = some st) (hsum : vtx_count lists = V) :
    st.vertex_data = lists.flatMap (fun l => l.VtxBuffer) := by
  obtain ⟨-, -, -, -, g, -⟩ := assemble_frame_arrays pos W H V I lists st hV hI h
  rw [g, hsum, Nat.sub_self, List.replicate_zero, List.append_nil]

/-- Witness of C5: the quad and the triangle; 7 vertices in input order. -/
theorem vertices_verbatim_witness :
    (7 < 2 ^ 32 ∧ 9 < 2 ^ 32 ∧
      assemble_frame ⟨0, 0⟩ 100 100 7 9 [quad_list, triangle_list] =
        some quad_triangle_state ∧
      vtx_count [quad_list, triangle_list] = 7) ∧
    quad_triangle_state.vertex_data =
      [quad_list, triangle_list].flatMap (fun l => l.VtxBuffer) :=
  have h : assemble_frame ⟨0, 0⟩ 100 100 7 9 [quad_list, triangle_list] =
      some quad_triangle_state := by decide!
  ⟨⟨by norm_num, by norm_num, h, by decide⟩,
    vertices_verbatim ⟨0, 0⟩ 100 100 7 9 [quad_list, triangle_list] quad_triangle_state
      (by norm_num) (by norm_num) h (by decide)⟩

/-! ## Order of the batches -/

/-- C6: after a completed run of the loop the batches are, in order, exactly
the sub-commands of the flattened input (draw lists in order, sub-commands in
order within each list) that have no callback and pass the cull test, each
with the scissor computed from its own clip rectangle and with its own element
count; in particular there are as many batches as such sub-commands and the
scissors appear in input order. -/
theorem batch_order_stable (pos : ImVec2) (W H : Int) (V I : Nat) (lists : List ImDrawList)
    (st : loop_state) (h : assemble_frame pos W H V I lists = some st) :
    st.draw_data.map draw_data.shape =
      ((flattened_cmds lists).filter (is_drawn pos W H)).map (cmd_shape pos H) ∧
    st.draw_data.length = ((flattened_cmds lists).filter (is_drawn pos W H)).length ∧
    st.draw_data.map (fun b => b.scissor) =
      ((flattened_cmds lists).filter (is_drawn pos W H)).map
        (fun c => scissor_rect H (translated_clip_rect pos c)) := by
  have hs := process_cmd_lists_shapes pos W H lists (initial_state V I) st h
  simp only [initial_state, List.map_nil, List.nil_append] at hs
  refine ⟨hs, ?_, ?_⟩
  · have := congrArg List.length hs
    simpa using this
  · have := congrArg (List.map Prod.fst) hs
    simpa [List.map_map, Function.comp_def, draw_data.shape, cmd_shape] using this

/-- Witness of C6: a triangle list followed by a list whose sub-commands are
drawn, callback, culled, drawn; three batches come out, in input order, the
first and last of the second list with the same scissor. -/
theorem batch_order_stable_witness :
    assemble_frame ⟨0, 0⟩ 100 100 6 12 [triangle_list, mixed_list] =
      some triangle_mixed_state ∧
    (triangle_mixed_state.draw_data.map draw_data.shape =
        ((flattened_cmds [triangle_list, mixed_list]).filter
          (is_drawn ⟨0, 0⟩ 100 100)).map (cmd_shape ⟨0, 0⟩ 100) ∧
      triangle_mixed_state.draw_data.length =
        ((flattened_cmds [triangle_list, mixed_list]).filter
          (is_drawn ⟨0, 0⟩ 100 100)).length ∧
      triangle_mixed_state.draw_data.map (fun b => b.scissor) =
        ((flattened_cmds [triangle_list, mixed_list]).filter
          (is_drawn ⟨0, 0⟩ 100 100)).map
          (fun c => scissor_rect 100 (translated_clip_rect ⟨0, 0⟩ c))) :=
  have h : assemble_frame ⟨0, 0⟩ 100 100 6 12 [triangle_list, mixed_list] =
      some triangle_mixed_state := by decide!
  ⟨h, batch_order_stable ⟨0, 0⟩ 100 100 6 12 [triangle_list, mixed_list]
    triangle_mixed_state h⟩

/-! ## Index offsets of the batches -/

/-- The sub-command loop appends exactly `appended_batches`, and invokes the
callbacks of the list in order. -/
theorem process_cmds_appended (pos : ImVec2) (W H : Int) (li : Nat) (l : ImDrawList)
    (cmds : List ImDrawCmd) :
    ∀ st : cmd_loop_state,
      (process_cmds pos W H li l st cmds).draw_data =
        st.draw_data ++ appended_batches pos W H li st.idx_buffer_sub_offset cmds ∧
      (process_cmds pos W H li l st cmds).calls =
        st.calls ++ cmds.filterMap (callback_of l) := by
  induction cmds with
  | nil => intro st; simp [process_cmds_nil, appended_batches]
  | cons cmd cmds ih =>
    intro st
    rw [process_cmds_cons]
    obtain ⟨h1, h2⟩ := ih (process_cmd pos W H li l st cmd)
    rw [h1, h2]
    cases hcb : cmd.UserCallback with
    | some f =>
      rw [process_cmd_callback pos W H li l st cmd f hcb]
      simp [appended_batches, is_drawn, callback_of, hcb]
    | none =>
      cases hp : passes_cull_test W H (translated_clip_rect pos cmd)
      · rw [process_cmd_geometry_cull pos W H li l st cmd hcb hp]
        simp [appended_batches, is_drawn, callback_of, hcb, hp]
      · rw [process_cmd_geometry_pass pos W H li l st cmd hcb hp]
        simp [appended_batches, is_drawn, callback_of, hcb, hp]

/-- The appended batches are the drawn sub-commands, in order. -/
theorem appended_batches_shapes (pos : ImVec2) (W H : Int) (li : Nat)
    (cmds : List ImDrawCmd) :
    ∀ off, (appended_batches pos W H li off cmds).map draw_data.shape =
      (cmds.filter (is_drawn pos W H)).map (cmd_shape pos H) := by
  induction cmds with
  | nil => intro off; simp [appended_batches]
  | cons c cs ih =>
    intro off
    cases hd : is_drawn pos W H c
    · simp [appended_batches, hd, ih]
    · simp [appended_batches, hd, ih, draw_data.shape, cmd_shape]

/-- When the element counts of the sub-commands fit the `n` indices of the draw
list, every appended batch lies inside the index range of the list. -/
theorem appended_batches_bounds (pos : ImVec2) (W H : Int) (li n : Nat) (hn : li + n < 2 ^ 32)
    (cmds : List ImDrawCmd) :
    ∀ off, off + (cmds.map (fun c => c.ElemCount)).sum ≤ n →
      ∀ b ∈ appended_batches pos W H li off cmds,
        li ≤ b.first_elem ∧ b.first_elem + b.nelem ≤ li + n := by
  induction cmds with
  | nil => intro off _ b hb; simp [appended_batches] at hb
  | cons c cs ih =>
    intro off hsum b hb
    simp only [List.map_cons, List.sum_cons] at hsum
    rw [appended_batches] at hb
    split at hb
    · rcases List.mem_cons.mp hb with rfl | hb
      · simp only
        rw [u32_of_lt (by omega)]
        omega
      · rw [u32_of_lt (by omega)] at hb
        exact ih (off + c.ElemCount) (by omega) b hb
    · exact ih off (by omega) b hb

/-- When every sub-command is drawn, the appended batches tile the range that
starts at `li + off` and has the length of the summed element counts. -/
theorem appended_batches_tiles (pos : ImVec2) (W H : Int) (li : Nat)
    (cmds : List ImDrawCmd) :
    ∀ off, (∀ c ∈ cmds, is_drawn pos W H c = true) →
      li + off + (cmds.map (fun c => c.ElemCount)).sum < 2 ^ 32 →
      tiles (li + off) (li + off + (cmds.map (fun c => c.ElemCount)).sum)
        (appended_batches pos W H li off cmds) := by
  induction cmds with
  | nil => intro off _ _; simp [appended_batches, tiles]
  | cons c cs ih =>
    intro off hd hlt
    simp only [List.map_cons, List.sum_cons] at hlt ⊢
    rw [appended_batches, if_pos (hd c (List.mem_cons_self _ _))]
    rw [u32_of_lt (show li + off < 2 ^ 32 by omega),
      u32_of_lt (show off + c.ElemCount < 2 ^ 32 by omega)]
    refine ⟨rfl, ?_⟩
    have := ih (off + c.ElemCount) (fun c1 h1 => hd c1 (List.mem_cons_of_mem _ h1))
      (by omega)
    simpa [Nat.add_assoc] using this

/-- One pass through the body of the draw-list loop on host arrays shorter
than `2^32`: the counters advance by the lengths of the segments and stay
inside the arrays, whose lengths do not change. -/
theorem process_cmd_list_counters (pos : ImVec2) (W H : Int) (st st1 : loop_state)
    (l : ImDrawList) (h : process_cmd_list pos W H st l = some st1)
    (hV : st.vertex_data.length < 2 ^ 32) (hI : st.index_data.length < 2 ^ 32)
    (hli : st.last_index ≤ st.index_data.length) :
    st1.last_vertex = st.last_vertex + l.VtxBuffer.length ∧
    st1.last_index = st.last_index + l.IdxBuffer.length ∧
    st1.vertex_data.length = st.vertex_data.length ∧
    st1.index_data.length = st.index_data.length ∧
    st1.last_vertex ≤ st1.vertex_data.length ∧ st1.last_index ≤ st1.index_data.length := by
  obtain ⟨hvle, hvd, hci, hlv1, hli1, -, -⟩ := process_cmd_list_some pos W H st st1 l h
  obtain ⟨hile, -⟩ := copy_indices_some st.last_index st.last_vertex l.IdxBuffer
    st.index_data 0 st1.index_data (by omega) hci
  simp only [Nat.add_zero] at hile
  have hvl : st1.vertex_data.length = st.vertex_data.length := by
    rw [hvd]; exact splice_length _ _ _ hvle
  have hil : st1.index_data.length = st.index_data.length :=
    copy_indices_length _ _ _ _ _ _ hci
  rw [u32_of_lt (n := l.VtxBuffer.length) (by omega), u32_of_lt (by omega)] at hlv1
  rw [u32_of_lt (n := l.IdxBuffer.length) (by omega), u32_of_lt (by omega)] at hli1
  exact ⟨hlv1, hli1, hvl, hil, by omega, by omega⟩

/-- After a completed run of the draw-list loop on host arrays shorter than
`2^32`, the batches are those of `frame_batches`, list after list, and the
callbacks invoked are those of the lists in input order. -/
theorem process_cmd_lists_batches (pos : ImVec2) (W H : Int) (lists : List ImDrawList) :
    ∀ (st st2 : loop_state), process_cmd_lists pos W H st lists = some st2 →
      st.vertex_data.length < 2 ^ 32 → st.index_data.length < 2 ^ 32 →
      st.last_index ≤ st.index_data.length →
      st2.draw_data = st.draw_data ++ (frame_batches pos W H st.last_index lists).flatten ∧
      st2.calls = st.calls ++ expected_calls lists := by
  induction lists with
  | nil =>
    intro st st2 h _ _ _
    simp only [process_cmd_lists, Option.some.injEq] at h
    subst h
    simp [frame_batches, expected_calls]
  | cons l rest ih =>
    intro st st2 h hV hI hli
    obtain ⟨st1, h1, h2⟩ := process_cmd_lists_cons pos W H st st2 l rest h
    obtain ⟨-, a2, a3, a4, -, a6⟩ := process_cmd_list_counters pos W H st st1 l h1 hV hI hli
    obtain ⟨-, -, -, -, -, hdd, hcc⟩ := process_cmd_list_some pos W H st st1 l h1
    obtain ⟨g1, g2⟩ := ih st1 st2 h2 (by omega) (by omega) a6
    obtain ⟨p1, p2⟩ := process_cmds_appended pos W H st.last_index l l.CmdBuffer
      ⟨st.draw_data, 0, st.calls⟩
    rw [g1, g2, hdd, hcc, p1, p2, a2]
    simp [frame_batches, expected_calls, List.append_assoc]

theorem frame_batches_length (pos : ImVec2) (W H : Int) (lists : List ImDrawList) :
    ∀ li, (frame_batches pos W H li lists).length = lists.length := by
  induction lists with
  | nil => intro li; rfl
  | cons l rest ih => intro li; simp [frame_batches, ih]

/-- Group `k` of `frame_batches` holds the batches of draw list `k`, whose
indices start at `idx_base k` after `li`. -/
theorem frame_batches_getElem (pos : ImVec2) (W H : Int) (lists : List ImDrawList) :
    ∀ (li k : Nat) (l : ImDrawList), lists[k]? = some l →
      (frame_batches pos W H li lists)[k]? =
        some (appended_batches pos W H (li + idx_base lists k) 0 l.CmdBuffer) := by
  induction lists with
  | nil => intro li k l hk; simp at hk
  | cons l0 rest ih =>
    intro li k l hk
    cases k with
    | zero =>
      simp only [List.getElem?_cons_zero, Option.some.injEq] at hk
      subst hk
      simp [frame_batches, idx_base_zero]
    | succ k =>
      simp only [List.getElem?_cons_succ] at hk
      rw [frame_batches, List.getElem?_cons_succ, ih _ k l hk, idx_base_succ, Nat.add_assoc]

/-- The batches and callbacks of an assembled frame. -/
theorem assemble_frame_batches (pos : ImVec2) (W H : Int) (V I : Nat)
    (lists : List ImDrawList) (st : loop_state) (hV : V < 2 ^ 32) (hI : I < 2 ^ 32)
    (h : assemble_frame pos W H V I lists = some st) :
    st.draw_data = (frame_batches pos W H 0 lists).flatten ∧
    st.calls = expected_calls lists := by
  have := process_cmd_lists_batches pos W H lists (initial_state V I) st h
    (by simpa [initial_state] using hV) (by simpa [initial_state] using hI)
    (by simp [initial_state])
  simpa [initial_state] using this

theorem idx_base_add_le (lists : List ImDrawList) :
    ∀ (k : Nat) (l : ImDrawList), lists[k]? = some l →
      idx_base lists k + l.IdxBuffer.length ≤ idx_count lists := by
  induction lists with
  | nil => intro k l hk; simp at hk
  | cons l0 rest ih =>
    intro k l hk
    cases k with
    | zero =>
      simp only [List.getElem?_cons_zero, Option.some.injEq] at hk
      subst hk
      rw [idx_base_zero, idx_count_cons]
      omega
    | succ k =>
      simp only [List.getElem?_cons_succ] at hk
      have := ih k l hk
      rw [idx_base_succ, idx_count_cons]
      omega

/-- C11: when the element counts of every draw list sum to at most the length
of its index segment and the index segments sum to the reported total `I`,
every batch of a completed run ends inside the index array, first_elem + nelem
<= I; more precisely the batches split into one group per draw list (group `k`
being the drawn sub-commands of list `k`), and every batch of group `k` lies
inside the part of the index array that holds the indices of list `k`. -/
theorem draws_within_index_buffer (pos : ImVec2) (W H : Int) (V I : Nat)
    (lists : List ImDrawList) (st : loop_state) (hV : V < 2 ^ 32) (hI : I < 2 ^ 32)
    (h : assemble_frame pos W H V I lists = some st)
    (hcnt : ∀ l ∈ lists, (l.CmdBuffer.map (fun c => c.ElemCount)).sum ≤ l.IdxBuffer.length)
    (hsum : idx_count lists = I) :
    (∀ b ∈ st.draw_data, b.first_elem + b.nelem ≤ I) ∧
    ∃ groups : List (List draw_data), st.draw_data = groups.flatten ∧
      groups.length = lists.length ∧
      ∀ (k : Nat) (l : ImDrawList) (g : List draw_data), lists[k]? = some l →
        groups[k]? = some g →
        g.map draw_data.shape =
          (l.CmdBuffer.filter (is_drawn pos W H)).map (cmd_shape pos H) ∧
        ∀ b ∈ g, idx_base lists k ≤ b.first_elem ∧
          b.first_elem + b.nelem ≤ idx_base lists k + l.IdxBuffer.length := by
  obtain ⟨hdd, -⟩ := assemble_frame_batches pos W H V I lists st hV hI h
  have hgroup : ∀ (k : Nat) (l : ImDrawList) (g : List draw_data), lists[k]? = some l →
      (frame_batches pos W H 0 lists)[k]? = some g →
      g.map draw_data.shape =
        (l.CmdBuffer.filter (is_drawn pos W H)).map (cmd_shape pos H) ∧
      ∀ b ∈ g, idx_base lists k ≤ b.first_elem ∧
        b.first_elem + b.nelem ≤ idx_base lists k + l.IdxBuffer.length := by
    intro k l g hk hg
    rw [frame_batches_getElem pos W H lists 0 k l hk, Nat.zero_add, Option.some.injEq] at hg
    subst hg
    have hle := idx_base_add_le lists k l hk
    refine ⟨appended_batches_shapes pos W H _ _ 0, ?_⟩
    exact appended_batches_bounds pos W H (idx_base lists k) l.IdxBuffer.length (by omega)
      l.CmdBuffer 0 (by
        have := hcnt l (List.getElem?_mem hk)
        omega)
  refine ⟨?_, frame_batches pos W H 0 lists, hdd, frame_batches_length pos W H lists 0, hgroup⟩
  intro b hb
  rw [hdd, List.mem_flatten] at hb
  obtain ⟨g, hg, hbg⟩ := hb
  obtain ⟨k, hklt, hkg⟩ := List.getElem_of_mem hg
  have hklt2 : k < lists.length := by
    rw [frame_batches_length] at hklt; exact hklt
  have hk : lists[k]? = some lists[k] := List.getElem?_eq_getElem hklt2
  have hg2 : (frame_batches pos W H 0 lists)[k]? = some g := by
    rw [List.getElem?_eq_getElem hklt, hkg]
  have := (hgroup k lists[k] g hk hg2).2 b hbg
  have hle := idx_base_add_le lists k lists[k] hk
  omega

/-- Witness of C11: the triangle followed by the mixed list, 12 indices. -/
theorem draws_within_index_buffer_witness :
    (6 < 2 ^ 32 ∧ 12 < 2 ^ 32 ∧
      assemble_frame ⟨0, 0⟩ 100 100 6 12 [triangle_list, mixed_list] =
        some triangle_mixed_state ∧
      (∀ l ∈ [triangle_list, mixed_list],
        (l.CmdBuffer.map (fun c => c.ElemCount)).sum ≤ l.IdxBuffer.length) ∧
      idx_count [triangle_list, mixed_list] = 12) ∧
    ((∀ b ∈ triangle_mixed_state.draw_data, b.first_elem + b.nelem ≤ 12) ∧
    ∃ groups : List (List draw_data), triangle_mixed_state.draw_data = groups.flatten ∧
      groups.length = [triangle_list, mixed_list].length ∧
      ∀ (k : Nat) (l : ImDrawList) (g : List draw_data),
        [triangle_list, mixed_list][k]? = some l → groups[k]? = some g →
        g.map draw_data.shape =
          (l.CmdBuffer.filter (is_drawn ⟨0, 0⟩ 100 100)).map (cmd_shape ⟨0, 0⟩ 100) ∧
        ∀ b ∈ g, idx_base [triangle_list, mixed_list] k ≤ b.first_elem ∧
          b.first_elem + b.nelem ≤
            idx_base [triangle_list, mixed_list] k + l.IdxBuffer.length) :=
  have h : assemble_frame ⟨0, 0⟩ 100 100 6 12 [triangle_list, mixed_list] =
      some triangle_mixed_state := by decide!
  ⟨⟨by norm_num, by norm_num, h, by decide, by decide⟩,
    draws_within_index_buffer ⟨0, 0⟩ 100 100 6 12 [triangle_list, mixed_list]
      triangle_mixed_state (by norm_num) (by norm_num) h (by decide) (by decide)⟩

/-- C12: in a completed run, for a draw list `k` whose sub-commands all are
without callback and pass the cull test and whose element counts sum to the
length of its index segment, the batches of the list (group `k` of the
batches, one batch per sub-command, in order) tile the index range of the
list: the first starts at the list's base offset, each later one at the
first_elem + nelem of the one before, and the last ends at base + length of
the index segment. -/
theorem batches_tile_list (pos : ImVec2) (W H : Int) (V I : Nat)
    (lists : List ImDrawList) (st : loop_state) (hV : V < 2 ^ 32) (hI : I < 2 ^ 32)
    (h : assemble_frame pos W H V I lists = some st)
    (k : Nat) (l : ImDrawList) (hk : lists[k]? = some l)
    (hall : ∀ c ∈ l.CmdBuffer, c.UserCallback = none ∧
      passes_cull_test W H (translated_clip_rect pos c) = true)
    (hcnt : (l.CmdBuffer.map (fun c => c.ElemCount)).sum = l.IdxBuffer.length) :
    ∃ (groups : List (List draw_data)) (g : List draw_data),
      st.draw_data = groups.flatten ∧ groups.length = lists.length ∧
      (∀ (j : Nat) (lj : ImDrawList) (gj : List draw_data), lists[j]? = some lj →
        groups[j]? = some gj →
        gj.map draw_data.shape =
          (lj.CmdBuffer.filter (is_drawn pos W H)).map (cmd_shape pos H)) ∧
      groups[k]? = some g ∧
      g.map draw_data.shape = l.CmdBuffer.map (cmd_shape pos H) ∧
      tiles (idx_base lists k) (idx_base lists k + l.IdxBuffer.length) g := by
  obtain ⟨hdd, -⟩ := assemble_frame_batches pos W H V I lists st hV hI h
  obtain ⟨-, hile, -, -, -, -⟩ := assemble_frame_arrays pos W H V I lists st hV hI h
  have hle := idx_base_add_le lists k l hk
  have hdrawn : ∀ c ∈ l.CmdBuffer, is_drawn pos W H c = true := by
    intro c hc
    obtain ⟨h1, h2⟩ := hall c hc
    simp [is_drawn, h1, h2]
  refine ⟨frame_batches pos W H 0 lists, _, hdd, frame_batches_length pos W H lists 0, ?_,
    frame_batches_getElem pos W H lists 0 k l hk, ?_, ?_⟩
  · intro j lj gj hj hgj
    rw [frame_batches_getElem pos W H lists 0 j lj hj, Option.some.injEq] at hgj
    subst hgj
    exact appended_batches_shapes pos W H _ _ 0
  · rw [appended_batches_shapes, List.filter_eq_self.mpr hdrawn]
  · have := appended_batches_tiles pos W H (0 + idx_base lists k) l.CmdBuffer 0 hdrawn
      (by omega)
    rw [hcnt] at this
    simpa using this

/-- Witness of C12: a single quad (4 vertices, 6 indices, one sub-command over
the whole framebuffer) yields one batch with first_elem = 0 and nelem = 6. -/
theorem batches_tile_list_witness :
    (4 < 2 ^ 32 ∧ 6 < 2 ^ 32 ∧
      assemble_frame ⟨0, 0⟩ 100 100 4 6 [quad_list] = some quad_state ∧
      [quad_list][0]? = some quad_list ∧
      (∀ c ∈ quad_list.CmdBuffer, c.UserCallback = none ∧
        passes_cull_test 100 100 (translated_clip_rect ⟨0, 0⟩ c) = true) ∧
      (quad_list.CmdBuffer.map (fun c => c.ElemCount)).sum = quad_list.IdxBuffer.length) ∧
    (∃ (groups : List (List draw_data)) (g : List draw_data),
      quad_state.draw_data = groups.flatten ∧ groups.length = [quad_list].length ∧
      (∀ (j : Nat) (lj : ImDrawList) (gj : List draw_data), [quad_list][j]? = some lj →
        groups[j]? = some gj →
        gj.map draw_data.shape =
          (lj.CmdBuffer.filter (is_drawn ⟨0, 0⟩ 100 100)).map (cmd_shape ⟨0, 0⟩ 100)) ∧
      groups[0]? = some g ∧
      g.map draw_data.shape = quad_list.CmdBuffer.map (cmd_shape ⟨0, 0⟩ 100) ∧
      tiles (idx_base [quad_list] 0) (idx_base [quad_list] 0 + quad_list.IdxBuffer.length) g) ∧
    quad_state.draw_data.map (fun b => (b.first_elem, b.nelem)) = [(0, 6)] :=
  have h : assemble_frame ⟨0, 0⟩ 100 100 4 6 [quad_list] = some quad_state := by decide!
  ⟨⟨by norm_num, by norm_num, h, rfl, by decide!, by decide⟩,
    batches_tile_list ⟨0, 0⟩ 100 100 4 6 [quad_list] quad_state (by norm_num) (by norm_num) h
      0 quad_list rfl (by decide!) (by decide),
    by decide⟩

/-! ## The whole routine -/

/-- The early return of line 162. -/
theorem record_rendering_commands_no_index (dev : device) (self : backend)
    (data : ImDrawData) (io : ImGuiIO) (h : data.TotalIdxCount ≤ 0) :
    record_rendering_commands dev self data io = ⟨run_status.returned, self, []⟩ := by
  unfold record_rendering_commands
  rw [if_pos h]

/-- The early return of line 171. -/
theorem record_rendering_commands_no_framebuffer (dev : device) (self : backend)
    (data : ImDrawData) (io : ImGuiIO)
    (h : float_to_int (data.DisplaySize.x * io.DisplayFramebufferScale.x) ≤ 0 ∨
      float_to_int (data.DisplaySize.y * io.DisplayFramebufferScale.y) ≤ 0) :
    record_rendering_commands dev self data io = ⟨run_status.returned, self, []⟩ := by
  unfold record_rendering_commands
  split
  · rfl
  · simp only
    rw [if_pos h]

/-- A frame that passes both guards starts with the write to the uniform
channel, the binds and the viewport. -/
theorem record_rendering_commands_prologue (dev : device) (self : backend)
    (data : ImDrawData) (io : ImGuiIO) (hidx : 0 < data.TotalIdxCount)
    (hw : 0 < float_to_int (data.DisplaySize.x * io.DisplayFramebufferScale.x))
    (hh : 0 < float_to_int (data.DisplaySize.y * io.DisplayFramebufferScale.y)) :
    ∃ rest, (record_rendering_commands dev self data io).events =
      prologue_events self.uniform_data_ (self.uniform_data_.write (ortho_projection data)) data
        (float_to_int (data.DisplaySize.x * io.DisplayFramebufferScale.x))
        (float_to_int (data.DisplaySize.y * io.DisplayFramebufferScale.y)) ++ rest := by
  unfold record_rendering_commands
  rw [if_neg (by omega)]
  simp only
  rw [if_neg (by omega)]
  split
  · exact ⟨[], by simp⟩
  · split
    · exact ⟨[], by simp⟩
    · exact ⟨_, by simp only [List.append_assoc]; rfl⟩

/-- A frame whose draw-list loop runs to its end: the routine goes on with the
uploads and the draws. -/
theorem record_rendering_commands_assembled (dev : device) (self : backend)
    (data : ImDrawData) (io : ImGuiIO) (fbw fbh : Int) (st : loop_state)
    (h : frame_geometry data io = frame_result.assembled fbw fbh st) :
    record_rendering_commands dev self data io =
      ⟨(upload_and_draw dev (after_uniform_write self data) st).status,
        (upload_and_draw dev (after_uniform_write self data) st).self,
        prologue_events self.uniform_data_ (self.uniform_data_.write (ortho_projection data))
            data fbw fbh ++
          st.calls.map event.user_callback ++
          (upload_and_draw dev (after_uniform_write self data) st).events⟩ := by
  obtain ⟨h1, h2, h3, h4, h5, h6, h7⟩ := frame_geometry_assembled data io fbw fbh st h
  subst h5 h6
  unfold record_rendering_commands
  rw [if_neg (by omega)]
  simp only
  rw [if_neg (by omega), if_neg (by omega)]
  simp only [h7]
  rfl

/-- Both uploads go through: the run returns with the new handles kept, and
its effects are the two uploads followed by the draws. -/
theorem upload_and_draw_ok (dev : device) (self : backend) (st : loop_state) (a b : Nat)
    (h1 : dev.create_attrib_buffer = some a) (h2 : dev.map_attrib_buffer = true)
    (h3 : dev.create_index_buffer = some b) (h4 : dev.map_index_buffer = true) :
    upload_and_draw dev self st =
      ⟨run_status.returned, { self with attrib_buffer_ := some a, index_buffer_ := some b },
        attrib_upload_events self.attrib_buffer_ a st.vertex_data ++
        index_upload_events self.index_buffer_ b st.index_data ++
        draw_events { self with attrib_buffer_ := some a, index_buffer_ := some b }
          st.draw_data⟩ := by
  simp [upload_and_draw, upload_attrib_buffer, upload_index_buffer, h1, h2, h3, h4,
    attrib_upload_events, index_upload_events]

/-- A run of the uploads that returns had both creations and both mappings go
through. -/
theorem upload_and_draw_returned (dev : device) (self : backend) (st : loop_state)
    (h : (upload_and_draw dev self st).status = run_status.returned) :
    ∃ a b, dev.create_attrib_buffer = some a ∧ dev.map_attrib_buffer = true ∧
      dev.create_index_buffer = some b ∧ dev.map_index_buffer = true := by
  obtain ⟨ca, ma, ci, mi⟩ := dev
  cases ca <;> cases ma <;> cases ci <;> cases mi <;>
    simp [upload_and_draw, upload_attrib_buffer, upload_index_buffer] at h ⊢

/-- The uploads and draws invoke no callback. -/
theorem upload_and_draw_no_callback (dev : device) (self : backend) (st : loop_state) :
    ∀ e ∈ (upload_and_draw dev self st).events, e.as_callback = none := by
  have hd : ∀ (s : backend) (e : event), e ∈ draw_events s st.draw_data →
      e.as_callback = none := by
    intro s e he
    simp only [draw_events, List.mem_append, List.mem_cons, List.mem_flatMap,
      List.mem_singleton, List.not_mem_nil, or_false] at he
    rcases he with (rfl | rfl) | ⟨d, -, rfl | rfl⟩ <;> rfl
  have hr1 : ∀ e ∈ release_attrib self.attrib_buffer_, e.as_callback = none := by
    intro e he
    cases hh : self.attrib_buffer_ <;> simp [release_attrib, hh] at he
    subst he; rfl
  have hr2 : ∀ e ∈ release_index self.index_buffer_, e.as_callback = none := by
    intro e he
    cases hh : self.index_buffer_ <;> simp [release_index, hh] at he
    subst he; rfl
  obtain ⟨ca, ma, ci, mi⟩ := dev
  intro e he
  cases ca <;> cases ma <;> cases ci <;> cases mi <;>
    simp only [upload_and_draw, upload_attrib_buffer, upload_index_buffer, Option.isSome_none,
      Option.isSome_some, Bool.and_true, Bool.and_false, Bool.false_and, Bool.true_and,
      if_true, if_false, Bool.false_eq_true, List.mem_append, List.mem_cons,
      List.mem_singleton, List.not_mem_nil, or_false] at he <;>
    aesop

/-- The callbacks a completed run of the draw-list loop has invoked, whatever
the sizes of the host arrays. -/
theorem process_cmd_lists_calls (pos : ImVec2) (W H : Int) (lists : List ImDrawList) :
    ∀ (st st2 : loop_state), process_cmd_lists pos W H st lists = some st2 →
      st2.calls = st.calls ++ expected_calls lists := by
  induction lists with
  | nil =>
    intro st st2 h
    simp only [process_cmd_lists, Option.some.injEq] at h
    subst h
    simp [expected_calls]
  | cons l rest ih =>
    intro st st2 h
    obtain ⟨st1, h1, h2⟩ := process_cmd_lists_cons pos W H st st2 l rest h
    obtain ⟨-, -, -, -, -, -, hcc⟩ := process_cmd_list_some pos W H st st1 l h1
    obtain ⟨-, p2⟩ := process_cmds_appended pos W H st.last_index l l.CmdBuffer
      ⟨st.draw_data, 0, st.calls⟩
    rw [ih st1 st2 h2, hcc, p2]
    simp [expected_calls, List.append_assoc]

/-- The write to the uniform channel, the binds and the viewport are neither
callbacks, nor scissor or draw commands, nor buffer operations. -/
theorem prologue_events_kind (u0 u : streamed_uniform) (data : ImDrawData) (fbw fbh : Int) :
    ∀ e ∈ prologue_events u0 u data fbw fbh,
      e.as_callback = none ∧ e.is_scissor_or_draw = false ∧ e.is_attrib_op = false ∧
      e.is_index_op = false ∧ e.is_buffer_bind = false := by
  intro e he
  simp only [prologue_events, List.mem_cons, List.mem_singleton, List.not_mem_nil,
    or_false] at he
  rcases he with rfl | rfl | rfl | rfl <;> exact ⟨rfl, rfl, rfl, rfl, rfl⟩

/-- Callback invocations are neither scissor or draw commands nor buffer
operations. -/
theorem callback_events_kind (calls : List callback_call) :
    ∀ e ∈ calls.map event.user_callback,
      e.is_scissor_or_draw = false ∧ e.is_attrib_op = false ∧
      e.is_index_op = false ∧ e.is_buffer_bind = false ∧ e.is_uniform_write = false := by
  intro e he
  obtain ⟨c, -, rfl⟩ := List.mem_map.mp he
  exact ⟨rfl, rfl, rfl, rfl, rfl⟩

theorem filterMap_callback_events (calls : List callback_call) :
    (calls.map event.user_callback).filterMap event.as_callback = calls := by
  induction calls with
  | nil => rfl
  | cons c cs ih => simp [List.filterMap_cons, event.as_callback, ih]

theorem filterMap_eq_nil_of_forall {α β : Type} (f : α → Option β) (l : List α)
    (h : ∀ a ∈ l, f a = none) : l.filterMap f = [] := by
  induction l with
  | nil => rfl
  | cons a l ih =>
    rw [List.filterMap_cons, h a (List.mem_cons_self _ _)]
    exact ih (fun b hb => h b (List.mem_cons_of_mem _ hb))

/-! ## Callbacks -/

/-- C13: on every frame that is not skipped and whose draw-list loop runs to
its end, the callbacks invoked are, in input order, exactly those of the
sub-commands that carry one, each invoked once with its own draw list and
sub-command; a sub-command with a callback is never among the drawn ones, and
the loop body leaves the batches as they are for it, whatever its clip
rectangle and element count. -/
theorem callbacks_once_in_order (dev : device) (self : backend) (data : ImDrawData)
    (io : ImGuiIO) (fbw fbh : Int) (st : loop_state)
    (h : frame_geometry data io = frame_result.assembled fbw fbh st) :
    (record_rendering_commands dev self data io).events.filterMap event.as_callback =
      expected_calls (ScaleClipRects io.DisplayFramebufferScale data.CmdLists) ∧
    st.draw_data.map draw_data.shape =
      ((flattened_cmds (ScaleClipRects io.DisplayFramebufferScale data.CmdLists)).filter
        (is_drawn data.DisplayPos fbw fbh)).map (cmd_shape data.DisplayPos fbh) ∧
    (∀ c : ImDrawCmd, c.UserCallback ≠ none → is_drawn data.DisplayPos fbw fbh c = false) ∧
    (∀ (li : Nat) (l : ImDrawList) (s : cmd_loop_state) (c : ImDrawCmd) (f : Nat),
      c.UserCallback = some f →
      (process_cmd data.DisplayPos fbw fbh li l s c).draw_data = s.draw_data ∧
      (process_cmd data.DisplayPos fbw fbh li l s c).calls = s.calls ++ [⟨f, l, c⟩]) := by
  obtain ⟨-, -, -, -, -, -, ha⟩ := frame_geometry_assembled data io fbw fbh st h
  have hcalls : st.calls =
      expected_calls (ScaleClipRects io.DisplayFramebufferScale data.CmdLists) := by
    have := process_cmd_lists_calls data.DisplayPos fbw fbh _ _ st ha
    simpa [initial_state] using this
  have hshapes := process_cmd_lists_shapes data.DisplayPos fbw fbh _ _ st ha
  simp only [initial_state, List.map_nil, List.nil_append] at hshapes
  refine ⟨?_, hshapes, ?_, ?_⟩
  · rw [record_rendering_commands_assembled dev self data io fbw fbh st h]
    simp only [List.filterMap_append]
    rw [filterMap_eq_nil_of_forall _ _
        (fun e he => (prologue_events_kind _ _ data fbw fbh e he).1),
      filterMap_callback_events,
      filterMap_eq_nil_of_forall _ _ (upload_and_draw_no_callback dev _ st), hcalls]
    simp
  · intro c hc
    cases hu : c.UserCallback with
    | none => exact absurd hu hc
    | some f => simp [is_drawn, hu]
  · intro li l s c f hf
    rw [process_cmd_callback data.DisplayPos fbw fbh li l s c f hf]
    exact ⟨rfl, rfl⟩

/-- Witness of C13: the triangle followed by the mixed list; the one callback
is invoked once, with the mixed list and its second sub-command. -/
theorem callbacks_once_in_order_witness :
    frame_geometry triangle_mixed_data unit_scale =
      frame_result.assembled 100 100 triangle_mixed_state ∧
    ((record_rendering_commands good_device ui_with_buffers triangle_mixed_data
        unit_scale).events.filterMap event.as_callback =
      expected_calls (ScaleClipRects unit_scale.DisplayFramebufferScale
        triangle_mixed_data.CmdLists) ∧
    triangle_mixed_state.draw_data.map draw_data.shape =
      ((flattened_cmds (ScaleClipRects unit_scale.DisplayFramebufferScale
        triangle_mixed_data.CmdLists)).filter
        (is_drawn triangle_mixed_data.DisplayPos 100 100)).map
          (cmd_shape triangle_mixed_data.DisplayPos 100) ∧
    (∀ c : ImDrawCmd, c.UserCallback ≠ none →
      is_drawn triangle_mixed_data.DisplayPos 100 100 c = false) ∧
    (∀ (li : Nat) (l : ImDrawList) (s : cmd_loop_state) (c : ImDrawCmd) (f : Nat),
      c.UserCallback = some f →
      (process_cmd triangle_mixed_data.DisplayPos 100 100 li l s c).draw_data = s.draw_data ∧
      (process_cmd triangle_mixed_data.DisplayPos 100 100 li l s c).calls =
        s.calls ++ [⟨f, l, c⟩])) ∧
    expected_calls (ScaleClipRects unit_scale.DisplayFramebufferScale
        triangle_mixed_data.CmdLists) = [⟨7, mixed_list, ⟨0, ⟨0, 0, 0, 0⟩, some 7⟩⟩] :=
  have h : frame_geometry triangle_mixed_data unit_scale =
      frame_result.assembled 100 100 triangle_mixed_state := by decide!
  ⟨h, callbacks_once_in_order good_device ui_with_buffers triangle_mixed_data unit_scale
    100 100 triangle_mixed_state h, by decide!⟩

/-- C14, as stated, fails: in the frame of the triangle followed by the mixed
list, the sub-command of the triangle comes first in the input and the
callback sub-command third, yet the callback is effect number 4 of the call
and the draw of the triangle's batch effect number 20. -/
theorem callback_runs_before_earlier_draw :
    (flattened_cmds triangle_mixed_data.CmdLists)[0]? = some ⟨3, ⟨10, 10, 60, 60⟩, none⟩ ∧
    (flattened_cmds triangle_mixed_data.CmdLists)[2]? = some ⟨0, ⟨0, 0, 0, 0⟩, some 7⟩ ∧
    (record_rendering_commands good_device ui_with_buffers triangle_mixed_data
      unit_scale).events[4]? =
      some (event.user_callback ⟨7, mixed_list, ⟨0, ⟨0, 0, 0, 0⟩, some 7⟩⟩) ∧
    (record_rendering_commands good_device ui_with_buffers triangle_mixed_data
      unit_scale).events[19]? = some (event.scissor ⟨10, 40, 50, 50⟩) ∧
    (record_rendering_commands good_device ui_with_buffers triangle_mixed_data
      unit_scale).events[20]? = some (event.draw true 0 3 1) := by
  decide!

/-- C14, amended: the effects of a call whose draw-list loop runs to its end
split into a first part, which holds all callback invocations, in input
order, and no scissor or draw command, and a second part, which holds no
callback invocation: every callback occurs before every scissor and draw
command of the frame. -/
theorem callbacks_precede_draws (dev : device) (self : backend) (data : ImDrawData)
    (io : ImGuiIO) (fbw fbh : Int) (st : loop_state)
    (h : frame_geometry data io = frame_result.assembled fbw fbh st) :
    ∃ first second, (record_rendering_commands dev self data io).events = first ++ second ∧
      first.filterMap event.as_callback =
        expected_calls (ScaleClipRects io.DisplayFramebufferScale data.CmdLists) ∧
      (∀ e ∈ first, e.is_scissor_or_draw = false) ∧
      (∀ e ∈ second, e.as_callback = none) := by
  obtain ⟨-, -, -, -, -, -, ha⟩ := frame_geometry_assembled data io fbw fbh st h
  have hcalls : st.calls =
      expected_calls (ScaleClipRects io.DisplayFramebufferScale data.CmdLists) := by
    have := process_cmd_lists_calls data.DisplayPos fbw fbh _ _ st ha
    simpa [initial_state] using this
  refine ⟨_, _, by rw [record_rendering_commands_assembled dev self data io fbw fbh st h],
    ?_, ?_, upload_and_draw_no_callback dev _ st⟩
  · rw [List.filterMap_append, filterMap_eq_nil_of_forall _ _
        (fun e he => (prologue_events_kind _ _ data fbw fbh e he).1),
      filterMap_callback_events, hcalls]
    rfl
  · intro e he
    rcases List.mem_append.mp he with he | he
    · exact (prologue_events_kind _ _ data fbw fbh e he).2.1
    · exact (callback_events_kind st.calls e he).1

/-- Witness of the amended C14: the triangle followed by the mixed list. -/
theorem callbacks_precede_draws_witness :
    frame_geometry triangle_mixed_data unit_scale =
      frame_result.assembled 100 100 triangle_mixed_state ∧
    ∃ first second, (record_rendering_commands good_device ui_with_buffers
        triangle_mixed_data unit_scale).events = first ++ second ∧
      first.filterMap event.as_callback =
        expected_calls (ScaleClipRects unit_scale.DisplayFramebufferScale
          triangle_mixed_data.CmdLists) ∧
      (∀ e ∈ first, e.is_scissor_or_draw = false) ∧
      (∀ e ∈ second, e.as_callback = none) :=
  have h : frame_geometry triangle_mixed_data unit_scale =
      frame_result.assembled 100 100 triangle_mixed_state := by decide!
  ⟨h, callbacks_precede_draws good_device ui_with_buffers triangle_mixed_data unit_scale
    100 100 triangle_mixed_state h⟩

/-! ## Skipped frames -/

/-- C15: when the reported total index count is zero or negative, the call
returns at once: it has no effect at all (no write to the uniform channel, no
bind, no buffer created, no callback invoked, no scissor or draw command) and
the backend object, with the buffers it holds from the previous frame and the
cursor of the uniform ring, is unchanged. -/
theorem skipped_without_indices (dev : device) (self : backend) (data : ImDrawData)
    (io : ImGuiIO) (h : data.TotalIdxCount ≤ 0) :
    (record_rendering_commands dev self data io).events = [] ∧
    (record_rendering_commands dev self data io).self = self ∧
    (record_rendering_commands dev self data io).status = run_status.returned := by
  rw [record_rendering_commands_no_index dev self data io h]
  exact ⟨rfl, rfl, rfl⟩

/-- Witness of C15: a frame with the UI hidden, while buffers 1 and 2 are
held. -/
theorem skipped_without_indices_witness :
    hidden_data.TotalIdxCount ≤ 0 ∧
    ((record_rendering_commands good_device ui_with_buffers hidden_data unit_scale).events =
        [] ∧
      (record_rendering_commands good_device ui_with_buffers hidden_data unit_scale).self =
        ui_with_buffers ∧
      (record_rendering_commands good_device ui_with_buffers hidden_data unit_scale).status =
        run_status.returned) :=
  ⟨by decide, skipped_without_indices good_device ui_with_buffers hidden_data unit_scale
    (by decide)⟩

/-- C16, as stated, fails: a frame that reports no vertex but three indices is
not skipped; a vertex buffer of 0 bytes and an index buffer of 6 bytes are
created and the buffers of the previous frame are released. -/
theorem zero_vertices_not_skipped :
    no_vertex_data.TotalVtxCount = 0 ∧
    (record_rendering_commands good_device ui_with_buffers no_vertex_data
      unit_scale).events.filter event.is_attrib_op =
      [event.create_attrib_buffer 0 (some 3), event.release_attrib_buffer 1,
        event.map_attrib_buffer (some 3) 0 0, event.copy_to_attrib_buffer [] 0,
        event.flush_attrib_buffer (some 3) 0 0, event.unmap_attrib_buffer (some 3)] ∧
    (record_rendering_commands good_device ui_with_buffers no_vertex_data
      unit_scale).events.filter event.is_index_op =
      [event.create_index_buffer 6 (some 4), event.release_index_buffer 2,
        event.map_index_buffer (some 4) 0 6, event.copy_to_index_buffer [0, 0, 0] 6,
        event.flush_index_buffer (some 4) 0 6, event.unmap_index_buffer (some 4)] ∧
    (record_rendering_commands good_device ui_with_buffers no_vertex_data
      unit_scale).events.filter event.is_buffer_bind =
      [event.bind_index_buffer (some 4) 16, event.bind_attrib_buffer (some 3) 0 0] := by
  decide!

/-- C16, amended: the reported total vertex count plays no part in skipping a
frame.  A frame that reports no index is skipped entirely (no effect, backend
object unchanged) whatever vertex count it reports; a frame that reports no
vertex but a positive number of indices, on a framebuffer that is not empty,
is not skipped: the call starts with the write to the uniform channel, the
binds and the viewport. -/
theorem skip_ignores_vertex_count (dev : device) (self : backend) (data : ImDrawData)
    (io : ImGuiIO) :
    (data.TotalIdxCount ≤ 0 → ∀ v : Int,
      record_rendering_commands dev self { data with TotalVtxCount := v } io =
        ⟨run_status.returned, self, []⟩) ∧
    (0 < data.TotalIdxCount →
      0 < float_to_int (data.DisplaySize.x * io.DisplayFramebufferScale.x) →
      0 < float_to_int (data.DisplaySize.y * io.DisplayFramebufferScale.y) →
      ∃ rest, (record_rendering_commands dev self { data with TotalVtxCount := 0 } io).events =
        prologue_events self.uniform_data_
          (self.uniform_data_.write (ortho_projection { data with TotalVtxCount := 0 }))
          { data with TotalVtxCount := 0 }
          (float_to_int (data.DisplaySize.x * io.DisplayFramebufferScale.x))
          (float_to_int (data.DisplaySize.y * io.DisplayFramebufferScale.y)) ++ rest) :=
  ⟨fun h v => record_rendering_commands_no_index dev self { data with TotalVtxCount := v } io h,
    fun h1 h2 h3 =>
      record_rendering_commands_prologue dev self { data with TotalVtxCount := 0 } io h1 h2 h3⟩

/-- Witness of the amended C16: the hidden frame is skipped, the frame that
reports no vertex and three indices is not. -/
theorem skip_ignores_vertex_count_witness :
    (hidden_data.TotalIdxCount ≤ 0 ∧
      record_rendering_commands good_device ui_with_buffers
        { hidden_data with TotalVtxCount := 0 } unit_scale =
        ⟨run_status.returned, ui_with_buffers, []⟩) ∧
    (0 < no_vertex_data.TotalIdxCount ∧
      0 < float_to_int
        (no_vertex_data.DisplaySize.x * unit_scale.DisplayFramebufferScale.x) ∧
      0 < float_to_int
        (no_vertex_data.DisplaySize.y * unit_scale.DisplayFramebufferScale.y) ∧
      ∃ rest, (record_rendering_commands good_device ui_with_buffers
          { no_vertex_data with TotalVtxCount := 0 } unit_scale).events =
        prologue_events ui_with_buffers.uniform_data_
          (ui_with_buffers.uniform_data_.write
            (ortho_projection { no_vertex_data with TotalVtxCount := 0 }))
          { no_vertex_data with TotalVtxCount := 0 }
          (float_to_int (no_vertex_data.DisplaySize.x * unit_scale.DisplayFramebufferScale.x))
          (float_to_int (no_vertex_data.DisplaySize.y * unit_scale.DisplayFramebufferScale.y))
          ++ rest) :=
  ⟨⟨by decide, (skip_ignores_vertex_count good_device ui_with_buffers hidden_data
      unit_scale).1 (by decide) 0⟩,
    by decide, by decide!, by decide!,
    (skip_ignores_vertex_count good_device ui_with_buffers no_vertex_data unit_scale).2
      (by decide) (by decide!) (by decide!)⟩

/-- C17: whenever the framebuffer width, the truncation `(int)` of the `float`
product DisplaySize.x * scale.x, or the framebuffer height, the truncation of
DisplaySize.y * scale.y, is zero or negative, the call has no effect at all
(no buffer created, no draw, no write to the uniform channel) and leaves the
backend object unchanged, whatever geometry the draw data holds. -/
theorem skipped_when_minimized (dev : device) (self : backend) (data : ImDrawData)
    (io : ImGuiIO)
    (h : float_to_int (data.DisplaySize.x * io.DisplayFramebufferScale.x) ≤ 0 ∨
      float_to_int (data.DisplaySize.y * io.DisplayFramebufferScale.y) ≤ 0) :
    (record_rendering_commands dev self data io).events = [] ∧
    (record_rendering_commands dev self data io).self = self ∧
    (record_rendering_commands dev self data io).status = run_status.returned := by
  rw [record_rendering_commands_no_framebuffer dev self data io h]
  exact ⟨rfl, rfl, rfl⟩

/-- Witness of C17: the quad and the triangle on a 0 x 0 display. -/
theorem skipped_when_minimized_witness :
    (float_to_int (minimized_data.DisplaySize.x * unit_scale.DisplayFramebufferScale.x) ≤ 0 ∨
      float_to_int
        (minimized_data.DisplaySize.y * unit_scale.DisplayFramebufferScale.y) ≤ 0) ∧
    ((record_rendering_commands good_device ui_with_buffers minimized_data
        unit_scale).events = [] ∧
      (record_rendering_commands good_device ui_with_buffers minimized_data
        unit_scale).self = ui_with_buffers ∧
      (record_rendering_commands good_device ui_with_buffers minimized_data
        unit_scale).status = run_status.returned) ∧
    minimized_data.CmdLists = [quad_list, triangle_list] :=
  have h : float_to_int
        (minimized_data.DisplaySize.x * unit_scale.DisplayFramebufferScale.x) ≤ 0 ∨
      float_to_int
        (minimized_data.DisplaySize.y * unit_scale.DisplayFramebufferScale.y) ≤ 0 :=
    Or.inl (by decide!)
  ⟨h, skipped_when_minimized good_device ui_with_buffers minimized_data unit_scale h, rfl⟩

/-- The framebuffer size follows the `float` product: for a display 100 units
wide at the scale `0.01f` the product rounds to `1.0f`, so the width is 1 and
the framebuffer guard lets the frame through, while the product of the two
numbers, 0.99999998, truncates to 0. -/
theorem rounded_product_width :
    float_to_int ((100 : float) * round_to_float (1 / 100)) = 1 ∧
    truncate ((100 : ℚ) * (round_to_float (1 / 100)).value) = 0 := by
  decide!

/-! ## The transient buffers -/

theorem release_attrib_kind (held : Option Nat) :
    ∀ e ∈ release_attrib held, e.is_attrib_op = true ∧ e.is_index_op = false := by
  intro e he
  cases held with
  | none => simp [release_attrib] at he
  | some old =>
    simp only [release_attrib, List.mem_singleton] at he
    subst he
    exact ⟨rfl, rfl⟩

theorem release_index_kind (held : Option Nat) :
    ∀ e ∈ release_index held, e.is_attrib_op = false ∧ e.is_index_op = true := by
  intro e he
  cases held with
  | none => simp [release_index] at he
  | some old =>
    simp only [release_index, List.mem_singleton] at he
    subst he
    exact ⟨rfl, rfl⟩

theorem attrib_upload_events_kind (held : Option Nat) (a : Nat) (vd : List ImDrawVert) :
    ∀ e ∈ attrib_upload_events held a vd, e.is_attrib_op = true ∧ e.is_index_op = false := by
  intro e he
  simp only [attrib_upload_events, List.mem_append, List.mem_cons, List.mem_singleton,
    List.not_mem_nil, or_false] at he
  rcases he with (rfl | he) | rfl | rfl | rfl | rfl
  · exact ⟨rfl, rfl⟩
  · exact release_attrib_kind held e he
  all_goals exact ⟨rfl, rfl⟩

theorem index_upload_events_kind (held : Option Nat) (b : Nat) (id : List Nat) :
    ∀ e ∈ index_upload_events held b id, e.is_attrib_op = false ∧ e.is_index_op = true := by
  intro e he
  simp only [index_upload_events, List.mem_append, List.mem_cons, List.mem_singleton,
    List.not_mem_nil, or_false] at he
  rcases he with (rfl | he) | rfl | rfl | rfl | rfl
  · exact ⟨rfl, rfl⟩
  · exact release_index_kind held e he
  all_goals exact ⟨rfl, rfl⟩

theorem draw_events_kind (s : backend) (dd : List draw_data) :
    ∀ e ∈ draw_events s dd, e.is_attrib_op = false ∧ e.is_index_op = false := by
  intro e he
  simp only [draw_events, List.mem_append, List.mem_cons, List.mem_flatMap,
    List.mem_singleton, List.not_mem_nil, or_false] at he
  rcases he with (rfl | rfl) | ⟨d, -, rfl | rfl⟩ <;> exact ⟨rfl, rfl⟩

theorem filter_eq_nil_of_forall {α : Type} (p : α → Bool) (l : List α)
    (h : ∀ a ∈ l, p a = false) : l.filter p = [] := by
  rw [List.filter_eq_nil_iff]
  intro a ha
  rw [h a ha]
  exact Bool.false_ne_true

/-- The effects of a frame that is not skipped and on which the call returns:
the write to the uniform channel, the binds and the viewport; the callbacks;
the upload of the vertices; the upload of the indices; the buffer binds and
the draws. -/
theorem record_rendering_commands_returned (dev : device) (self : backend)
    (data : ImDrawData) (io : ImGuiIO) (fbw fbh : Int) (st : loop_state)
    (h : frame_geometry data io = frame_result.assembled fbw fbh st)
    (hret : (record_rendering_commands dev self data io).status = run_status.returned) :
    ∃ a b, dev.create_attrib_buffer = some a ∧ dev.create_index_buffer = some b ∧
      (record_rendering_commands dev self data io).self =
        { after_uniform_write self data with
          attrib_buffer_ := some a, index_buffer_ := some b } ∧
      (record_rendering_commands dev self data io).events =
        prologue_events self.uniform_data_ (self.uniform_data_.write (ortho_projection data))
            data fbw fbh ++
          st.calls.map event.user_callback ++
          (attrib_upload_events self.attrib_buffer_ a st.vertex_data ++
            index_upload_events self.index_buffer_ b st.index_data ++
            draw_events { after_uniform_write self data with
              attrib_buffer_ := some a, index_buffer_ := some b } st.draw_data) := by
  rw [record_rendering_commands_assembled dev self data io fbw fbh st h] at hret ⊢
  simp only at hret
  obtain ⟨a, b, h1, h2, h3, h4⟩ := upload_and_draw_returned dev _ st hret
  refine ⟨a, b, h1, h3, ?_, ?_⟩
  · rw [upload_and_draw_ok dev _ st a b h1 h2 h3 h4]
  · rw [upload_and_draw_ok dev _ st a b h1 h2 h3 h4]
    rfl

/-- C18: on every frame that is not skipped and on which the call returns,
the operations on vertex buffers are exactly: one creation, of 20 *
TotalVtxCount bytes, the release of the buffer held before, and the mapping,
copy and flush of the range that starts at 0 and has that size, followed by
the unmap; the operations on index buffers are the same with 2 *
TotalIdxCount bytes.  The copies carry the whole host arrays. -/
theorem buffers_sized_to_totals (dev : device) (self : backend) (data : ImDrawData)
    (io : ImGuiIO) (fbw fbh : Int) (st : loop_state)
    (h : frame_geometry data io = frame_result.assembled fbw fbh st)
    (hret : (record_rendering_commands dev self data io).status = run_status.returned) :
    ∃ a b,
      (record_rendering_commands dev self data io).events.filter event.is_attrib_op =
        [event.create_attrib_buffer (20 * data.TotalVtxCount.toNat) (some a)] ++
        release_attrib self.attrib_buffer_ ++
        [event.map_attrib_buffer (some a) 0 (20 * data.TotalVtxCount.toNat),
         event.copy_to_attrib_buffer st.vertex_data (20 * data.TotalVtxCount.toNat),
         event.flush_attrib_buffer (some a) 0 (20 * data.TotalVtxCount.toNat),
         event.unmap_attrib_buffer (some a)] ∧
      (record_rendering_commands dev self data io).events.filter event.is_index_op =
        [event.create_index_buffer (2 * data.TotalIdxCount.toNat) (some b)] ++
        release_index self.index_buffer_ ++
        [event.map_index_buffer (some b) 0 (2 * data.TotalIdxCount.toNat),
         event.copy_to_index_buffer st.index_data (2 * data.TotalIdxCount.toNat),
         event.flush_index_buffer (some b) 0 (2 * data.TotalIdxCount.toNat),
         event.unmap_index_buffer (some b)] ∧
      st.vertex_data.length = data.TotalVtxCount.toNat ∧
      st.index_data.length = data.TotalIdxCount.toNat := by
  obtain ⟨a, b, -, -, -, hev⟩ :=
    record_rendering_commands_returned dev self data io fbw fbh st h hret
  obtain ⟨-, -, -, -, -, -, ha⟩ := frame_geometry_assembled data io fbw fbh st h
  obtain ⟨g1, g2⟩ := process_cmd_lists_lengths data.DisplayPos fbw fbh _ _ st ha
  simp only [initial_state, List.length_replicate] at g1 g2
  refine ⟨a, b, ?_, ?_, g1, g2⟩
  · rw [hev]
    simp only [List.filter_append]
    rw [filter_eq_nil_of_forall _ _
        (fun e he => (prologue_events_kind _ _ data fbw fbh e he).2.2.1),
      filter_eq_nil_of_forall _ _ (fun e he => (callback_events_kind st.calls e he).2.1),
      List.filter_eq_self.mpr (fun e he => (attrib_upload_events_kind _ a _ e he).1),
      filter_eq_nil_of_forall _ _ (fun e he => (index_upload_events_kind _ b _ e he).1),
      filter_eq_nil_of_forall _ _ (fun e he => (draw_events_kind _ _ e he).1)]
    simp [attrib_upload_events, sizeof_ImDrawVert, g1]
  · rw [hev]
    simp only [List.filter_append]
    rw [filter_eq_nil_of_forall _ _
        (fun e he => (prologue_events_kind _ _ data fbw fbh e he).2.2.2.1),
      filter_eq_nil_of_forall _ _ (fun e he => (callback_events_kind st.calls e he).2.2.1),
      filter_eq_nil_of_forall _ _ (fun e he => (attrib_upload_events_kind _ a _ e he).2),
      List.filter_eq_self.mpr (fun e he => (index_upload_events_kind _ b _ e he).2),
      filter_eq_nil_of_forall _ _ (fun e he => (draw_events_kind _ _ e he).2)]
    simp [index_upload_events, sizeof_ImDrawIdx, g2]

/-- Witness of C18: the quad and the triangle, 7 vertices and 9 indices:
buffers of 140 and 18 bytes. -/
theorem buffers_sized_to_totals_witness :
    (frame_geometry quad_triangle_data unit_scale =
        frame_result.assembled 100 100 quad_triangle_state ∧
      (record_rendering_commands good_device ui_with_buffers quad_triangle_data
        unit_scale).status = run_status.returned) ∧
    (∃ a b,
      (record_rendering_commands good_device ui_with_buffers quad_triangle_data
          unit_scale).events.filter event.is_attrib_op =
        [event.create_attrib_buffer (20 * quad_triangle_data.TotalVtxCount.toNat) (some a)] ++
        release_attrib ui_with_buffers.attrib_buffer_ ++
        [event.map_attrib_buffer (some a) 0 (20 * quad_triangle_data.TotalVtxCount.toNat),
         event.copy_to_attrib_buffer quad_triangle_state.vertex_data
           (20 * quad_triangle_data.TotalVtxCount.toNat),
         event.flush_attrib_buffer (some a) 0 (20 * quad_triangle_data.TotalVtxCount.toNat),
         event.unmap_attrib_buffer (some a)] ∧
      (record_rendering_commands good_device ui_with_buffers quad_triangle_data
          unit_scale).events.filter event.is_index_op =
        [event.create_index_buffer (2 * quad_triangle_data.TotalIdxCount.toNat) (some b)] ++
        release_index ui_with_buffers.index_buffer_ ++
        [event.map_index_buffer (some b) 0 (2 * quad_triangle_data.TotalIdxCount.toNat),
         event.copy_to_index_buffer quad_triangle_state.index_data
           (2 * quad_triangle_data.TotalIdxCount.toNat),
         event.flush_index_buffer (some b) 0 (2 * quad_triangle_data.TotalIdxCount.toNat),
         event.unmap_index_buffer (some b)] ∧
      quad_triangle_state.vertex_data.length = quad_triangle_data.TotalVtxCount.toNat ∧
      quad_triangle_state.index_data.length = quad_triangle_data.TotalIdxCount.toNat) ∧
    20 * quad_triangle_data.TotalVtxCount.toNat = 140 ∧
    2 * quad_triangle_data.TotalIdxCount.toNat = 18 :=
  have h : frame_geometry quad_triangle_data unit_scale =
      frame_result.assembled 100 100 quad_triangle_state := by decide!
  have hret : (record_rendering_commands good_device ui_with_buffers quad_triangle_data
      unit_scale).status = run_status.returned := by decide!
  ⟨⟨h, hret⟩, buffers_sized_to_totals good_device ui_with_buffers quad_triangle_data
    unit_scale 100 100 quad_triangle_state h hret, by decide, by decide⟩

/-- C19, as stated, fails: on the frame of the quad and the triangle, with
buffers 1 and 2 held from the previous frame, the previous vertex buffer is
released right after the creation of the new one, before the new one is
mapped, filled, flushed and unmapped; likewise for the index buffer. -/
theorem previous_buffer_released_before_fill :
    (record_rendering_commands good_device ui_with_buffers quad_triangle_data
      unit_scale).events.filter event.is_attrib_op =
      [event.create_attrib_buffer 140 (some 3), event.release_attrib_buffer 1,
        event.map_attrib_buffer (some 3) 0 140,
        event.copy_to_attrib_buffer quad_triangle_state.vertex_data 140,
        event.flush_attrib_buffer (some 3) 0 140, event.unmap_attrib_buffer (some 3)] ∧
    (record_rendering_commands good_device ui_with_buffers quad_triangle_data
      unit_scale).events.filter event.is_index_op =
      [event.create_index_buffer 18 (some 4), event.release_index_buffer 2,
        event.map_index_buffer (some 4) 0 18,
        event.copy_to_index_buffer [0, 1, 2, 0, 2, 3, 4, 5, 6] 18,
        event.flush_index_buffer (some 4) 0 18, event.unmap_index_buffer (some 4)] := by
  decide!

/-- C19, amended: on every frame that is not skipped and on which the call
returns, the buffer operations come in this order, one right after the other:
creation of the new vertex buffer, release of the vertex buffer held from the
previous frame (if one is held), then mapping, copy, flush and unmap of the
new vertex buffer; then the same six steps for the index buffer.  The release
of a previous buffer thus follows the creation of the new one and precedes its
filling. -/
theorem buffer_replacement_order (dev : device) (self : backend) (data : ImDrawData)
    (io : ImGuiIO) (fbw fbh : Int) (st : loop_state)
    (h : frame_geometry data io = frame_result.assembled fbw fbh st)
    (hret : (record_rendering_commands dev self data io).status = run_status.returned) :
    ∃ (a b va ia : Nat) (first last : List event),
      (record_rendering_commands dev self data io).events =
        first ++
        ([event.create_attrib_buffer va (some a)] ++ release_attrib self.attrib_buffer_ ++
          [event.map_attrib_buffer (some a) 0 va, event.copy_to_attrib_buffer st.vertex_data va,
           event.flush_attrib_buffer (some a) 0 va, event.unmap_attrib_buffer (some a)]) ++
        ([event.create_index_buffer ia (some b)] ++ release_index self.index_buffer_ ++
          [event.map_index_buffer (some b) 0 ia, event.copy_to_index_buffer st.index_data ia,
           event.flush_index_buffer (some b) 0 ia, event.unmap_index_buffer (some b)]) ++
        last ∧
      (∀ old, self.attrib_buffer_ = some old →
        release_attrib self.attrib_buffer_ = [event.release_attrib_buffer old]) ∧
      (∀ old, self.index_buffer_ = some old →
        release_index self.index_buffer_ = [event.release_index_buffer old]) ∧
      (∀ e ∈ first, e.is_attrib_op = false ∧ e.is_index_op = false) ∧
      (∀ e ∈ last, e.is_attrib_op = false ∧ e.is_index_op = false) := by
  obtain ⟨a, b, -, -, -, hev⟩ :=
    record_rendering_commands_returned dev self data io fbw fbh st h hret
  refine ⟨a, b, sizeof_ImDrawVert * st.vertex_data.length,
    sizeof_ImDrawIdx * st.index_data.length,
    prologue_events self.uniform_data_ (self.uniform_data_.write (ortho_projection data))
      data fbw fbh ++ st.calls.map event.user_callback,
    draw_events { after_uniform_write self data with
      attrib_buffer_ := some a, index_buffer_ := some b } st.draw_data,
    ?_, ?_, ?_, ?_, draw_events_kind _ _⟩
  · rw [hev]
    simp only [attrib_upload_events, index_upload_events, List.append_assoc]
  · intro old ho
    rw [ho]
    rfl
  · intro old ho
    rw [ho]
    rfl
  · intro e he
    rcases List.mem_append.mp he with he | he
    · exact ⟨(prologue_events_kind _ _ data fbw fbh e he).2.2.1,
        (prologue_events_kind _ _ data fbw fbh e he).2.2.2.1⟩
    · exact ⟨(callback_events_kind st.calls e he).2.1,
        (callback_events_kind st.calls e he).2.2.1⟩

/-- Witness of the amended C19: the quad and the triangle with buffers 1 and 2
held. -/
theorem buffer_replacement_order_witness :
    (frame_geometry quad_triangle_data unit_scale =
        frame_result.assembled 100 100 quad_triangle_state ∧
      (record_rendering_commands good_device ui_with_buffers quad_triangle_data
        unit_scale).status = run_status.returned) ∧
    ∃ (a b va ia : Nat) (first last : List event),
      (record_rendering_commands good_device ui_with_buffers quad_triangle_data
          unit_scale).events =
        first ++
        ([event.create_attrib_buffer va (some a)] ++
          release_attrib ui_with_buffers.attrib_buffer_ ++
          [event.map_attrib_buffer (some a) 0 va,
           event.copy_to_attrib_buffer quad_triangle_state.vertex_data va,
           event.flush_attrib_buffer (some a) 0 va, event.unmap_attrib_buffer (some a)]) ++
        ([event.create_index_buffer ia (some b)] ++
          release_index ui_with_buffers.index_buffer_ ++
          [event.map_index_buffer (some b) 0 ia,
           event.copy_to_index_buffer quad_triangle_state.index_data ia,
           event.flush_index_buffer (some b) 0 ia, event.unmap_index_buffer (some b)]) ++
        last ∧
      (∀ old, ui_with_buffers.attrib_buffer_ = some old →
        release_attrib ui_with_buffers.attrib_buffer_ = [event.release_attrib_buffer old]) ∧
      (∀ old, ui_with_buffers.index_buffer_ = some old →
        release_index ui_with_buffers.index_buffer_ = [event.release_index_buffer old]) ∧
      (∀ e ∈ first, e.is_attrib_op = false ∧ e.is_index_op = false) ∧
      (∀ e ∈ last, e.is_attrib_op = false ∧ e.is_index_op = false) :=
  have h : frame_geometry quad_triangle_data unit_scale =
      frame_result.assembled 100 100 quad_triangle_state := by decide!
  have hret : (record_rendering_commands good_device ui_with_buffers quad_triangle_data
      unit_scale).status = run_status.returned := by decide!
  ⟨⟨h, hret⟩, buffer_replacement_order good_device ui_with_buffers quad_triangle_data
    unit_scale 100 100 quad_triangle_state h hret⟩

/-! ## Failing uploads -/

/-- When one of the two mappings returns `nullptr`, the uploads do not return,
and nothing they did up to that point is a scissor, a draw or a buffer bind. -/
theorem upload_and_draw_null_mapping (dev : device) (self : backend) (st : loop_state)
    (hnull : dev.map_attrib_buffer = false ∨ dev.map_index_buffer = false) :
    (upload_and_draw dev self st).status = run_status.aborted ∧
    ∀ e ∈ (upload_and_draw dev self st).events,
      e.is_scissor_or_draw = false ∧ e.is_buffer_bind = false := by
  have hr1 : ∀ e ∈ release_attrib self.attrib_buffer_,
      e.is_scissor_or_draw = false ∧ e.is_buffer_bind = false := by
    intro e he
    cases hh : self.attrib_buffer_ <;> simp [release_attrib, hh] at he
    subst he; exact ⟨rfl, rfl⟩
  have hr2 : ∀ e ∈ release_index self.index_buffer_,
      e.is_scissor_or_draw = false ∧ e.is_buffer_bind = false := by
    intro e he
    cases hh : self.index_buffer_ <;> simp [release_index, hh] at he
    subst he; exact ⟨rfl, rfl⟩
  obtain ⟨ca, ma, ci, mi⟩ := dev
  simp only at hnull
  cases ca <;> cases ma <;> cases ci <;> cases mi <;>
    simp only [Bool.true_eq_false, or_self, or_false, false_or] at hnull <;>
    refine ⟨by simp [upload_and_draw, upload_attrib_buffer, upload_index_buffer], ?_⟩ <;>
    intro e he <;>
    simp only [upload_and_draw, upload_attrib_buffer, upload_index_buffer, Option.isSome_none,
      Option.isSome_some, Bool.and_true, Bool.and_false, Bool.false_and, Bool.true_and,
      if_true, if_false, Bool.false_eq_true, List.mem_append, List.mem_cons,
      List.mem_singleton, List.not_mem_nil, or_false] at he <;>
    aesop

/-- C20, as stated, fails: when the mapping of the new vertex buffer returns
`nullptr` the call does not return to `main` with an error; the process is
aborted inside it and the frame loop never reaches the end of the frame. -/
theorem null_mapping_aborts_process :
    (record_rendering_commands null_mapping_device ui_with_buffers quad_triangle_data
      unit_scale).status = run_status.aborted ∧
    (main_draw_ui null_mapping_device ui_with_buffers true quad_triangle_data unit_scale).1 =
      run_status.aborted ∧
    main_event.end_frame ∉
      (main_draw_ui null_mapping_device ui_with_buffers true quad_triangle_data unit_scale).2 := by
  decide!

/-- C20, amended: when the mapping of the new vertex buffer or of the new
index buffer returns `nullptr`, on a frame that is not skipped, the assertion
that follows the mapping fails: the call does not return (there is no error
result, the routine is `void`), the process is aborted inside it, none of its
effects is a scissor, a draw or a buffer bind, and the frame loop of `main`
does not reach the end of the pass, the submission or the end of the frame. -/
theorem null_mapping_is_fatal (dev : device) (self : backend) (data : ImDrawData)
    (io : ImGuiIO) (fbw fbh : Int) (st : loop_state) (uploaded : Bool)
    (h : frame_geometry data io = frame_result.assembled fbw fbh st)
    (hnull : dev.map_attrib_buffer = false ∨ dev.map_index_buffer = false) :
    (record_rendering_commands dev self data io).status = run_status.aborted ∧
    (∀ e ∈ (record_rendering_commands dev self data io).events,
      e.is_scissor_or_draw = false ∧ e.is_buffer_bind = false) ∧
    (main_draw_ui dev self uploaded data io).1 = run_status.aborted ∧
    main_event.cmd_end_pass ∉ (main_draw_ui dev self uploaded data io).2 ∧
    main_event.submit_cmd_buffers ∉ (main_draw_ui dev self uploaded data io).2 ∧
    main_event.end_frame ∉ (main_draw_ui dev self uploaded data io).2 := by
  obtain ⟨hs, hev⟩ := upload_and_draw_null_mapping dev (after_uniform_write self data) st hnull
  have hstatus : (record_rendering_commands dev self data io).status = run_status.aborted := by
    rw [record_rendering_commands_assembled dev self data io fbw fbh st h]
    exact hs
  refine ⟨hstatus, ?_, ?_⟩
  · rw [record_rendering_commands_assembled dev self data io fbw fbh st h]
    intro e he
    simp only [List.mem_append] at he
    rcases he with (he | he) | he
    · exact ⟨(prologue_events_kind _ _ data fbw fbh e he).2.1,
        (prologue_events_kind _ _ data fbw fbh e he).2.2.2.2⟩
    · exact ⟨(callback_events_kind st.calls e he).1, (callback_events_kind st.calls e he).2.2.2.1⟩
    · exact hev e he
  · unfold main_draw_ui
    simp only [hstatus]
    cases uploaded <;> simp

/-- Witness of the amended C20: the quad and the triangle on a device whose
vertex-buffer mapping returns `nullptr`. -/
theorem null_mapping_is_fatal_witness :
    (frame_geometry quad_triangle_data unit_scale =
        frame_result.assembled 100 100 quad_triangle_state ∧
      (null_mapping_device.map_attrib_buffer = false ∨
        null_mapping_device.map_index_buffer = false)) ∧
    ((record_rendering_commands null_mapping_device ui_with_buffers quad_triangle_data
        unit_scale).status = run_status.aborted ∧
    (∀ e ∈ (record_rendering_commands null_mapping_device ui_with_buffers quad_triangle_data
        unit_scale).events,
      e.is_scissor_or_draw = false ∧ e.is_buffer_bind = false) ∧
    (main_draw_ui null_mapping_device ui_with_buffers true quad_triangle_data unit_scale).1 =
      run_status.aborted ∧
    main_event.cmd_end_pass ∉
      (main_draw_ui null_mapping_device ui_with_buffers true quad_triangle_data unit_scale).2 ∧
    main_event.submit_cmd_buffers ∉
      (main_draw_ui null_mapping_device ui_with_buffers true quad_triangle_data unit_scale).2 ∧
    main_event.end_frame ∉
      (main_draw_ui null_mapping_device ui_with_buffers true quad_triangle_data
        unit_scale).2) :=
  have h : frame_geometry quad_triangle_data unit_scale =
      frame_result.assembled 100 100 quad_triangle_state := by decide!
  ⟨⟨h, Or.inl rfl⟩, null_mapping_is_fatal null_mapping_device ui_with_buffers
    quad_triangle_data unit_scale 100 100 quad_triangle_state true h (Or.inl rfl)⟩

/-! ## The draw commands -/

/-- The uploads are neither writes to the uniform channel, nor resource or
buffer binds, nor scissor or draw commands. -/
theorem upload_events_kind (ha hb : Option Nat) (a b : Nat) (vd : List ImDrawVert)
    (id : List Nat) :
    ∀ e ∈ attrib_upload_events ha a vd ++ index_upload_events hb b id,
      e.is_uniform_write = false ∧ e.is_resource_bind = false ∧
      e.is_buffer_bind = false ∧ e.is_scissor_or_draw = false ∧ e.is_draw = false := by
  intro e he
  cases ha <;> cases hb <;>
    simp only [attrib_upload_events, index_upload_events, release_attrib, release_index,
      List.mem_append, List.mem_cons, List.mem_singleton, List.not_mem_nil, or_false,
      false_or] at he <;>
    aesop

/-- The write to the uniform channel, the binds and the viewport are no draw
commands; the callbacks are neither draw commands nor resource binds. -/
theorem prologue_and_callbacks_no_draw (u0 u : streamed_uniform) (data : ImDrawData)
    (fbw fbh : Int) (calls : List callback_call) :
    (∀ e ∈ prologue_events u0 u data fbw fbh, e.is_draw = false) ∧
    (∀ e ∈ calls.map event.user_callback, e.is_draw = false ∧ e.is_resource_bind = false) := by
  constructor
  · intro e he
    simp only [prologue_events, List.mem_cons, List.mem_singleton, List.not_mem_nil,
      or_false] at he
    rcases he with rfl | rfl | rfl | rfl <;> rfl
  · intro e he
    obtain ⟨c, -, rfl⟩ := List.mem_map.mp he
    exact ⟨rfl, rfl⟩

/-- The scissors and draws of the batches hold one draw per batch. -/
theorem filter_is_draw_batch_commands (dd : List draw_data) :
    ((dd.flatMap batch_commands).filter event.is_draw).length = dd.length := by
  induction dd with
  | nil => rfl
  | cons d dd ih =>
    simp only [List.flatMap_cons, List.filter_append, List.length_append, ih, List.length_cons]
    simp [batch_commands, List.filter_cons, event.is_draw]
    omega

/-- C21: on every frame that is not skipped and on which the call returns,
the effects end with the bind of the index buffer and the bind of the vertex
buffer followed by, for every batch in order, the scissor of the batch and
right after it the indexed draw of `nelem` elements from `first_elem`, one
instance; nothing before the two binds is a scissor, a draw or a buffer bind,
so there are as many draws as batches. -/
theorem draws_follow_batches (dev : device) (self : backend) (data : ImDrawData)
    (io : ImGuiIO) (fbw fbh : Int) (st : loop_state)
    (h : frame_geometry data io = frame_result.assembled fbw fbh st)
    (hret : (record_rendering_commands dev self data io).status = run_status.returned) :
    ∃ (a b : Nat) (first : List event),
      (record_rendering_commands dev self data io).events =
        first ++
        [event.bind_index_buffer (some b) 16, event.bind_attrib_buffer (some a) 0 0] ++
        st.draw_data.flatMap (fun d =>
          [event.scissor d.scissor, event.draw true d.first_elem d.nelem 1]) ∧
      (∀ e ∈ first, e.is_scissor_or_draw = false ∧ e.is_buffer_bind = false) ∧
      ((record_rendering_commands dev self data io).events.filter event.is_draw).length =
        st.draw_data.length := by
  obtain ⟨a, b, -, -, -, hev⟩ :=
    record_rendering_commands_returned dev self data io fbw fbh st h hret
  have hfirst : ∀ e ∈ prologue_events self.uniform_data_
      (self.uniform_data_.write (ortho_projection data)) data fbw fbh ++
      st.calls.map event.user_callback ++
      (attrib_upload_events self.attrib_buffer_ a st.vertex_data ++
        index_upload_events self.index_buffer_ b st.index_data),
      e.is_scissor_or_draw = false ∧ e.is_buffer_bind = false ∧ e.is_draw = false := by
    intro e he
    rcases List.mem_append.mp he with he | he
    · rcases List.mem_append.mp he with he | he
      · exact ⟨(prologue_events_kind _ _ data fbw fbh e he).2.1,
          (prologue_events_kind _ _ data fbw fbh e he).2.2.2.2,
          (prologue_and_callbacks_no_draw _ _ data fbw fbh st.calls).1 e he⟩
      · exact ⟨(callback_events_kind st.calls e he).1,
          (callback_events_kind st.calls e he).2.2.2.1,
          ((prologue_and_callbacks_no_draw self.uniform_data_ self.uniform_data_ data fbw fbh
            st.calls).2 e he).1⟩
    · have := upload_events_kind _ _ a b _ _ e he
      exact ⟨this.2.2.2.1, this.2.2.1, this.2.2.2.2⟩
  have hsplit : (record_rendering_commands dev self data io).events =
      (prologue_events self.uniform_data_
        (self.uniform_data_.write (ortho_projection data)) data fbw fbh ++
        st.calls.map event.user_callback ++
        (attrib_upload_events self.attrib_buffer_ a st.vertex_data ++
          index_upload_events self.index_buffer_ b st.index_data)) ++
      [event.bind_index_buffer (some b) 16, event.bind_attrib_buffer (some a) 0 0] ++
      st.draw_data.flatMap batch_commands := by
    rw [hev]
    simp only [draw_events, sizeof_ImDrawIdx, List.append_assoc]
    rfl
  refine ⟨a, b, _, hsplit, fun e he => ⟨(hfirst e he).1, (hfirst e he).2.1⟩, ?_⟩
  rw [hsplit, List.filter_append, List.filter_append,
    filter_eq_nil_of_forall _ _ (fun e he => (hfirst e he).2.2), List.length_append,
    List.length_append, filter_is_draw_batch_commands]
  simp [List.filter_cons, event.is_draw]

/-- Witness of C21: the triangle followed by the mixed list: three batches,
three scissors each followed by its draw. -/
theorem draws_follow_batches_witness :
    (frame_geometry triangle_mixed_data unit_scale =
        frame_result.assembled 100 100 triangle_mixed_state ∧
      (record_rendering_commands good_device ui_with_buffers triangle_mixed_data
        unit_scale).status = run_status.returned) ∧
    (∃ (a b : Nat) (first : List event),
      (record_rendering_commands good_device ui_with_buffers triangle_mixed_data
          unit_scale).events =
        first ++
        [event.bind_index_buffer (some b) 16, event.bind_attrib_buffer (some a) 0 0] ++
        triangle_mixed_state.draw_data.flatMap (fun d =>
          [event.scissor d.scissor, event.draw true d.first_elem d.nelem 1]) ∧
      (∀ e ∈ first, e.is_scissor_or_draw = false ∧ e.is_buffer_bind = false) ∧
      ((record_rendering_commands good_device ui_with_buffers triangle_mixed_data
          unit_scale).events.filter event.is_draw).length =
        triangle_mixed_state.draw_data.length) ∧
    (record_rendering_commands good_device ui_with_buffers triangle_mixed_data
        unit_scale).events.filter event.is_scissor_or_draw =
      [event.scissor ⟨10, 40, 50, 50⟩, event.draw true 0 3 1,
        event.scissor ⟨1, 60, 29, 38⟩, event.draw true 3 3 1,
        event.scissor ⟨1, 60, 29, 38⟩, event.draw true 6 3 1] :=
  have h : frame_geometry triangle_mixed_data unit_scale =
      frame_result.assembled 100 100 triangle_mixed_state := by decide!
  have hret : (record_rendering_commands good_device ui_with_buffers triangle_mixed_data
      unit_scale).status = run_status.returned := by decide!
  ⟨⟨h, hret⟩, draws_follow_batches good_device ui_with_buffers triangle_mixed_data
    unit_scale 100 100 triangle_mixed_state h hret, by decide!⟩

/-! ## The uniform channel -/

theorem write_all_cons (u : streamed_uniform) (d : uniform_data) (ds : List uniform_data) :
    u.write_all (d :: ds) = (u.write d).write_all ds := rfl

theorem write_all_append_one (u : streamed_uniform) (ds : List uniform_data)
    (d : uniform_data) : u.write_all (ds ++ [d]) = (u.write_all ds).write d := by
  simp [streamed_uniform.write_all, List.foldl_append]

/-- After any number of writes to a ring of depth `N > 0` the depth and the
number of slots are unchanged and the cursor has advanced by the number of
writes, modulo `N`. -/
theorem write_all_cursor (N : Nat) (ds : List uniform_data) :
    ∀ u : streamed_uniform, u.nframes = N → u.slots.length = N → u.frame < N →
      (u.write_all ds).nframes = N ∧ (u.write_all ds).slots.length = N ∧
      (u.write_all ds).frame = (u.frame + ds.length) % N := by
  induction ds with
  | nil =>
    intro u h1 h2 h3
    exact ⟨h1, h2, (Nat.mod_eq_of_lt h3).symm⟩
  | cons d ds ih =>
    intro u h1 h2 h3
    have hN : 0 < N := by omega
    rw [write_all_cons]
    obtain ⟨g1, g2, g3⟩ := ih (u.write d) h1
      (by simp [streamed_uniform.write, h2])
      (by simp only [streamed_uniform.write, h1]; exact Nat.mod_lt _ hN)
    refine ⟨g1, g2, ?_⟩
    rw [g3]
    simp only [streamed_uniform.write, h1, List.length_cons, Nat.mod_add_mod]
    congr 1
    omega

/-- Whatever the rendering API answers, the constructor sets up a uniform
channel of depth 3 and holds no vertex or index buffer. -/
theorem constructed_ui (dev : init_device) (atlas : font_atlas) :
    (ngf_imgui dev atlas).ui = ⟨streamed_uniform.create 3, none, none⟩ := by
  unfold ngf_imgui fill_texture_data
  simp only [apply_ite construction.ui, ite_self]

/-- C22: in a uniform channel of depth `N > 0` as `create` makes it, the
write number `k = ds.length + 1` (the one that follows the writes of `ds`)
stores its value in slot `(k - 1) mod N`, and `bind_op_at_current_offset`
called after it describes that slot; so write number `N + 1` goes to slot 0
again.  The backend object is constructed with a channel of depth 3. -/
theorem uniform_ring (N : Nat) (ds : List uniform_data) (d : uniform_data)
    (set binding : Nat) (hN : 0 < N) :
    ((streamed_uniform.create N).write_all (ds ++ [d])).current_offset = ds.length % N ∧
    ((streamed_uniform.create N).write_all (ds ++ [d])).slots[ds.length % N]? =
      some (some d) ∧
    ((streamed_uniform.create N).write_all (ds ++ [d])).bind_op_at_current_offset
      set binding = (set, binding, ds.length % N) ∧
    (ds.length = N →
      ((streamed_uniform.create N).write_all (ds ++ [d])).current_offset = 0) ∧
    (∀ (dev : init_device) (atlas : font_atlas),
      (ngf_imgui dev atlas).ui.uniform_data_ = streamed_uniform.create 3) := by
  obtain ⟨g1, g2, g3⟩ := write_all_cursor N ds (streamed_uniform.create N) rfl
    (by simp [streamed_uniform.create]) hN
  have hf : ((streamed_uniform.create N).write_all ds).frame = ds.length % N := by
    rw [g3]
    simp [streamed_uniform.create]
  have hco : ((streamed_uniform.create N).write_all (ds ++ [d])).current_offset =
      ds.length % N := by
    rw [write_all_append_one]
    exact hf
  refine ⟨hco, ?_, ?_, ?_, ?_⟩
  · rw [write_all_append_one]
    simp only [streamed_uniform.write, hf]
    rw [List.getElem?_set_self (by rw [g2]; exact Nat.mod_lt _ hN)]
  · simp only [streamed_uniform.bind_op_at_current_offset, hco]
  · intro hlen
    rw [hco, hlen, Nat.mod_self]
  · intro dev atlas
    rw [constructed_ui]

/-- Witness of C22: four writes to a ring of depth 3; the fourth goes to
slot 0. -/
theorem uniform_ring_witness :
    (0 < 3) ∧
    (((streamed_uniform.create 3).write_all
        ([⟨[[1]]⟩, ⟨[[2]]⟩, ⟨[[3]]⟩] ++ [⟨[[4]]⟩])).current_offset =
        ([⟨[[1]]⟩, ⟨[[2]]⟩, ⟨[[3]]⟩] : List uniform_data).length % 3 ∧
    ((streamed_uniform.create 3).write_all
        ([⟨[[1]]⟩, ⟨[[2]]⟩, ⟨[[3]]⟩] ++ [⟨[[4]]⟩])).slots[
          ([⟨[[1]]⟩, ⟨[[2]]⟩, ⟨[[3]]⟩] : List uniform_data).length % 3]? =
      some (some ⟨[[4]]⟩) ∧
    ((streamed_uniform.create 3).write_all
        ([⟨[[1]]⟩, ⟨[[2]]⟩, ⟨[[3]]⟩] ++ [⟨[[4]]⟩])).bind_op_at_current_offset 0 0 =
      (0, 0, ([⟨[[1]]⟩, ⟨[[2]]⟩, ⟨[[3]]⟩] : List uniform_data).length % 3) ∧
    (([⟨[[1]]⟩, ⟨[[2]]⟩, ⟨[[3]]⟩] : List uniform_data).length = 3 →
      ((streamed_uniform.create 3).write_all
        ([⟨[[1]]⟩, ⟨[[2]]⟩, ⟨[[3]]⟩] ++ [⟨[[4]]⟩])).current_offset = 0) ∧
    (∀ (dev : init_device) (atlas : font_atlas),
      (ngf_imgui dev atlas).ui.uniform_data_ = streamed_uniform.create 3)) ∧
    ((streamed_uniform.create 3).write_all
        ([⟨[[1]]⟩, ⟨[[2]]⟩, ⟨[[3]]⟩] ++ [⟨[[4]]⟩])).slots =
      [some ⟨[[4]]⟩, some ⟨[[2]]⟩, some ⟨[[3]]⟩] :=
  ⟨by decide, uniform_ring 3 [⟨[[1]]⟩, ⟨[[2]]⟩, ⟨[[3]]⟩] ⟨[[4]]⟩ 0 0 (by decide), by decide!⟩

/-! ## The clip rectangle and the display origin -/

/-- C23, as stated, fails: on a display whose origin is the UI coordinate
(10, 0), at framebuffer scale 2, the sub-command clipped to the UI rectangle
(10, 0, 60, 50) is tested and drawn with the rectangle (10, 0, 110, 100) and
the scissor (10, 100, 100, 100): the clip rectangle is scaled first and the
unscaled origin subtracted afterwards.  The rectangle of the claim is
(0, 0, 100, 100), whose scissor is (0, 100, 100, 100); the projection matrix
of the same call maps the UI coordinate (10, 0) to the top left corner of the
viewport. -/
theorem clip_rect_origin_not_scaled :
    frame_geometry offset_display_data retina_scale =
      frame_result.assembled 200 200 offset_display_state ∧
    (ScaleClipRects retina_scale.DisplayFramebufferScale offset_display_data.CmdLists).map
        (fun l => l.CmdBuffer.map (translated_clip_rect offset_display_data.DisplayPos)) =
      [[⟨10, 0, 110, 100⟩]] ∧
    pixel_space_clip_rect offset_display_data.DisplayPos retina_scale.DisplayFramebufferScale
      ⟨10, 0, 60, 50⟩ = ⟨0, 0, 100, 100⟩ ∧
    scissor_rect 200 ⟨0, 0, 100, 100⟩ = ⟨0, 100, 100, 100⟩ ∧
    offset_display_state.draw_data.map (fun b => b.scissor) = [⟨10, 100, 100, 100⟩] ∧
    clip_coords (ortho_projection offset_display_data) 10 0 = [-1, 1, 0, 1] := by
  decide!

/-! ## The font atlas -/

/-- C24, as stated, fails: for an atlas of 1024 x 128 pixels the constructor
creates the image with extent (1024, 128, 1) and a staging buffer of
4 * 1024 * 128 = 524288 bytes that receives as many bytes of pixels, but
`upload_font_texture` records an image write of extent (512, 64, 1): the
extent is a constant of the source, not the size of the atlas. -/
theorem font_upload_extent_is_constant :
    (ngf_imgui good_init_device large_atlas).status = run_status.returned ∧
    (ngf_imgui good_init_device large_atlas).events =
      [init_event.load_vertex_stage, init_event.load_fragment_stage,
        init_event.default_render_target, init_event.create_streamed_uniform 3,
        init_event.load_pipeline_metadata, init_event.create_pipeline_layout,
        init_event.initialize_pipeline,
        init_event.initialize_font_texture ⟨1024, 128, 1⟩,
        init_event.initialize_texture_data 524288,
        init_event.map_texture_data 0 524288, init_event.copy_font_pixels true 524288,
        init_event.flush_texture_data 0 524288, init_event.unmap_texture_data,
        init_event.initialize_tex_sampler, init_event.destroy_pipeline_metadata] ∧
    (upload_font_texture (ngf_imgui good_init_device large_atlas).ui []).2 =
      [⟨0, 0, 0, ⟨0, 0, 0⟩, ⟨512, 64, 1⟩⟩] := by
  decide!

/-- One iteration of the frame loop uploads the font texture when the flag
`imgui_font_uploaded` is not set, and only then. -/
theorem main_draw_ui_uploads (dev : device) (ui : backend) (flag : Bool) (data : ImDrawData)
    (io : ImGuiIO) :
    (main_draw_ui dev ui flag data io).2.count main_event.upload_font_texture =
      if flag then 0 else 1 := by
  have hmap : ∀ l : List event,
      (l.map main_event.ui).count main_event.upload_font_texture = 0 := by
    intro l
    rw [List.count_eq_zero]
    intro hmem
    obtain ⟨e, -, he⟩ := List.mem_map.mp hmem
    exact main_event.noConfusion he
  unfold main_draw_ui
  cases hs : (record_rendering_commands dev ui data io).status <;> cases flag <;>
    simp [hs, List.count_append, hmap, List.count_cons]

/-- The frame loop uploads the font texture at most once, and not at all once
the flag is set. -/
theorem main_loop_uploads (frames : List frame_input) :
    ∀ (ui : backend) (flag : Bool),
      (main_loop ui flag frames).count main_event.upload_font_texture ≤
        if flag then 0 else 1 := by
  induction frames with
  | nil => intro ui flag; cases flag <;> simp [main_loop]
  | cons f frames ih =>
    intro ui flag
    rw [main_loop]
    split
    · have hc := main_draw_ui_uploads f.dev ui flag f.data f.io
      split
      · rename_i ev hm
        rw [hm] at hc
        simp only at hc
        have := ih (record_rendering_commands f.dev ui f.data f.io).self true
        rw [List.count_append, hc]
        simp only [if_true] at this
        cases flag <;> simp_all
      · rename_i ev hm
        rw [hm] at hc
        simp only at hc
        rw [hc]
    · exact ih ui flag

/-- The frame loop, started with the flag unset, uploads the font texture
exactly once when some frame begins. -/
theorem main_loop_uploads_once (frames : List frame_input) :
    ∀ (ui : backend), (∃ f ∈ frames, f.begin_frame = true) →
      (main_loop ui false frames).count main_event.upload_font_texture = 1 := by
  induction frames with
  | nil => intro ui h; obtain ⟨f, hf, -⟩ := h; simp at hf
  | cons f frames ih =>
    intro ui h
    rw [main_loop]
    split
    · have hc := main_draw_ui_uploads f.dev ui false f.data f.io
      split
      · rename_i ev hm
        rw [hm] at hc
        simp only at hc
        have := main_loop_uploads frames
          (record_rendering_commands f.dev ui f.data f.io).self true
        rw [List.count_append, hc]
        simp only [if_true] at this
        simp_all
      · rename_i ev hm
        rw [hm] at hc
        simp only at hc
        rw [hc]
        rfl
    · rename_i hb
      obtain ⟨g, hg, hgb⟩ := h
      rcases List.mem_cons.mp hg with rfl | hg
      · exact absurd hgb hb
      · exact ih ui ⟨g, hg, hgb⟩

/-- C25, as stated, fails: a second call of `upload_font_texture`, on the
command buffer of the first, records a second image write. -/
theorem second_font_upload_records_again :
    (upload_font_texture (upload_font_texture fresh_ui []).1
      (upload_font_texture fresh_ui []).2).2 =
      [⟨0, 0, 0, ⟨0, 0, 0⟩, ⟨512, 64, 1⟩⟩, ⟨0, 0, 0, ⟨0, 0, 0⟩, ⟨512, 64, 1⟩⟩] := by
  decide

/-- C25, amended: every call of `upload_font_texture` records one image write
and leaves the backend object as it was; it is the frame loop of `main` that
calls it once only: started with the flag `imgui_font_uploaded` unset, the
loop uploads the font texture at most once, exactly once when some frame
begins, and never again once the flag is set. -/
theorem font_upload_once_per_run (ui : backend) (frames : List frame_input) :
    (∀ (self : backend) (cmdbuf : List write_image),
      upload_font_texture self cmdbuf =
        (self, cmdbuf ++ [⟨0, 0, 0, ⟨0, 0, 0⟩, ⟨512, 64, 1⟩⟩])) ∧
    (main_loop ui false frames).count main_event.upload_font_texture ≤ 1 ∧
    (main_loop ui true frames).count main_event.upload_font_texture = 0 ∧
    ((∃ f ∈ frames, f.begin_frame = true) →
      (main_loop ui false frames).count main_event.upload_font_texture = 1) := by
  refine ⟨fun self cmdbuf => rfl, ?_, ?_, main_loop_uploads_once frames ui⟩
  · simpa using main_loop_uploads frames ui false
  · simpa using main_loop_uploads frames ui true

/-- Witness of C25, amended: three iterations of the frame loop, the first of
which does not begin a frame; one upload. -/
theorem font_upload_once_per_run_witness :
    (∃ f ∈ three_frames, f.begin_frame = true) ∧
    (main_loop fresh_ui false three_frames).count main_event.upload_font_texture = 1 :=
  ⟨⟨⟨true, good_device, triangle_mixed_data, unit_scale⟩,
      List.mem_cons_of_mem _ (List.mem_cons_self _ _), rfl⟩,
    (font_upload_once_per_run fresh_ui three_frames).2.2.2
      ⟨⟨true, good_device, triangle_mixed_data, unit_scale⟩,
        List.mem_cons_of_mem _ (List.mem_cons_self _ _), rfl⟩⟩

/-! ## Failures during construction -/

/-- C26, as stated, fails: when only the creation of the sampler fails, the
constructor runs to its end and returns with a sampler that was not created;
when only the mapping of the staging buffer fails, the copy of the font
pixels runs on the `nullptr` it returned. -/
theorem failed_sampler_goes_unnoticed :
    (ngf_imgui failing_sampler_device large_atlas).status = run_status.returned ∧
    (ngf_imgui failing_sampler_device large_atlas).tex_sampler_ok = false ∧
    (ngf_imgui failing_sampler_device large_atlas).events.drop 13 =
      [init_event.initialize_tex_sampler, init_event.destroy_pipeline_metadata] ∧
    (ngf_imgui null_texture_mapping_device large_atlas).events.drop 9 =
      [init_event.map_texture_data 0 524288, init_event.copy_font_pixels false 524288] := by
  decide!

/-! ## The scissor -/

/-- The `float` difference of two whole numbers that differ by at most `2^24`
is exact. -/
theorem float_sub_intCast (a b : Int) (h : |a - b| ≤ 2 ^ 24) :
    float.finite (a : ℚ) - float.finite (b : ℚ) = float.finite ((a - b : Int) : ℚ) := by
  rw [float_sub_def]
  simp only [float.sub]
  rw [← Int.cast_sub]
  exact round_to_float_of_value (is_float_value_intCast (a - b) h)

/-- The cast to `int32_t` of a whole number within the range is that number. -/
theorem float_to_int_intCast (n : Int) (h1 : -2 ^ 31 ≤ n) (h2 : n < 2 ^ 31) :
    float_to_int (float.finite (n : ℚ)) = n := by
  rw [float_to_int_finite (by rw [truncate_intCast]; exact h1)
    (by rw [truncate_intCast]; exact h2), truncate_intCast]

/-- The cast to `uint32_t` of a whole number within the range is that number. -/
theorem float_to_uint_intCast (n : Int) (h1 : 0 ≤ n) (h2 : n < 2 ^ 32) :
    ((float_to_uint (float.finite (n : ℚ)) : Nat) : Int) = n := by
  rw [float_to_uint_finite (by rw [truncate_intCast]; exact h1)
    (by rw [truncate_intCast]; exact h2), truncate_intCast]

/-- C27, as stated, fails: the clip rectangle with the whole-number
coordinates `(0, -1, 50, 16777216)` passes the cull test on a 100 x 100
framebuffer, and its scissor has the height 16777216, not
`bottom - top = 16777217` (which is no `float`), so that it ends at
`y + height = 100`, not at `H - top = 101`. -/
theorem tall_rect_height_is_rounded :
    translated_clip_rect ⟨0, 0⟩ (geometry_cmd 6 ⟨0, -1, 50, 16777216⟩) =
      ⟨float.finite ((0 : Int) : ℚ), float.finite ((-1 : Int) : ℚ),
        float.finite ((50 : Int) : ℚ), float.finite ((16777216 : Int) : ℚ)⟩ ∧
    (process_cmd ⟨0, 0⟩ 100 100 0 ⟨[], [], []⟩ no_batches
        (geometry_cmd 6 ⟨0, -1, 50, 16777216⟩)).draw_data =
      [⟨⟨0, -16777116, 50, 16777216⟩, 0, 6⟩] ∧
    (16777216 : Int) - (-1) ≠ 16777216 ∧
    (-16777116 : Int) + 16777216 ≠ 100 - (-1) := by
  refine ⟨by decide!, by decide!, by decide, by decide⟩

/-- C27, amended: a sub-command without callback that passes the cull test and
whose translated clip rectangle has the whole-number coordinates
`(left, top, right, bottom)`, of magnitude at most `2^23`, with `left ≤ right`
and `top ≤ bottom`, appends one batch whose scissor is `x = left`,
`y = H - bottom`, `width = right - left`, `height = bottom - top`; the scissor
ends at `y + height = H - top`, and the two `float` differences given to the
unsigned casts are not negative. -/
theorem scissor_vertical_flip (pos : ImVec2) (W H : Int) (li : Nat) (l : ImDrawList)
    (st : cmd_loop_state) (cmd : ImDrawCmd) (left top right bottom : Int)
    (hcb : cmd.UserCallback = none)
    (hrect : translated_clip_rect pos cmd =
      ⟨float.finite (left : ℚ), float.finite (top : ℚ), float.finite (right : ℚ),
        float.finite (bottom : ℚ)⟩)
    (hp : passes_cull_test W H (translated_clip_rect pos cmd) = true)
    (hlr : left ≤ right) (htb : top ≤ bottom)
    (hl : |left| ≤ 2 ^ 23) (ht : |top| ≤ 2 ^ 23) (hr : |right| ≤ 2 ^ 23)
    (hb : |bottom| ≤ 2 ^ 23) :
    ∃ b, (process_cmd pos W H li l st cmd).draw_data = st.draw_data ++ [b] ∧
      b.scissor.x = left ∧ b.scissor.y = H - bottom ∧
      (b.scissor.width : Int) = right - left ∧ (b.scissor.height : Int) = bottom - top ∧
      b.scissor.y + (b.scissor.height : Int) = H - top ∧
      float.le 0 ((translated_clip_rect pos cmd).z - (translated_clip_rect pos cmd).x) = true ∧
      float.le 0 ((translated_clip_rect pos cmd).w - (translated_clip_rect pos cmd).y) =
        true := by
  have hl1 := abs_le.mp hl
  have ht1 := abs_le.mp ht
  have hr1 := abs_le.mp hr
  have hb1 := abs_le.mp hb
  have hdw : float.finite (right : ℚ) - float.finite (left : ℚ) =
      float.finite ((right - left : Int) : ℚ) :=
    float_sub_intCast right left (by rw [abs_le]; omega)
  have hdh : float.finite (bottom : ℚ) - float.finite (top : ℚ) =
      float.finite ((bottom - top : Int) : ℚ) :=
    float_sub_intCast bottom top (by rw [abs_le]; omega)
  have hx := float_to_int_intCast left (by omega) (by omega)
  have hy := float_to_int_intCast bottom (by omega) (by omega)
  have hw := float_to_uint_intCast (right - left) (by omega) (by omega)
  have hh := float_to_uint_intCast (bottom - top) (by omega) (by omega)
  rw [process_cmd_geometry_pass pos W H li l st cmd hcb hp, hrect]
  refine ⟨_, rfl, ?_, ?_, ?_, ?_, ?_, ?_, ?_⟩
  · simp only [scissor_rect, hx]
  · simp only [scissor_rect, hy]
  · simp only [scissor_rect, hdw, hw]
  · simp only [scissor_rect, hdh, hh]
  · simp only [scissor_rect, hdh, hh, hy]
    omega
  · rw [hdw, float_zero]
    simp only [float.le, decide_eq_true_eq]
    exact_mod_cast (by omega : (0 : Int) ≤ right - left)
  · rw [hdh, float_zero]
    simp only [float.le, decide_eq_true_eq]
    exact_mod_cast (by omega : (0 : Int) ≤ bottom - top)

/-- Witness of the amended C27: the sub-command of the triangle, clipped to
(10, 10, 60, 60), on a 100 x 100 framebuffer: scissor (10, 40, 50, 50). -/
theorem scissor_vertical_flip_witness :
    ((geometry_cmd 3 ⟨10, 10, 60, 60⟩).UserCallback = none ∧
      translated_clip_rect ⟨0, 0⟩ (geometry_cmd 3 ⟨10, 10, 60, 60⟩) =
        ⟨float.finite ((10 : Int) : ℚ), float.finite ((10 : Int) : ℚ),
          float.finite ((60 : Int) : ℚ), float.finite ((60 : Int) : ℚ)⟩ ∧
      passes_cull_test 100 100
        (translated_clip_rect ⟨0, 0⟩ (geometry_cmd 3 ⟨10, 10, 60, 60⟩)) = true ∧
      (10 : Int) ≤ 60 ∧ (10 : Int) ≤ 60 ∧ |(10 : Int)| ≤ 2 ^ 23 ∧ |(60 : Int)| ≤ 2 ^ 23) ∧
    (∃ b, (process_cmd ⟨0, 0⟩ 100 100 0 triangle_list no_batches
          (geometry_cmd 3 ⟨10, 10, 60, 60⟩)).draw_data = no_batches.draw_data ++ [b] ∧
      b.scissor.x = 10 ∧ b.scissor.y = 100 - 60 ∧
      (b.scissor.width : Int) = 60 - 10 ∧ (b.scissor.height : Int) = 60 - 10 ∧
      b.scissor.y + (b.scissor.height : Int) = 100 - 10 ∧
      float.le 0
        ((translated_clip_rect ⟨0, 0⟩ (geometry_cmd 3 ⟨10, 10, 60, 60⟩)).z -
          (translated_clip_rect ⟨0, 0⟩ (geometry_cmd 3 ⟨10, 10, 60, 60⟩)).x) = true ∧
      float.le 0
        ((translated_clip_rect ⟨0, 0⟩ (geometry_cmd 3 ⟨10, 10, 60, 60⟩)).w -
          (translated_clip_rect ⟨0, 0⟩ (geometry_cmd 3 ⟨10, 10, 60, 60⟩)).y) = true) ∧
    (process_cmd ⟨0, 0⟩ 100 100 0 triangle_list no_batches
      (geometry_cmd 3 ⟨10, 10, 60, 60⟩)).draw_data = [⟨⟨10, 40, 50, 50⟩, 0, 3⟩] :=
  ⟨⟨rfl, by decide!, by decide!, by decide, by decide, by decide, by decide⟩,
    scissor_vertical_flip ⟨0, 0⟩ 100 100 0 triangle_list no_batches
      (geometry_cmd 3 ⟨10, 10, 60, 60⟩) 10 10 60 60 rfl (by decide!) (by decide!)
      (by decide) (by decide) (by decide) (by decide) (by decide) (by decide),
    by decide!⟩

/-! ## The write to the uniform channel -/

/-- The uploads and the draws neither write to the uniform channel nor bind
the resources, and they leave the uniform channel alone. -/
theorem upload_and_draw_no_uniform (dev : device) (self : backend) (st : loop_state) :
    (∀ e ∈ (upload_and_draw dev self st).events,
      e.is_uniform_write = false ∧ e.is_resource_bind = false) ∧
    (upload_and_draw dev self st).self.uniform_data_ = self.uniform_data_ := by
  have hr1 : ∀ e ∈ release_attrib self.attrib_buffer_,
      e.is_uniform_write = false ∧ e.is_resource_bind = false := by
    intro e he
    cases hh : self.attrib_buffer_ <;> simp [release_attrib, hh] at he
    subst he; exact ⟨rfl, rfl⟩
  have hr2 : ∀ e ∈ release_index self.index_buffer_,
      e.is_uniform_write = false ∧ e.is_resource_bind = false := by
    intro e he
    cases hh : self.index_buffer_ <;> simp [release_index, hh] at he
    subst he; exact ⟨rfl, rfl⟩
  obtain ⟨ca, ma, ci, mi⟩ := dev
  constructor
  · intro e he
    cases ca <;> cases ma <;> cases ci <;> cases mi <;>
      simp only [upload_and_draw, upload_attrib_buffer, upload_index_buffer, draw_events,
        Option.isSome_none, Option.isSome_some, Bool.and_true, Bool.and_false,
        Bool.false_and, Bool.true_and, if_true, if_false, Bool.false_eq_true,
        List.mem_append, List.mem_cons, List.mem_flatMap,
        List.mem_singleton, List.not_mem_nil, or_false] at he <;>
      aesop
  · cases ca <;> cases ma <;> cases ci <;> cases mi <;>
      simp [upload_and_draw, upload_attrib_buffer, upload_index_buffer]

/-- A frame that is not skipped: the effects start with the write to the
uniform channel, the pipeline bind, the resource bind and the viewport; what
follows holds no write to the uniform channel and no resource bind; the
channel after the call is the channel after that one write. -/
theorem record_rendering_commands_rendered (dev : device) (self : backend)
    (data : ImDrawData) (io : ImGuiIO) (hidx : 0 < data.TotalIdxCount)
    (hw : 0 < float_to_int (data.DisplaySize.x * io.DisplayFramebufferScale.x))
    (hh : 0 < float_to_int (data.DisplaySize.y * io.DisplayFramebufferScale.y)) :
    ∃ rest, (record_rendering_commands dev self data io).events =
        prologue_events self.uniform_data_ (self.uniform_data_.write (ortho_projection data))
          data (float_to_int (data.DisplaySize.x * io.DisplayFramebufferScale.x))
          (float_to_int (data.DisplaySize.y * io.DisplayFramebufferScale.y)) ++ rest ∧
      (∀ e ∈ rest, e.is_uniform_write = false ∧ e.is_resource_bind = false) ∧
      (record_rendering_commands dev self data io).self.uniform_data_ =
        self.uniform_data_.write (ortho_projection data) := by
  unfold record_rendering_commands
  rw [if_neg (by omega)]
  simp only
  rw [if_neg (by omega)]
  split
  · exact ⟨[], by simp, by simp, rfl⟩
  · split
    · exact ⟨[], by simp, by simp, rfl⟩
    · rename_i st hst
      obtain ⟨hk, hu⟩ := upload_and_draw_no_uniform dev
        { self with uniform_data_ := self.uniform_data_.write (ortho_projection data) } st
      refine ⟨st.calls.map event.user_callback ++
        (upload_and_draw dev
          { self with uniform_data_ := self.uniform_data_.write (ortho_projection data) }
          st).events, by simp only [List.append_assoc], ?_, hu⟩
      intro e he
      rcases List.mem_append.mp he with he | he
      · exact ⟨(callback_events_kind st.calls e he).2.2.2.2,
          ((prologue_and_callbacks_no_draw self.uniform_data_ self.uniform_data_ data 0 0
            st.calls).2 e he).2⟩
      · exact hk e he

/-- C28: on a frame that is not skipped the effects of the call are the write
of the projection matrix to the uniform channel, the pipeline bind, the
resource bind at the slot just written and the viewport, followed by effects
among which there is no further write to the channel and no resource bind
(all draws are among them, so after the bind); the write is the only one,
and the channel after the call is the channel after that write.  On a skipped
frame (no index, or a framebuffer without width or height) there is no
effect and the backend object, its ring cursor included, is unchanged. -/
theorem uniform_write_discipline (dev : device) (self : backend) (data : ImDrawData)
    (io : ImGuiIO) :
    (0 < data.TotalIdxCount →
      0 < float_to_int (data.DisplaySize.x * io.DisplayFramebufferScale.x) →
      0 < float_to_int (data.DisplaySize.y * io.DisplayFramebufferScale.y) →
      ∃ (vp : ngf_irect2d) (rest : List event),
        (record_rendering_commands dev self data io).events =
          [event.uniform_write self.uniform_data_.frame (ortho_projection data),
            event.bind_gfx_pipeline,
            event.bind_resources (0, 0, self.uniform_data_.frame),
            event.viewport vp] ++ rest ∧
        (∀ e ∈ rest, e.is_uniform_write = false ∧ e.is_resource_bind = false) ∧
        (record_rendering_commands dev self data io).events.filter event.is_uniform_write =
          [event.uniform_write self.uniform_data_.frame (ortho_projection data)] ∧
        (record_rendering_commands dev self data io).self.uniform_data_ =
          self.uniform_data_.write (ortho_projection data)) ∧
    ((data.TotalIdxCount ≤ 0 ∨
        float_to_int (data.DisplaySize.x * io.DisplayFramebufferScale.x) ≤ 0 ∨
        float_to_int (data.DisplaySize.y * io.DisplayFramebufferScale.y) ≤ 0) →
      (record_rendering_commands dev self data io).events = [] ∧
      (record_rendering_commands dev self data io).self = self ∧
      (record_rendering_commands dev self data io).self.uniform_data_.frame =
        self.uniform_data_.frame) := by
  constructor
  · intro hidx hw hh
    obtain ⟨rest, hev, hrest, hu⟩ :=
      record_rendering_commands_rendered dev self data io hidx hw hh
    have hev2 : (record_rendering_commands dev self data io).events =
        [event.uniform_write self.uniform_data_.frame (ortho_projection data),
          event.bind_gfx_pipeline,
          event.bind_resources (0, 0, self.uniform_data_.frame),
          event.viewport ⟨0, 0,
            (float_to_int (data.DisplaySize.x * io.DisplayFramebufferScale.x) % 2 ^ 32).toNat,
            (float_to_int (data.DisplaySize.y * io.DisplayFramebufferScale.y) % 2 ^ 32).toNat⟩]
          ++ rest := by
      rw [hev]
      rfl
    refine ⟨_, rest, hev2, hrest, ?_, hu⟩
    rw [hev2, List.filter_append,
      filter_eq_nil_of_forall _ _ (fun e he => (hrest e he).1)]
    rfl
  · intro h
    have hrun : record_rendering_commands dev self data io =
        ⟨run_status.returned, self, []⟩ := by
      rcases h with h | h
      · exact record_rendering_commands_no_index dev self data io h
      · exact record_rendering_commands_no_framebuffer dev self data io h
    rw [hrun]
    exact ⟨rfl, rfl, rfl⟩

/-- Witness of C28: the frame of the triangle and the mixed list is rendered
with one write, to slot 0; the hidden frame writes nothing. -/
theorem uniform_write_discipline_witness :
    ((0 < triangle_mixed_data.TotalIdxCount ∧
      0 < float_to_int
        (triangle_mixed_data.DisplaySize.x * unit_scale.DisplayFramebufferScale.x) ∧
      0 < float_to_int
        (triangle_mixed_data.DisplaySize.y * unit_scale.DisplayFramebufferScale.y)) ∧
      ∃ (vp : ngf_irect2d) (rest : List event),
        (record_rendering_commands good_device ui_with_buffers triangle_mixed_data
            unit_scale).events =
          [event.uniform_write ui_with_buffers.uniform_data_.frame
              (ortho_projection triangle_mixed_data),
            event.bind_gfx_pipeline,
            event.bind_resources (0, 0, ui_with_buffers.uniform_data_.frame),
            event.viewport vp] ++ rest ∧
        (∀ e ∈ rest, e.is_uniform_write = false ∧ e.is_resource_bind = false) ∧
        (record_rendering_commands good_device ui_with_buffers triangle_mixed_data
            unit_scale).events.filter event.is_uniform_write =
          [event.uniform_write ui_with_buffers.uniform_data_.frame
            (ortho_projection triangle_mixed_data)] ∧
        (record_rendering_commands good_device ui_with_buffers triangle_mixed_data
            unit_scale).self.uniform_data_ =
          ui_with_buffers.uniform_data_.write (ortho_projection triangle_mixed_data)) ∧
    ((hidden_data.TotalIdxCount ≤ 0 ∨
        float_to_int (hidden_data.DisplaySize.x * unit_scale.DisplayFramebufferScale.x) ≤ 0 ∨
        float_to_int (hidden_data.DisplaySize.y * unit_scale.DisplayFramebufferScale.y) ≤ 0) ∧
      (record_rendering_commands good_device ui_with_buffers hidden_data unit_scale).events =
        [] ∧
      (record_rendering_commands good_device ui_with_buffers hidden_data unit_scale).self =
        ui_with_buffers ∧
      (record_rendering_commands good_device ui_with_buffers hidden_data
          unit_scale).self.uniform_data_.frame = ui_with_buffers.uniform_data_.frame) ∧
    (record_rendering_commands good_device ui_with_buffers triangle_mixed_data
        unit_scale).self.uniform_data_.frame = 1 :=
  ⟨⟨⟨by decide, by decide!, by decide!⟩,
      (uniform_write_discipline good_device ui_with_buffers triangle_mixed_data unit_scale).1
        (by decide) (by decide!) (by decide!)⟩,
    ⟨Or.inl (by decide),
      (uniform_write_discipline good_device ui_with_buffers hidden_data unit_scale).2
        (Or.inl (by decide))⟩,
    by decide!⟩

/-! ## The projection matrix -/

/-- A finite result of rounding is the rounded number. -/
theorem round_to_float_eq_finite {q r : ℚ} (h : round_to_float q = float.finite r) :
    r = rounded q := by
  rcases round_to_float_cases q with ⟨h1, -⟩ | ⟨h1, -⟩
  · rw [h1] at h
    injection h with h
    exact h.symm
  · rw [h1] at h
    exact float.noConfusion h

/-- When a `float` product with a positive factor is a positive number, the
other factor is a positive number. -/
theorem float_mul_pos (a s : float) (p : ℚ) (hmul : a * s = float.finite p) (hp : 0 < p)
    (hs : float.lt 0 s = true) : ∃ v, a = float.finite v ∧ 0 < v := by
  rw [float_zero] at hs
  rw [float_mul_def] at hmul
  cases a with
  | finite av =>
    cases s with
    | finite sv =>
      simp only [float.lt, decide_eq_true_eq] at hs
      simp only [float.mul] at hmul
      refine ⟨av, rfl, ?_⟩
      by_contra hn
      have hle : av * sv ≤ 0 := mul_nonpos_of_nonpos_of_nonneg (not_lt.mp hn) hs.le
      have := rounded_nonpos hle
      rw [← round_to_float_eq_finite hmul] at this
      linarith
    | infinity n =>
      simp only [float.mul] at hmul
      split at hmul <;> exact float.noConfusion hmul
    | nan => exact float.noConfusion hmul
  | infinity m =>
    cases s with
    | finite sv =>
      simp only [float.mul] at hmul
      split at hmul <;> exact float.noConfusion hmul
    | infinity n => exact float.noConfusion hmul
    | nan => exact float.noConfusion hmul
  | nan => cases s <;> exact float.noConfusion hmul

/-- On a frame that passes the framebuffer guard with a positive scale, the
display size is a positive number. -/
theorem display_size_pos (a s : float) (h : 0 < float_to_int (a * s))
    (hs : float.lt 0 s = true) : 0 < a.value := by
  obtain ⟨p, hp, hpos⟩ := float_to_int_pos h
  obtain ⟨v, hv, hvpos⟩ := float_mul_pos a s p hp hpos hs
  rw [hv]
  exact hvpos

/-- The entries of the projection matrix at the corners of the display, for a
display of non-zero width `w` and height `h` whose origin is `(px, py)`. -/
theorem ortho_corner_coords (px py w h : ℚ) (hw : w ≠ 0) (hh : h ≠ 0) :
    px * (2 / (px + w - px)) + (px + w + px) / (px - (px + w)) = -1 ∧
    py * (2 / (py - (py + h))) + (py + (py + h)) / (py + h - py) = 1 ∧
    (px + w) * (2 / (px + w - px)) + (px + w + px) / (px - (px + w)) = 1 ∧
    (py + h) * (2 / (py - (py + h))) + (py + (py + h)) / (py + h - py) = -1 := by
  have e1 : px + w - px = w := by ring
  have e2 : px - (px + w) = -w := by ring
  have e3 : py - (py + h) = -h := by ring
  have e4 : py + h - py = h := by ring
  rw [e1, e2, e3, e4]
  simp only [div_neg, div_eq_mul_inv]
  have iw : w * w⁻¹ = 1 := mul_inv_cancel₀ hw
  have ih : h * h⁻¹ = 1 := mul_inv_cancel₀ hh
  refine ⟨?_, ?_, ?_, ?_⟩
  · linear_combination (-1 : ℚ) * iw
  · linear_combination (1 : ℚ) * ih
  · linear_combination (1 : ℚ) * iw
  · linear_combination (-1 : ℚ) * ih

/-- C29: on a frame that is not skipped, with positive framebuffer scale, the
divisors `R - L` and `T - B` of the projection matrix are not zero, the matrix
written to the uniform channel is `ortho_projection data`, in which the
framebuffer scale does not occur, and that matrix, applied to the row vector
`(x, y, 0, 1)`, takes the corner `(L, T)` of the display to the clip
coordinates `(-1, 1, 0, 1)` and the corner `(R, B)` to `(1, -1, 0, 1)`; all of
it over exact rational arithmetic on the numbers the `float`s stand for. -/
theorem projection_corners (dev : device) (self : backend) (data : ImDrawData) (io : ImGuiIO)
    (hidx : 0 < data.TotalIdxCount)
    (hsx : float.lt 0 io.DisplayFramebufferScale.x = true)
    (hsy : float.lt 0 io.DisplayFramebufferScale.y = true)
    (hw : 0 < float_to_int (data.DisplaySize.x * io.DisplayFramebufferScale.x))
    (hh : 0 < float_to_int (data.DisplaySize.y * io.DisplayFramebufferScale.y)) :
    (data.DisplayPos.x.value + data.DisplaySize.x.value) - data.DisplayPos.x.value ≠ 0 ∧
    data.DisplayPos.y.value - (data.DisplayPos.y.value + data.DisplaySize.y.value) ≠ 0 ∧
    (record_rendering_commands dev self data io).events.head? =
      some (event.uniform_write self.uniform_data_.frame (ortho_projection data)) ∧
    clip_coords (ortho_projection data) data.DisplayPos.x.value data.DisplayPos.y.value =
      [-1, 1, 0, 1] ∧
    clip_coords (ortho_projection data) (data.DisplayPos.x.value + data.DisplaySize.x.value)
      (data.DisplayPos.y.value + data.DisplaySize.y.value) = [1, -1, 0, 1] := by
  have hx : 0 < data.DisplaySize.x.value := display_size_pos _ _ hw hsx
  have hy : 0 < data.DisplaySize.y.value := display_size_pos _ _ hh hsy
  have h1 : (data.DisplayPos.x.value + data.DisplaySize.x.value) -
      data.DisplayPos.x.value ≠ 0 := by
    intro h; linarith
  have h2 : data.DisplayPos.y.value -
      (data.DisplayPos.y.value + data.DisplaySize.y.value) ≠ 0 := by
    intro h; linarith
  obtain ⟨c1, c2, c3, c4⟩ :=
    ortho_corner_coords data.DisplayPos.x.value data.DisplayPos.y.value
      data.DisplaySize.x.value data.DisplaySize.y.value hx.ne.symm hy.ne.symm
  obtain ⟨rest, hev⟩ := record_rendering_commands_prologue dev self data io hidx hw hh
  refine ⟨h1, h2, ?_, ?_, ?_⟩
  · rw [hev]
    rfl
  · simp only [clip_coords, ortho_projection, List.cons.injEq, and_true]
    refine ⟨?_, ?_, ?_, ?_⟩
    · linarith
    · linarith
    · ring
    · ring
  · simp only [clip_coords, ortho_projection, List.cons.injEq, and_true]
    refine ⟨?_, ?_, ?_, ?_⟩
    · linarith
    · linarith
    · ring
    · ring

/-- Witness of C29: the display with origin (10, 0) and size 100 x 100 at
framebuffer scale 2. -/
theorem projection_corners_witness :
    (0 < offset_display_data.TotalIdxCount ∧
      float.lt 0 retina_scale.DisplayFramebufferScale.x = true ∧
      float.lt 0 retina_scale.DisplayFramebufferScale.y = true ∧
      0 < float_to_int
        (offset_display_data.DisplaySize.x * retina_scale.DisplayFramebufferScale.x) ∧
      0 < float_to_int
        (offset_display_data.DisplaySize.y * retina_scale.DisplayFramebufferScale.y)) ∧
    ((offset_display_data.DisplayPos.x.value + offset_display_data.DisplaySize.x.value) -
        offset_display_data.DisplayPos.x.value ≠ 0 ∧
      offset_display_data.DisplayPos.y.value -
        (offset_display_data.DisplayPos.y.value + offset_display_data.DisplaySize.y.value) ≠
        0 ∧
      (record_rendering_commands good_device fresh_ui offset_display_data
          retina_scale).events.head? =
        some (event.uniform_write fresh_ui.uniform_data_.frame
          (ortho_projection offset_display_data)) ∧
      clip_coords (ortho_projection offset_display_data)
        offset_display_data.DisplayPos.x.value offset_display_data.DisplayPos.y.value =
        [-1, 1, 0, 1] ∧
      clip_coords (ortho_projection offset_display_data)
        (offset_display_data.DisplayPos.x.value + offset_display_data.DisplaySize.x.value)
        (offset_display_data.DisplayPos.y.value + offset_display_data.DisplaySize.y.value) =
        [1, -1, 0, 1]) ∧
    ortho_projection offset_display_data =
      ⟨[[1 / 50, 0, 0, 0], [0, -1 / 50, 0, 0], [0, 0, -1, 0], [-6 / 5, 1, 0, 1]]⟩ :=
  ⟨⟨by decide, by decide!, by decide!, by decide!, by decide!⟩,
    projection_corners good_device fresh_ui offset_display_data retina_scale
      (by decide) (by decide!) (by decide!) (by decide!) (by decide!),
    by decide!⟩

/-! ## Bounds of the assembly -/

/-- Vertex `i` of draw list `k` sits at position `vtx_base k + i` of the
concatenated vertex segments. -/
theorem flatMap_vertices_getElem (lists : List ImDrawList) :
    ∀ (k i : Nat) (l : ImDrawList) (v : ImDrawVert), lists[k]? = some l →
      l.VtxBuffer[i]? = some v →
      (lists.flatMap (fun l => l.VtxBuffer))[vtx_base lists k + i]? = some v := by
  induction lists with
  | nil => intro k i l v hk; simp at hk
  | cons l0 rest ih =>
    intro k i l v hk hi
    cases k with
    | zero =>
      simp only [List.getElem?_cons_zero, Option.some.injEq] at hk
      subst hk
      have hlt : i < l0.VtxBuffer.length := by
        by_contra hn
        rw [List.getElem?_eq_none (by omega)] at hi
        exact absurd hi (by simp)
      rw [List.flatMap_cons, vtx_base_zero, Nat.zero_add, List.getElem?_append_left hlt, hi]
    | succ k =>
      simp only [List.getElem?_cons_succ] at hk
      rw [List.flatMap_cons, vtx_base_succ, List.getElem?_append_right (by omega)]
      have e : l0.VtxBuffer.length + vtx_base rest k + i - l0.VtxBuffer.length =
          vtx_base rest k + i := by omega
      rw [e]
      exact ih k i l v hk hi

/-- The concatenated vertex segments have `vtx_count` elements. -/
theorem flatMap_vertices_length (lists : List ImDrawList) :
    (lists.flatMap (fun l => l.VtxBuffer)).length = vtx_count lists := by
  induction lists with
  | nil => simp [vtx_count]
  | cons l rest ih => rw [List.flatMap_cons, List.length_append, vtx_count_cons, ih]

/-- C30: when the vertex segments of the draw lists sum to `V` and the index
segments to `I` (both below 2^32), the assembly loop on host arrays of `V`
vertices and `I` indices runs to its end without a write outside the arrays;
the counters end at `V` and `I`; the vertices of draw list `k` lie at the
positions `vtx_base k + i`, which end at `vtx_base k + length ≤ V`, and index
`a` of draw list `k` lies at position `idx_base k + a < I`. -/
theorem assembly_in_bounds (pos : ImVec2) (W H : Int) (V I : Nat) (lists : List ImDrawList)
    (hV : V < 2 ^ 32) (hI : I < 2 ^ 32)
    (hv : vtx_count lists = V) (hi : idx_count lists = I) :
    ∃ st, assemble_frame pos W H V I lists = some st ∧
      st.last_vertex = V ∧ st.last_index = I ∧
      st.vertex_data.length = V ∧ st.index_data.length = I ∧
      ∀ (k : Nat) (l : ImDrawList), lists[k]? = some l →
        vtx_base lists k + l.VtxBuffer.length ≤ V ∧
        (∀ (i : Nat) (v : ImDrawVert), l.VtxBuffer[i]? = some v →
          vtx_base lists k + i < V ∧ st.vertex_data[vtx_base lists k + i]? = some v) ∧
        (∀ (a raw : Nat), l.IdxBuffer[a]? = some raw →
          idx_base lists k + a < I ∧
          st.index_data[idx_base lists k + a]? = some (u16 (vtx_base lists k + raw))) := by
  obtain ⟨st, hst⟩ := assemble_frame_total pos W H V I lists hV hI (by omega) (by omega)
  obtain ⟨-, -, g3, g4, g5, g6⟩ := assemble_frame_arrays pos W H V I lists st hV hI hst
  rw [hv, Nat.sub_self, List.replicate_zero, List.append_nil] at g5
  rw [hi, Nat.sub_self, List.replicate_zero, List.append_nil] at g6
  have hlenv : st.vertex_data.length = V := by
    rw [g5, flatMap_vertices_length, hv]
  have hleni : st.index_data.length = I := by
    rw [g6, rebased_indices_length, hi]
  refine ⟨st, hst, by rw [g3, hv], by rw [g4, hi], hlenv, hleni, ?_⟩
  intro k l hk
  have hle := vtx_base_add_le lists k l hk
  refine ⟨by omega, ?_, ?_⟩
  · intro i v hiv
    have hlt : i < l.VtxBuffer.length := by
      by_contra hn
      rw [List.getElem?_eq_none (by omega)] at hiv
      exact absurd hiv (by simp)
    refine ⟨by omega, ?_⟩
    rw [g5]
    exact flatMap_vertices_getElem lists k i l v hk hiv
  · intro a raw har
    have hlt : a < l.IdxBuffer.length := by
      by_contra hn
      rw [List.getElem?_eq_none (by omega)] at har
      exact absurd har (by simp)
    have := idx_base_add_lt lists k a l hk hlt
    refine ⟨by omega, ?_⟩
    rw [g6]
    have := rebased_indices_getElem lists 0 k a l raw hk har
    rwa [Nat.zero_add] at this

/-- Witness of C30: the quad and the triangle, 7 vertices and 9 indices. -/
theorem assembly_in_bounds_witness :
    ((7 : Nat) < 2 ^ 32 ∧ (9 : Nat) < 2 ^ 32 ∧
      vtx_count [quad_list, triangle_list] = 7 ∧
      idx_count [quad_list, triangle_list] = 9) ∧
    (∃ st, assemble_frame ⟨0, 0⟩ 100 100 7 9 [quad_list, triangle_list] = some st ∧
      st.last_vertex = 7 ∧ st.last_index = 9 ∧
      st.vertex_data.length = 7 ∧ st.index_data.length = 9 ∧
      ∀ (k : Nat) (l : ImDrawList), [quad_list, triangle_list][k]? = some l →
        vtx_base [quad_list, triangle_list] k + l.VtxBuffer.length ≤ 7 ∧
        (∀ (i : Nat) (v : ImDrawVert), l.VtxBuffer[i]? = some v →
          vtx_base [quad_list, triangle_list] k + i < 7 ∧
          st.vertex_data[vtx_base [quad_list, triangle_list] k + i]? = some v) ∧
        (∀ (a raw : Nat), l.IdxBuffer[a]? = some raw →
          idx_base [quad_list, triangle_list] k + a < 9 ∧
          st.index_data[idx_base [quad_list, triangle_list] k + a]? =
            some (u16 (vtx_base [quad_list, triangle_list] k + raw)))) ∧
    assemble_frame ⟨0, 0⟩ 100 100 7 9 [quad_list, triangle_list] =
      some quad_triangle_state :=
  ⟨⟨by norm_num, by norm_num, by decide, by decide⟩,
    assembly_in_bounds ⟨0, 0⟩ 100 100 7 9 [quad_list, triangle_list]
      (by norm_num) (by norm_num) (by decide) (by decide),
    by decide!⟩

end ngf_imgui
